import Mathlib

/-!
Verification of sethealth/go-client: the token-exchange client

A shallow embedding of `src/main.go` (package `sethealth`) together with the
parts of the Go standard library that decide what the client puts on the wire
and what it reads back (`unicode/utf8`, `strconv`, `encoding/json`,
`net/http`).

Conventions of the embedding:

* a Go `byte` is a natural number below 256 and a Go `string` / `[]byte` is a
  list of bytes (`GoString`); ASCII literals are written with `bytes "..."`;
* a Go `rune` is a natural number (code point);
* `time.Duration` is an `Int` counting nanoseconds (an `int64` in Go);
* the outside world behind `(*http.Client).Do` is an explicit state `σ`
  threaded through every call.
-/

namespace Sethealth

/-- A Go `string` or `[]byte`: a sequence of bytes. -/
abbrev GoString := List Nat

/-- The bytes of an ASCII string literal. -/
@[reducible] def bytes (s : String) : GoString := s.toList.map Char.toNat

/-- Go `error` values the client can return. `ErrCredentials` is the package
variable of main.go; `SyntaxError`, `UnmarshalTypeError`, `EOF` and
`ErrUnexpectedEOF` are the errors of the JSON decoder (`*json.SyntaxError`,
`*json.UnmarshalTypeError`, `io.EOF`, `io.ErrUnexpectedEOF`; messages and
offsets are not modelled); `other` is any other error value, such as the
`*url.Error` of `http.Client.Do`, identified by its text. -/
inductive GoError where
  | ErrCredentials
  | SyntaxError
  | UnmarshalTypeError
  | EOF
  | ErrUnexpectedEOF
  | other (msg : GoString)
  deriving DecidableEq, Repr

/-- Why a run of the embedding produced no result: a Go run-time panic
(`phasePanicMsg`, index or slice out of range), or the iteration bound of a
loop of the embedding. -/
inductive Abort where
  | panic
  | fuel
  deriving DecidableEq, Repr

/-! ## unicode/utf8 -/

namespace utf8

/-- utf8.RuneError, the replacement character U+FFFD. -/
def RuneError : Nat := 0xFFFD

/-- utf8.RuneSelf: bytes below it are single-byte runes. -/
def RuneSelf : Nat := 0x80

/-- Whether `b` is a continuation byte within `[lo, hi]`. -/
def inRange (lo hi b : Nat) : Bool := decide (lo ≤ b) && decide (b ≤ hi)

/-- Lowest accepted second byte after the leading byte `p0`
(`acceptRanges[first[p0]>>4].lo`). -/
def acceptLo (p0 : Nat) : Nat :=
  if p0 = 0xE0 then 0xA0 else if p0 = 0xF0 then 0x90 else 0x80

/-- Highest accepted second byte after the leading byte `p0`
(`acceptRanges[first[p0]>>4].hi`). -/
def acceptHi (p0 : Nat) : Nat :=
  if p0 = 0xED then 0x9F else if p0 = 0xF4 then 0x8F else 0xBF

/-- utf8.DecodeRune / utf8.DecodeRuneInString: the first rune of `p` and its
width in bytes; `(RuneError, 0)` on empty input and `(RuneError, 1)` when the
encoding is invalid (bad leading byte, truncated, overlong, surrogate, or out
of range). -/
def DecodeRune : GoString → Nat × Nat
  | [] => (RuneError, 0)
  | p0 :: rest =>
    if p0 < 0x80 then (p0, 1)
    else if p0 < 0xC2 ∨ 0xF4 < p0 then (RuneError, 1)
    else if p0 < 0xE0 then
      match rest with
      | b1 :: _ =>
        if inRange (acceptLo p0) (acceptHi p0) b1 then
          ((p0 % 0x20) * 0x40 + b1 % 0x40, 2)
        else (RuneError, 1)
      | _ => (RuneError, 1)
    else if p0 < 0xF0 then
      match rest with
      | b1 :: b2 :: _ =>
        if !inRange (acceptLo p0) (acceptHi p0) b1 then (RuneError, 1)
        else if !inRange 0x80 0xBF b2 then (RuneError, 1)
        else ((p0 % 0x10) * 0x1000 + (b1 % 0x40) * 0x40 + b2 % 0x40, 3)
      | _ => (RuneError, 1)
    else
      match rest with
      | b1 :: b2 :: b3 :: _ =>
        if !inRange (acceptLo p0) (acceptHi p0) b1 then (RuneError, 1)
        else if !inRange 0x80 0xBF b2 then (RuneError, 1)
        else if !inRange 0x80 0xBF b3 then (RuneError, 1)
        else ((p0 % 0x08) * 0x40000 + (b1 % 0x40) * 0x1000 + (b2 % 0x40) * 0x40 + b3 % 0x40, 4)
      | _ => (RuneError, 1)

/-- utf8.AppendRune / utf8.EncodeRune: the UTF-8 encoding of the rune `r`;
surrogates and values above U+10FFFF are encoded as U+FFFD. -/
def EncodeRune (r : Nat) : GoString :=
  if r < 0x80 then [r]
  else if r < 0x800 then [0xC0 + r / 0x40, 0x80 + r % 0x40]
  else if 0x10FFFF < r ∨ (0xD800 ≤ r ∧ r ≤ 0xDFFF) then [0xEF, 0xBF, 0xBD]
  else if r < 0x10000 then [0xE0 + r / 0x1000, 0x80 + (r / 0x40) % 0x40, 0x80 + r % 0x40]
  else [0xF0 + r / 0x40000, 0x80 + (r / 0x1000) % 0x40, 0x80 + (r / 0x40) % 0x40, 0x80 + r % 0x40]

/-- Loop of utf8.ValidString: every decoding step yields a well-formed rune.
The index arithmetic `i += size` is rendered by `skip`, the number of bytes
of the current rune still to be passed over. -/
def validLoop : Nat → GoString → Bool
  | _, [] => true
  | skip + 1, _ :: s => validLoop skip s
  | 0, b :: s =>
    let (r, size) := DecodeRune (b :: s)
    if r = RuneError ∧ size = 1 then false else validLoop (size - 1) s

/-- utf8.ValidString: `s` consists entirely of valid UTF-8-encoded runes. -/
def ValidString (s : GoString) : Bool := validLoop 0 s

end utf8

/-! ## strconv -/

namespace strconv

/-- Decimal digits of `u`, most significant first, prepended to `acc`
(`fuel` bounds the number of digits). -/
def formatBits : Nat → Nat → GoString → GoString
  | 0, _, acc => acc
  | fuel + 1, u, acc =>
    if u < 10 then (0x30 + u) :: acc
    else formatBits fuel (u / 10) ((0x30 + u % 10) :: acc)

/-- strconv.FormatInt(i, 10) / strconv.AppendInt(nil, i, 10): the decimal
text of `i`, with a leading `-` when negative. -/
def FormatInt (i : Int) : GoString :=
  if i < 0 then 0x2D :: formatBits (i.natAbs + 1) i.natAbs []
  else formatBits (i.natAbs + 1) i.natAbs []

end strconv

/-! ## encoding/json: encoder -/

namespace json

/-- The table `hex = "0123456789abcdef"` indexed by a nibble. -/
def hex (n : Nat) : Nat := if n < 10 then 0x30 + n else 0x57 + n

/-- The table `safeSet`: ASCII bytes that need no escaping in a JSON string
(everything from space to DEL except the double quote and the backslash). -/
def safeSet (b : Nat) : Bool :=
  decide (0x20 ≤ b) && decide (b < 0x80) && !decide (b = 0x22) && !decide (b = 0x5C)

/-- The table `htmlSafeSet`: `safeSet` without `&`, `<` and `>`. -/
def htmlSafeSet (b : Nat) : Bool :=
  safeSet b && !decide (b = 0x26) && !decide (b = 0x3C) && !decide (b = 0x3E)

/-- The `switch b` of appendString for an ASCII byte that is not safe: the
two-byte escapes for backslash, quote, `\b`, `\f`, `\n`, `\r`, `\t` and the
six-byte `\u00XX` escape for every other byte. -/
def escapeByte (b : Nat) : GoString :=
  if b = 0x5C ∨ b = 0x22 then [0x5C, b]
  else if b = 0x08 then [0x5C, 0x62]
  else if b = 0x0C then [0x5C, 0x66]
  else if b = 0x0A then [0x5C, 0x6E]
  else if b = 0x0D then [0x5C, 0x72]
  else if b = 0x09 then [0x5C, 0x74]
  else [0x5C, 0x75, 0x30, 0x30, hex (b / 16), hex (b % 16)]

/-- The loop of appendString over `src`, one rune per step; `skip` counts the
bytes of the current rune still to be passed over (`i += size`). Safe ASCII
bytes and well-formed multi-byte runes are copied, unsafe ASCII bytes are
escaped, an invalid byte becomes the escape of U+FFFD, and U+2028 and U+2029
are written as their six-byte escapes. -/
def appendStringLoop (escapeHTML : Bool) : Nat → GoString → GoString
  | _, [] => []
  | skip + 1, _ :: s => appendStringLoop escapeHTML skip s
  | 0, b :: s =>
    if b < utf8.RuneSelf then
      if htmlSafeSet b || (!escapeHTML && safeSet b) then
        b :: appendStringLoop escapeHTML 0 s
      else
        escapeByte b ++ appendStringLoop escapeHTML 0 s
    else
      let (c, size) := utf8.DecodeRune (b :: s)
      if c = utf8.RuneError ∧ size = 1 then
        [0x5C, 0x75, 0x66, 0x66, 0x66, 0x64] ++ appendStringLoop escapeHTML 0 s
      else if c = 0x2028 ∨ c = 0x2029 then
        [0x5C, 0x75, 0x32, 0x30, 0x32, hex (c % 16)] ++ appendStringLoop escapeHTML (size - 1) s
      else
        (b :: s).take size ++ appendStringLoop escapeHTML (size - 1) s

/-- The function appendString of encode.go: `src` as a JSON string literal,
double quotes included. -/
def appendString (src : GoString) (escapeHTML : Bool) : GoString :=
  [0x22] ++ appendStringLoop escapeHTML 0 src ++ [0x22]

/-- The dynamic values the client stores in its `map[string]interface{}`:
a Go `string`, a `bool`, or a `time.Duration` (kind `int64`, no MarshalJSON
or MarshalText method). -/
inductive Value where
  | string (s : GoString)
  | bool (b : Bool)
  | duration (d : Int)
  deriving DecidableEq, Repr

/-- The encoders newTypeEncoder picks for the three kinds: stringEncoder,
boolEncoder (`true` / `false`) and intEncoder (strconv.AppendInt, base 10). -/
def encodeValue (escapeHTML : Bool) : Value → GoString
  | .string s => appendString s escapeHTML
  | .bool true => bytes "true"
  | .bool false => bytes "false"
  | .duration d => strconv.FormatInt d

/-- Go's `<` on strings: bytewise lexicographic order. -/
def stringLess : GoString → GoString → Bool
  | [], [] => false
  | [], _ :: _ => true
  | _ :: _, [] => false
  | a :: as, b :: bs => if a < b then true else if b < a then false else stringLess as bs

/-- Insertion of one entry into a list of entries sorted by key. -/
def insertSorted (kv : GoString × Value) : List (GoString × Value) → List (GoString × Value)
  | [] => [kv]
  | x :: xs => if stringLess x.1 kv.1 then x :: insertSorted kv xs else kv :: x :: xs

/-- The key sort of mapEncoder.encode (`sort.Slice` on the key strings). -/
def sortByKey (m : List (GoString × Value)) : List (GoString × Value) :=
  m.foldr insertSorted []

/-- One `"key":value` member as mapEncoder.encode writes it. -/
def encodeMember (escapeHTML : Bool) (kv : GoString × Value) : GoString :=
  appendString kv.1 escapeHTML ++ [0x3A] ++ encodeValue escapeHTML kv.2

/-- The members of a sorted map separated by commas. -/
def encodeMembers (escapeHTML : Bool) : List (GoString × Value) → GoString
  | [] => []
  | [kv] => encodeMember escapeHTML kv
  | kv :: rest => encodeMember escapeHTML kv ++ [0x2C] ++ encodeMembers escapeHTML rest

/-- json.Marshal on a `map[string]interface{}` given by its entries: the
members in key order between braces, HTML escaping on. It cannot fail on
these value kinds, so only the bytes are returned. -/
def Marshal (m : List (GoString × Value)) : GoString :=
  [0x7B] ++ encodeMembers true (sortByKey m) ++ [0x7D]

end json

/-! ## encoding/json: scanner (scanner.go) -/

namespace json

/-- The scan codes a step function returns (`scanContinue` ... `scanError`). -/
inductive Op where
  | scanContinue
  | scanBeginLiteral
  | scanBeginObject
  | scanObjectKey
  | scanObjectValue
  | scanEndObject
  | scanBeginArray
  | scanArrayValue
  | scanEndArray
  | scanSkipSpace
  | scanEnd
  | scanError
  deriving DecidableEq, Repr

/-- The entries of the scanner's parse stack. -/
inductive ParseState where
  | parseObjectKey
  | parseObjectValue
  | parseArrayValue
  deriving DecidableEq, Repr

/-- The step functions of scanner.go, as the values the field `step` takes. -/
inductive StepFn where
  | stateBeginValueOrEmpty
  | stateBeginValue
  | stateBeginStringOrEmpty
  | stateBeginString
  | stateEndValue
  | stateEndTop
  | stateInString
  | stateInStringEsc
  | stateInStringEscU
  | stateInStringEscU1
  | stateInStringEscU12
  | stateInStringEscU123
  | stateNeg
  | state1
  | state0
  | stateDot
  | stateDot0
  | stateE
  | stateESign
  | stateE0
  | stateT
  | stateTr
  | stateTru
  | stateF
  | stateFa
  | stateFal
  | stateFals
  | stateN
  | stateNu
  | stateNul
  | stateError
  deriving DecidableEq, Repr

/-- The JSON scanner state. `parseState` is the parse stack with its top at
the head of the list (Go appends at the end); `err` records that `s.err` is
set (the message and offset of the SyntaxError are not modelled). -/
structure scanner where
  step : StepFn
  endTop : Bool
  parseState : List ParseState
  err : Bool
  deriving DecidableEq, Repr

/-- The nesting limit of the scanner. -/
def maxNestingDepth : Nat := 10000

namespace scanner

/-- The method reset: the state in which a new value is expected. -/
def reset : scanner :=
  { step := .stateBeginValue, endTop := false, parseState := [], err := false }

/-- The method error: records a syntax error and yields scanError. -/
def error (s : scanner) : Op × scanner :=
  (.scanError, { s with step := .stateError, err := true })

/-- The method pushParseState: pushes a stack entry, failing past the nesting
limit. -/
def pushParseState (s : scanner) (newParseState : ParseState) (successState : Op) :
    Op × scanner :=
  let s1 := { s with parseState := newParseState :: s.parseState }
  if s1.parseState.length ≤ maxNestingDepth then (successState, s1) else error s1

/-- The method popParseState: pops the stack; an emptied stack ends the
top-level value. -/
def popParseState (s : scanner) : scanner :=
  let rest := s.parseState.tail
  if rest.length = 0 then { s with parseState := rest, step := .stateEndTop, endTop := true }
  else { s with parseState := rest, step := .stateEndValue }

end scanner

/-- The function isSpace: space, tab, carriage return, line feed. -/
def isSpace (c : Nat) : Bool :=
  decide (c = 0x20) || decide (c = 0x09) || decide (c = 0x0D) || decide (c = 0x0A)

/-- Decimal digit test `'0' <= c && c <= '9'`. -/
def isDigit (c : Nat) : Bool := decide (0x30 ≤ c) && decide (c ≤ 0x39)

/-- Hexadecimal digit test of the `\u` escape states. -/
def isHexDigit (c : Nat) : Bool :=
  isDigit c || (decide (0x61 ≤ c) && decide (c ≤ 0x66)) || (decide (0x41 ≤ c) && decide (c ≤ 0x46))

/-- The function stateEndTop: after the top-level value only space may
follow; anything else is recorded as an error for the next call, and the
code returned is scanEnd either way. -/
def stateEndTop (s : scanner) (c : Nat) : Op × scanner :=
  if !isSpace c then (.scanEnd, (scanner.error s).2) else (.scanEnd, s)

/-- The function stateEndValue: the byte after a completed value. -/
def stateEndValue (s : scanner) (c : Nat) : Op × scanner :=
  match s.parseState with
  | [] => stateEndTop { s with step := .stateEndTop, endTop := true } c
  | ps :: rest =>
    if isSpace c then (.scanSkipSpace, { s with step := .stateEndValue })
    else
      match ps with
      | .parseObjectKey =>
        if c = 0x3A then
          (.scanObjectKey, { s with parseState := .parseObjectValue :: rest, step := .stateBeginValue })
        else scanner.error s
      | .parseObjectValue =>
        if c = 0x2C then
          (.scanObjectValue, { s with parseState := .parseObjectKey :: rest, step := .stateBeginString })
        else if c = 0x7D then (.scanEndObject, scanner.popParseState s)
        else scanner.error s
      | .parseArrayValue =>
        if c = 0x2C then (.scanArrayValue, { s with step := .stateBeginValue })
        else if c = 0x5D then (.scanEndArray, scanner.popParseState s)
        else scanner.error s

/-- The function stateBeginValue: the first byte of a value. -/
def stateBeginValue (s : scanner) (c : Nat) : Op × scanner :=
  if isSpace c then (.scanSkipSpace, s)
  else if c = 0x7B then
    scanner.pushParseState { s with step := .stateBeginStringOrEmpty } .parseObjectKey .scanBeginObject
  else if c = 0x5B then
    scanner.pushParseState { s with step := .stateBeginValueOrEmpty } .parseArrayValue .scanBeginArray
  else if c = 0x22 then (.scanBeginLiteral, { s with step := .stateInString })
  else if c = 0x2D then (.scanBeginLiteral, { s with step := .stateNeg })
  else if c = 0x30 then (.scanBeginLiteral, { s with step := .state0 })
  else if c = 0x74 then (.scanBeginLiteral, { s with step := .stateT })
  else if c = 0x66 then (.scanBeginLiteral, { s with step := .stateF })
  else if c = 0x6E then (.scanBeginLiteral, { s with step := .stateN })
  else if 0x31 ≤ c ∧ c ≤ 0x39 then (.scanBeginLiteral, { s with step := .state1 })
  else scanner.error s

/-- The function stateBeginString: the opening quote of an object key. -/
def stateBeginString (s : scanner) (c : Nat) : Op × scanner :=
  if isSpace c then (.scanSkipSpace, s)
  else if c = 0x22 then (.scanBeginLiteral, { s with step := .stateInString })
  else scanner.error s

/-- A literal byte `want` is expected; on it the scanner moves to `next`. -/
def expectByte (s : scanner) (c want : Nat) (next : StepFn) : Op × scanner :=
  if c = want then (.scanContinue, { s with step := next }) else scanner.error s

/-- A hexadecimal digit is expected; on it the scanner moves to `next`. -/
def expectHex (s : scanner) (c : Nat) (next : StepFn) : Op × scanner :=
  if isHexDigit c then (.scanContinue, { s with step := next }) else scanner.error s

/-- The call `s.step(s, c)`: dispatch on the current step function. -/
def scanner.stepByte (s : scanner) (c : Nat) : Op × scanner :=
  match s.step with
  | .stateBeginValueOrEmpty =>
    if isSpace c then (.scanSkipSpace, s)
    else if c = 0x5D then stateEndValue s c
    else stateBeginValue s c
  | .stateBeginValue => stateBeginValue s c
  | .stateBeginStringOrEmpty =>
    if isSpace c then (.scanSkipSpace, s)
    else if c = 0x7D then
      stateEndValue { s with parseState := .parseObjectValue :: s.parseState.tail } c
    else stateBeginString s c
  | .stateBeginString => stateBeginString s c
  | .stateEndValue => stateEndValue s c
  | .stateEndTop => stateEndTop s c
  | .stateInString =>
    if c = 0x22 then (.scanContinue, { s with step := .stateEndValue })
    else if c = 0x5C then (.scanContinue, { s with step := .stateInStringEsc })
    else if c < 0x20 then scanner.error s
    else (.scanContinue, s)
  | .stateInStringEsc =>
    if c = 0x62 ∨ c = 0x66 ∨ c = 0x6E ∨ c = 0x72 ∨ c = 0x74 ∨ c = 0x5C ∨ c = 0x2F ∨ c = 0x22 then
      (.scanContinue, { s with step := .stateInString })
    else if c = 0x75 then (.scanContinue, { s with step := .stateInStringEscU })
    else scanner.error s
  | .stateInStringEscU => expectHex s c .stateInStringEscU1
  | .stateInStringEscU1 => expectHex s c .stateInStringEscU12
  | .stateInStringEscU12 => expectHex s c .stateInStringEscU123
  | .stateInStringEscU123 => expectHex s c .stateInString
  | .stateNeg =>
    if c = 0x30 then (.scanContinue, { s with step := .state0 })
    else if 0x31 ≤ c ∧ c ≤ 0x39 then (.scanContinue, { s with step := .state1 })
    else scanner.error s
  | .state1 =>
    if isDigit c then (.scanContinue, { s with step := .state1 })
    else if c = 0x2E then (.scanContinue, { s with step := .stateDot })
    else if c = 0x65 ∨ c = 0x45 then (.scanContinue, { s with step := .stateE })
    else stateEndValue s c
  | .state0 =>
    if c = 0x2E then (.scanContinue, { s with step := .stateDot })
    else if c = 0x65 ∨ c = 0x45 then (.scanContinue, { s with step := .stateE })
    else stateEndValue s c
  | .stateDot =>
    if isDigit c then (.scanContinue, { s with step := .stateDot0 }) else scanner.error s
  | .stateDot0 =>
    if isDigit c then (.scanContinue, s)
    else if c = 0x65 ∨ c = 0x45 then (.scanContinue, { s with step := .stateE })
    else stateEndValue s c
  | .stateE =>
    if c = 0x2B ∨ c = 0x2D then (.scanContinue, { s with step := .stateESign })
    else if isDigit c then (.scanContinue, { s with step := .stateE0 })
    else scanner.error s
  | .stateESign =>
    if isDigit c then (.scanContinue, { s with step := .stateE0 }) else scanner.error s
  | .stateE0 =>
    if isDigit c then (.scanContinue, s) else stateEndValue s c
  | .stateT => expectByte s c 0x72 .stateTr
  | .stateTr => expectByte s c 0x75 .stateTru
  | .stateTru => expectByte s c 0x65 .stateEndValue
  | .stateF => expectByte s c 0x61 .stateFa
  | .stateFa => expectByte s c 0x6C .stateFal
  | .stateFal => expectByte s c 0x73 .stateFals
  | .stateFals => expectByte s c 0x65 .stateEndValue
  | .stateN => expectByte s c 0x75 .stateNu
  | .stateNu => expectByte s c 0x6C .stateNul
  | .stateNul => expectByte s c 0x6C .stateEndValue
  | .stateError => (.scanError, s)

/-- The method eof: tells the scanner the input has ended; scanEnd when a
complete top-level value has been seen, scanError otherwise. -/
def scanner.eof (s : scanner) : Op × scanner :=
  if s.err then (.scanError, s)
  else if s.endTop then (.scanEnd, s)
  else
    let s1 := (s.stepByte 0x20).2
    if s1.endTop then (.scanEnd, s1)
    else (.scanError, { s1 with err := true })

/-- The loop of checkValid: feeds every byte to the scanner, stopping at the
first scanError. -/
def checkValidLoop : scanner → GoString → Option scanner
  | s, [] => some s
  | s, c :: rest =>
    let (op, s1) := s.stepByte c
    if op = .scanError then none else checkValidLoop s1 rest

/-- json.Valid: whether `data` is a valid JSON encoding, that is one JSON
value with optional surrounding white space and nothing else. -/
def Valid (data : GoString) : Bool :=
  match checkValidLoop scanner.reset data with
  | none => false
  | some s => decide ((s.eof).1 ≠ .scanError)

end json

/-! ## encoding/json: decoder (stream.go, decode.go) -/

namespace json

/-- The function nonSpace of stream.go: some byte of `b` is not white space. -/
def nonSpace (b : GoString) : Bool := b.any (fun c => !isSpace c)

/-- The loop of Decoder.readValue over the bytes of the stream up to its end:
the bytes of the next JSON value (leading white space included). The value
ends before a byte on which the scanner reports scanEnd, or with a closing
brace or bracket that completes the top-level value; what follows in the
stream is not looked at. At the end of the stream a pending top-level number
or literal is completed, otherwise the result is io.ErrUnexpectedEOF, or
io.EOF when the buffer `buf` held only white space. -/
def readValueLoop (buf : GoString) : scanner → GoString → Except GoError GoString
  | s, [] =>
    if (s.stepByte 0x20).1 = .scanEnd then .ok []
    else if nonSpace buf then .error .ErrUnexpectedEOF
    else .error .EOF
  | s, c :: rest =>
    let (op, s1) := s.stepByte c
    if op = .scanEnd then .ok []
    else if (op = .scanEndObject ∨ op = .scanEndArray) ∧ (stateEndValue s1 0x20).1 = .scanEnd then
      .ok [c]
    else if op = .scanError then .error .SyntaxError
    else
      match readValueLoop buf s1 rest with
      | .ok v => .ok (c :: v)
      | .error e => .error e

/-- Decoder.readValue on a fresh decoder whose stream yields `body` and then
ends. -/
def readValue (body : GoString) : Except GoError GoString :=
  readValueLoop body scanner.reset body

/-- The digit switch of getu4: the value of a hexadecimal digit, `none` for
any other byte. -/
def fromHex (c : Nat) : Option Nat :=
  if 0x30 ≤ c ∧ c ≤ 0x39 then some (c - 0x30)
  else if 0x61 ≤ c ∧ c ≤ 0x66 then some (c - 0x61 + 10)
  else if 0x41 ≤ c ∧ c ≤ 0x46 then some (c - 0x41 + 10)
  else none

/-- The function getu4: the value of a `\uXXXX` escape at the start of `s`,
or `none` (Go returns -1) when `s` does not start with one. -/
def getu4 : GoString → Option Nat
  | 0x5C :: 0x75 :: h1 :: h2 :: h3 :: h4 :: _ =>
    match fromHex h1, fromHex h2, fromHex h3, fromHex h4 with
    | some a, some b, some c, some d => some (((a * 16 + b) * 16 + c) * 16 + d)
    | _, _, _, _ => none
  | _ => none

/-- utf16.DecodeRune applied to `r1` and the result of a second getu4: the
code point of a valid surrogate pair, U+FFFD otherwise. -/
def utf16DecodeRune (r1 : Nat) (r2 : Option Nat) : Nat :=
  match r2 with
  | some r2 =>
    if 0xD800 ≤ r1 ∧ r1 < 0xDC00 ∧ 0xDC00 ≤ r2 ∧ r2 < 0xE000 then
      (r1 - 0xD800) * 0x400 + (r2 - 0xDC00) + 0x10000
    else 0xFFFD
  | none => 0xFFFD

/-- The first loop of unquoteBytes: the longest prefix free of backslashes,
quotes, control bytes and invalid UTF-8 (`s[0:r]`), and what remains
(`s[r:]`). `skip` counts the bytes of the current rune still to be passed. -/
def unquoteScan : Nat → GoString → GoString × GoString
  | _, [] => ([], [])
  | skip + 1, c :: s => let (p, r) := unquoteScan skip s; (c :: p, r)
  | 0, c :: s =>
    if c = 0x5C ∨ c = 0x22 ∨ c < 0x20 then ([], c :: s)
    else if c < utf8.RuneSelf then let (p, r) := unquoteScan 0 s; (c :: p, r)
    else
      let (rr, size) := utf8.DecodeRune (c :: s)
      if rr = utf8.RuneError ∧ size = 1 then ([], c :: s)
      else let (p, r) := unquoteScan (size - 1) s; (c :: p, r)

/-- The second loop of unquoteBytes: the decoded bytes of the string body
from position `r` on; `none` is Go's `ok == false`. `skip` counts the bytes
of the current escape or rune still to be passed (`r += ...`). -/
def unquoteLoop : Nat → GoString → Option GoString
  | _, [] => some []
  | skip + 1, _ :: s => unquoteLoop skip s
  | 0, c :: s =>
    if c = 0x5C then
      match s with
      | [] => none
      | e :: _ =>
        if e = 0x22 ∨ e = 0x5C ∨ e = 0x2F ∨ e = 0x27 then (unquoteLoop 1 s).map (e :: ·)
        else if e = 0x62 then (unquoteLoop 1 s).map (0x08 :: ·)
        else if e = 0x66 then (unquoteLoop 1 s).map (0x0C :: ·)
        else if e = 0x6E then (unquoteLoop 1 s).map (0x0A :: ·)
        else if e = 0x72 then (unquoteLoop 1 s).map (0x0D :: ·)
        else if e = 0x74 then (unquoteLoop 1 s).map (0x09 :: ·)
        else if e = 0x75 then
          match getu4 (c :: s) with
          | none => none
          | some rr =>
            if 0xD800 ≤ rr ∧ rr < 0xE000 then
              let dec := utf16DecodeRune rr (getu4 (s.drop 5))
              if dec ≠ 0xFFFD then (unquoteLoop 11 s).map (utf8.EncodeRune dec ++ ·)
              else (unquoteLoop 5 s).map (utf8.EncodeRune 0xFFFD ++ ·)
            else (unquoteLoop 5 s).map (utf8.EncodeRune rr ++ ·)
        else none
    else if c = 0x22 ∨ c < 0x20 then none
    else if c < utf8.RuneSelf then (unquoteLoop 0 s).map (c :: ·)
    else
      let (rr, size) := utf8.DecodeRune (c :: s)
      (unquoteLoop (size - 1) s).map (utf8.EncodeRune rr ++ ·)

/-- The function unquoteBytes: the Go string a quoted JSON string literal
denotes; `none` when `s` is not a well-formed literal. -/
def unquoteBytes (s : GoString) : Option GoString :=
  if s.length < 2 ∨ s.head? ≠ some 0x22 ∨ s.getLast? ≠ some 0x22 then none
  else
    let body := (s.drop 1).dropLast
    let (p, r) := unquoteScan 0 body
    if r = [] then some body
    else (unquoteLoop 0 r).map (p ++ ·)

/-- The function appendFoldedName: ASCII letters in upper case, every other
rune replaced by `foldRune` of it. `foldRune` is the table-driven function of
fold.go (the smallest rune of the unicode.SimpleFold orbit) and is left
abstract. -/
def appendFoldedName (foldRune : Nat → Nat) : Nat → GoString → GoString
  | _, [] => []
  | skip + 1, _ :: s => appendFoldedName foldRune skip s
  | 0, c :: s =>
    if c < utf8.RuneSelf then
      (if 0x61 ≤ c ∧ c ≤ 0x7A then c - 0x20 else c) :: appendFoldedName foldRune 0 s
    else
      let (r, n) := utf8.DecodeRune (c :: s)
      utf8.EncodeRune (foldRune r) ++ appendFoldedName foldRune (n - 1) s

/-- The function foldName: the case-folded form of a member name. -/
def foldName (foldRune : Nat → Nat) (name : GoString) : GoString :=
  appendFoldedName foldRune 0 name

/-- The state of decode.go's decodeState. The read position `d.off` is kept as
the unread bytes `d.data[d.off:]` (`data`) together with the byte just read
`d.data[d.off-1]` (`prev`). -/
structure decodeState where
  data : GoString
  prev : Nat
  opcode : Op
  scan : scanner
  savedError : Option GoError
  deriving DecidableEq, Repr

namespace decodeState

/-- The method saveError: keeps the first error. -/
def saveError (d : decodeState) (e : GoError) : decodeState :=
  match d.savedError with
  | none => { d with savedError := some e }
  | some _ => d

/-- The loop of the method scanWhile: steps the scanner until it returns a
code other than `op`; at the end of the data the code is that of `eof`. -/
def scanWhileLoop (op : Op) : scanner → Nat → GoString → Op × scanner × Nat × GoString
  | s, prev, [] => ((s.eof).1, (s.eof).2, prev, [])
  | s, _, c :: rest =>
    let (newOp, s1) := s.stepByte c
    if newOp ≠ op then (newOp, s1, c, rest) else scanWhileLoop op s1 c rest

/-- The method scanWhile. -/
def scanWhile (d : decodeState) (op : Op) : decodeState :=
  let (newOp, s1, prev, rest) := scanWhileLoop op d.scan d.prev d.data
  { d with opcode := newOp, scan := s1, prev := prev, data := rest }

/-- The method scanNext: steps the scanner over one byte, or over the end of
the data. -/
def scanNext (d : decodeState) : decodeState :=
  match d.data with
  | c :: rest =>
    let (op, s1) := d.scan.stepByte c
    { d with opcode := op, scan := s1, prev := c, data := rest }
  | [] => { d with opcode := (d.scan.eof).1, scan := (d.scan.eof).2 }

/-- The loop of the method skip: steps the scanner until the parse stack is
shorter than `depth`; running off the data is an index-out-of-range panic. -/
def skipLoop (depth : Nat) : scanner → GoString → Except Abort (Op × scanner × Nat × GoString)
  | _, [] => .error .panic
  | s, c :: rest =>
    let (op, s1) := s.stepByte c
    if s1.parseState.length < depth then .ok (op, s1, c, rest) else skipLoop depth s1 rest

/-- The method skip: passes over the rest of the array or object just begun. -/
def skip (d : decodeState) : Except Abort decodeState :=
  match skipLoop d.scan.parseState.length d.scan d.data with
  | .ok (op, s1, prev, rest) => .ok { d with opcode := op, scan := s1, prev := prev, data := rest }
  | .error e => .error e

/-- The string loop of rescanLiteral after the opening quote: the bytes of
the literal up to and including the closing quote, and the bytes after it. A
backslash as the last byte makes the index overshoot the data. -/
def rescanString : GoString → Except Abort (GoString × GoString)
  | [] => .ok ([], [])
  | c :: s =>
    if c = 0x22 then .ok ([c], s)
    else if c = 0x5C then
      match s with
      | [] => .error .panic
      | e :: s1 =>
        match rescanString s1 with
        | .ok (a, r) => .ok (c :: e :: a, r)
        | .error x => .error x
    else
      match rescanString s with
      | .ok (a, r) => .ok (c :: a, r)
      | .error x => .error x

/-- The number loop of rescanLiteral: the longest run of digits, `.`, `e`,
`E`, `+` and `-`. -/
def rescanNumber : GoString → GoString × GoString
  | [] => ([], [])
  | c :: s =>
    if isDigit c ∨ c = 0x2E ∨ c = 0x65 ∨ c = 0x45 ∨ c = 0x2B ∨ c = 0x2D then
      let (a, r) := rescanNumber s
      (c :: a, r)
    else ([], c :: s)

/-- The `switch data[i-1]` of rescanLiteral: from the first byte `prev` of a
literal and the bytes after it, the remaining bytes of the literal and what
follows it. For `true`, `false` and `null` the index jumps by the length of
the word, which overshoots data that is too short. -/
def rescanSplit (prev : Nat) (data : GoString) : Except Abort (GoString × GoString) :=
  if prev = 0x22 then rescanString data
  else if isDigit prev ∨ prev = 0x2D then .ok (rescanNumber data)
  else if prev = 0x74 ∨ prev = 0x6E then
    if data.length < 3 then .error .panic else .ok (data.take 3, data.drop 3)
  else if prev = 0x66 then
    if data.length < 4 then .error .panic else .ok (data.take 4, data.drop 4)
  else .ok ([], data)

/-- The method rescanLiteral, called when `prev` is the first byte of a
literal: returns the literal's bytes `d.data[start:d.readIndex()]` and the
state after it, whose opcode is that of the byte following the literal
(scanEnd when there is none). -/
def rescanLiteral (d : decodeState) : Except Abort (GoString × decodeState) :=
  match rescanSplit d.prev d.data with
  | .error x => .error x
  | .ok (lit, rest) =>
    match rest with
    | c :: rest1 =>
      let (op, s1) := stateEndValue d.scan c
      .ok (d.prev :: lit, { d with opcode := op, scan := s1, prev := c, data := rest1 })
    | [] => .ok (d.prev :: lit, { d with opcode := .scanEnd, data := [] })

/-- The method literalStore for a destination of kind string that is not a
json.Number (the field `Token`): a string literal is unquoted and stored,
`null` leaves the field alone, `true`, `false` and numbers save an
UnmarshalTypeError. -/
def literalStoreString (d : decodeState) (item : GoString) (tok : GoString) :
    Except Abort (decodeState × GoString) :=
  match item with
  | [] => .ok (d.saveError (.other (bytes "json: invalid use of ,string struct tag")), tok)
  | c :: _ =>
    if c = 0x6E then .ok (d, tok)
    else if c = 0x74 ∨ c = 0x66 then .ok (d.saveError .UnmarshalTypeError, tok)
    else if c = 0x22 then
      match unquoteBytes item with
      | none => .error .panic
      | some s => .ok (d, s)
    else if c ≠ 0x2D ∧ !isDigit c then .error .panic
    else .ok (d.saveError .UnmarshalTypeError, tok)

/-- The method literalStore for a destination of kind struct (the top-level
`*GetTokenResponse`): `null` is accepted and changes nothing, every other
literal saves an UnmarshalTypeError. -/
def literalStoreStruct (d : decodeState) (item : GoString) :
    Except Abort decodeState :=
  match item with
  | [] => .ok (d.saveError (.other (bytes "json: invalid use of ,string struct tag")))
  | c :: _ =>
    if c = 0x6E then .ok d
    else if c = 0x74 ∨ c = 0x66 then .ok (d.saveError .UnmarshalTypeError)
    else if c = 0x22 then
      match unquoteBytes item with
      | none => .error .panic
      | some _ => .ok (d.saveError .UnmarshalTypeError)
    else if c ≠ 0x2D ∧ !isDigit c then .error .panic
    else .ok (d.saveError .UnmarshalTypeError)

/-- The method value applied to the value of an object member. `isField`
tells whether the member's key named the string field (`subv` valid) or no
field (`subv` invalid, the value is only passed over). An array or object
for the string field saves an UnmarshalTypeError and is skipped. -/
def valueMember (isField : Bool) (d : decodeState) (tok : GoString) :
    Except Abort (decodeState × GoString) :=
  if d.opcode = .scanBeginArray ∨ d.opcode = .scanBeginObject then
    match (if isField then d.saveError .UnmarshalTypeError else d).skip with
    | .ok d1 => .ok (d1.scanNext, tok)
    | .error x => .error x
  else if d.opcode = .scanBeginLiteral then
    match d.rescanLiteral with
    | .ok (item, d1) => if isField then literalStoreString d1 item tok else .ok (d1, tok)
    | .error x => .error x
  else .error .panic

/-- The loop of the method object for a struct with one string field whose
JSON name is `name`: for every member the key is read and unquoted, matched
against the field name exactly and then by folded name, and the value is
stored or passed over. `fuel` bounds the number of members. -/
def objectLoop (foldRune : Nat → Nat) (name : GoString) :
    Nat → decodeState → GoString → Except Abort (decodeState × GoString)
  | 0, _, _ => .error .fuel
  | fuel + 1, d, tok =>
    let d1 := d.scanWhile .scanSkipSpace
    if d1.opcode = .scanEndObject then .ok (d1, tok)
    else if d1.opcode ≠ .scanBeginLiteral then .error .panic
    else
      match d1.rescanLiteral with
      | .error x => .error x
      | .ok (item, d2) =>
        match unquoteBytes item with
        | none => .error .panic
        | some key =>
          let isField := decide (key = name) || decide (foldName foldRune key = foldName foldRune name)
          let d3 := if d2.opcode = .scanSkipSpace then d2.scanWhile .scanSkipSpace else d2
          if d3.opcode ≠ .scanObjectKey then .error .panic
          else
            match valueMember isField (d3.scanWhile .scanSkipSpace) tok with
            | .error x => .error x
            | .ok (d4, tok1) =>
              let d5 := if d4.opcode = .scanSkipSpace then d4.scanWhile .scanSkipSpace else d4
              if d5.opcode = .scanEndObject then .ok (d5, tok1)
              else if d5.opcode ≠ .scanObjectValue then .error .panic
              else objectLoop foldRune name fuel d5 tok1

/-- The method value at the top level, for the destination
`*struct { F string }` with JSON field name `name`: an object is decoded
member by member, an array saves an UnmarshalTypeError and is skipped, a
literal goes to literalStore. -/
def valueTop (foldRune : Nat → Nat) (name : GoString) (d : decodeState) (tok : GoString) :
    Except Abort (decodeState × GoString) :=
  if d.opcode = .scanBeginArray then
    match (d.saveError .UnmarshalTypeError).skip with
    | .ok d1 => .ok (d1.scanNext, tok)
    | .error x => .error x
  else if d.opcode = .scanBeginObject then
    match objectLoop foldRune name (d.data.length + 1) d tok with
    | .ok (d1, tok1) => .ok (d1.scanNext, tok1)
    | .error x => .error x
  else if d.opcode = .scanBeginLiteral then
    match d.rescanLiteral with
    | .ok (item, d1) =>
      match literalStoreStruct d1 item with
      | .ok d2 => .ok (d2, tok)
      | .error x => .error x
    | .error x => .error x
  else .error .panic

/-- The method unmarshal on the bytes of one value: the field after decoding
(it starts as `tok`) and the saved error. -/
def unmarshal (foldRune : Nat → Nat) (name : GoString) (data : GoString) (tok : GoString) :
    Except Abort (GoString × Option GoError) :=
  let d0 : decodeState :=
    { data := data, prev := 0, opcode := .scanContinue, scan := scanner.reset, savedError := none }
  match valueTop foldRune name (d0.scanWhile .scanSkipSpace) tok with
  | .ok (d1, tok1) => .ok (tok1, d1.savedError)
  | .error x => .error x

end decodeState

/-- The call `json.NewDecoder(r).Decode(&v)` for `v` of type
`struct { F string }` with JSON field name `name`, where the reader `r`
yields `body` and then ends: the next value of the stream is read and
unmarshalled into `v`. The result is the field (initially `tok`) and the
error returned. -/
def Decode (foldRune : Nat → Nat) (name : GoString) (body : GoString) (tok : GoString) :
    Except Abort (GoString × Option GoError) :=
  match readValue body with
  | .error e => .ok (tok, some e)
  | .ok v => decodeState.unmarshal foldRune name v tok

end json

/-! ## net/http -/

namespace http

/-- The header map `http.Header`, as its entries. -/
abbrev Header := List (GoString × List GoString)

/-- The fields of `http.Request` the client sets. -/
structure Request where
  Method : GoString
  URL : GoString
  Header : Header
  Body : GoString
  deriving DecidableEq, Repr

/-- The fields of `http.Response` the client reads; `Body` is the byte
sequence the body reader yields before it ends. -/
structure Response where
  StatusCode : Int
  Body : GoString
  deriving DecidableEq, Repr

/-- The struct `http.Client`; the client of main.go only ever holds its zero
value (no transport, redirect policy, cookie jar or timeout set). -/
structure Client where
  Timeout : Int
  deriving DecidableEq, Repr

/-- http.NewRequest: a request with the given method, URL and body and an
empty header. Its error result (invalid method, unparsable URL) is not
modelled: main.go passes the constants `POST` and `host + "/token"`, for
which it is nil, and ignores it. -/
def NewRequest (method url body : GoString) : Request :=
  { Method := method, URL := url, Header := [], Body := body }

/-- The table of bytes allowed in a header field name (RFC 7230 token). -/
def validHeaderFieldByte (c : Nat) : Bool :=
  (decide (0x30 ≤ c) && decide (c ≤ 0x39)) || (decide (0x41 ≤ c) && decide (c ≤ 0x5A)) ||
  (decide (0x61 ≤ c) && decide (c ≤ 0x7A)) ||
  [0x21, 0x23, 0x24, 0x25, 0x26, 0x27, 0x2A, 0x2B, 0x2D, 0x2E, 0x5E, 0x5F, 0x60, 0x7C, 0x7E].contains c

/-- The rewriting loop of textproto.CanonicalMIMEHeaderKey: the first letter
and every letter after a hyphen in upper case, the others in lower case. -/
def canonicalLoop : Bool → GoString → GoString
  | _, [] => []
  | upper, c :: s =>
    (if upper ∧ 0x61 ≤ c ∧ c ≤ 0x7A then c - 0x20
     else if ¬upper ∧ 0x41 ≤ c ∧ c ≤ 0x5A then c + 0x20 else c) :: canonicalLoop (c = 0x2D) s

/-- textproto.CanonicalMIMEHeaderKey: a key with a byte outside the token
table is returned unchanged. -/
def CanonicalMIMEHeaderKey (key : GoString) : GoString :=
  if key.all validHeaderFieldByte then canonicalLoop true key else key

/-- Appends `value` to the values stored under the key `key`. -/
def appendValue (key value : GoString) : Header → Header
  | [] => [(key, [value])]
  | (k, vs) :: rest =>
    if k = key then (k, vs ++ [value]) :: rest else (k, vs) :: appendValue key value rest

/-- The method Header.Add. -/
def Header.Add (h : Header) (key value : GoString) : Header :=
  appendValue (CanonicalMIMEHeaderKey key) value h

end http

/-! ## package sethealth (src/main.go) -/

/-- The constant `host`. -/
def host : GoString := bytes "https://api.set.health"

/-- The struct GetTokenOptions. -/
structure GetTokenOptions where
  UserID : GoString
  ExpiresIn : Int
  TestMode : Bool
  deriving DecidableEq, Repr

/-- The struct Client. -/
structure Client where
  key : GoString
  secret : GoString
  client : http.Client
  deriving DecidableEq, Repr

/-- The package variable ErrCredentials. -/
def ErrCredentials : GoError := .ErrCredentials

/-- The struct GetTokenResponse. -/
structure GetTokenResponse where
  Token : GoString
  deriving DecidableEq, Repr

/-- The process environment: the value of each variable that is set. -/
abbrev Environ := GoString → Option GoString

/-- os.Getenv: the value of the variable, empty when it is not set. -/
def Getenv (env : Environ) (name : GoString) : GoString := (env name).getD []

/-- The function NewWithCredentials. -/
def NewWithCredentials (key secret : GoString) : Client :=
  { key := key, secret := secret, client := { Timeout := 0 } }

/-- The function New. -/
def New (env : Environ) : Client :=
  NewWithCredentials (Getenv env (bytes "SETHEALTH_KEY")) (Getenv env (bytes "SETHEALTH_SECRET"))

/-- What the embedding takes from its surroundings: `Do` is
`(*http.Client).Do` acting on the outside world `σ` (it returns a response or
an error), `foldRune` is the Unicode case-folding table of encoding/json. -/
structure Runtime (σ : Type) where
  Do : http.Client → http.Request → σ → Except GoError http.Response × σ
  foldRune : Nat → Nat

/-- The memory a method call works on: the receiver `*c` and the outside
world. -/
structure State (σ : Type) where
  receiver : Client
  world : σ

/-- The pair a call returns, or the reason the run ended without one. -/
abbrev Result := Except Abort (GetTokenResponse × Option GoError)

/-- The map literal `data` of GetTokenWithOptions, entries in source order. -/
def requestData (c : Client) (opts : GetTokenOptions) : List (GoString × json.Value) :=
  [ (bytes "id", .string c.key),
    (bytes "secret", .string c.secret),
    (bytes "test-mode", .bool opts.TestMode),
    (bytes "expires-in", .duration opts.ExpiresIn),
    (bytes "user-id", .string opts.UserID) ]

/-- The request GetTokenWithOptions builds (lines 62-74). -/
def buildRequest (c : Client) (opts : GetTokenOptions) : http.Request :=
  let jsonBytes := json.Marshal (requestData c opts)
  let req := http.NewRequest (bytes "POST") (host ++ bytes "/token") jsonBytes
  { req with Header := req.Header.Add (bytes "Content-Type") (bytes "application/json; charset=utf-8") }

/-- The method GetTokenWithOptions. -/
def GetTokenWithOptions {σ : Type} (rt : Runtime σ) (opts : GetTokenOptions) (st : State σ) :
    Result × State σ :=
  let c := st.receiver
  let token : GetTokenResponse := { Token := [] }
  let req := buildRequest c opts
  let out := rt.Do c.client req st.world
  let st1 : State σ := { st with world := out.2 }
  match out.1 with
  | .error err => (.ok (token, some err), st1)
  | .ok resp =>
    if resp.StatusCode ≠ 200 then (.ok (token, some ErrCredentials), st1)
    else
      match json.Decode rt.foldRune (bytes "token") resp.Body token.Token with
      | .error x => (.error x, st1)
      | .ok (tok, some err) => (.ok ({ Token := tok }, some err), st1)
      | .ok (tok, none) => (.ok ({ Token := tok }, none), st1)

/-- The method GetToken. -/
def GetToken {σ : Type} (rt : Runtime σ) (st : State σ) : Result × State σ :=
  GetTokenWithOptions rt { UserID := [], ExpiresIn := 0, TestMode := false } st

/-- A run-time whose world also keeps the list of the requests handed to
`Do`, oldest first. -/
def Runtime.recording {σ : Type} (rt : Runtime σ) : Runtime (σ × List http.Request) :=
  { Do := fun hc req w => ((rt.Do hc req w.1).1, ((rt.Do hc req w.1).2, w.2 ++ [req])),
    foldRune := rt.foldRune }

/-- One call on a client: GetToken() or GetTokenWithOptions(opts). -/
inductive Call where
  | GetToken
  | GetTokenWithOptions (opts : GetTokenOptions)
  deriving DecidableEq, Repr

/-- The options a call works with. -/
def Call.opts : Call → GetTokenOptions
  | .GetToken => { UserID := [], ExpiresIn := 0, TestMode := false }
  | .GetTokenWithOptions opts => opts

/-- Performs one call. -/
def Call.run {σ : Type} (rt : Runtime σ) : Call → State σ → Result × State σ
  | .GetToken, st => Sethealth.GetToken rt st
  | .GetTokenWithOptions opts, st => Sethealth.GetTokenWithOptions rt opts st

/-- Performs a sequence of calls on the same client, one after the other (a
call that ends in a panic does not stop the sequence here: the caller may
recover). Returns the results in order and the final state. -/
def runCalls {σ : Type} (rt : Runtime σ) : List Call → State σ → List Result × State σ
  | [], st => ([], st)
  | call :: rest, st =>
    let (r, st1) := call.run rt st
    let (rs, st2) := runCalls rt rest st1
    (r :: rs, st2)

/-- The duration constants of package time. -/
def Nanosecond : Int := 1

/-- The constant time.Microsecond. -/
def Microsecond : Int := 1000 * Nanosecond

/-- The constant time.Millisecond. -/
def Millisecond : Int := 1000 * Microsecond

/-- The constant time.Second. -/
def Second : Int := 1000 * Millisecond

/-! ## Vocabulary of the proofs -/

open json json.decodeState

/-- `bs` is the well-formed multi-byte UTF-8 encoding of the rune `c`. -/
def IsRune (bs : GoString) (c : Nat) : Prop :=
  2 ≤ bs.length ∧ (∀ x ∈ bs, 0x80 ≤ x ∧ x < 0x100) ∧
  (∀ t, utf8.DecodeRune (bs ++ t) = (c, bs.length)) ∧ utf8.EncodeRune c = bs

/-- The shape of a JSON string body as appendString writes it: plain bytes,
two-byte escapes and `\uXXXX` escapes. -/
inductive Escaped : GoString → Prop where
  | nil : Escaped []
  | plain (b : Nat) (t : GoString) : 0x20 ≤ b → b ≠ 0x22 → b ≠ 0x5C → Escaped t → Escaped (b :: t)
  | short (e : Nat) (t : GoString) :
      (e = 0x62 ∨ e = 0x66 ∨ e = 0x6E ∨ e = 0x72 ∨ e = 0x74 ∨ e = 0x5C ∨ e = 0x2F ∨ e = 0x22) →
      Escaped t → Escaped (0x5C :: e :: t)
  | hex4 (h1 h2 h3 h4 : Nat) (t : GoString) :
      isHexDigit h1 = true → isHexDigit h2 = true → isHexDigit h3 = true → isHexDigit h4 = true →
      Escaped t → Escaped (0x5C :: 0x75 :: h1 :: h2 :: h3 :: h4 :: t)

/-- The scanner state with the given step function and parse stack, no error
recorded and the top-level value not yet complete. -/
def scn (step : StepFn) (ps : List ParseState) : scanner :=
  { step := step, endTop := false, parseState := ps, err := false }

/-- Runs the scanner over `p` as Decoder.readValue does, as long as no byte
ends the value or is an error; the state reached. -/
def quietRun : scanner → GoString → Option scanner
  | s, [] => some s
  | s, c :: p =>
    if (s.stepByte c).1 = .scanEnd ∨ (s.stepByte c).1 = .scanError ∨
        (((s.stepByte c).1 = .scanEndObject ∨ (s.stepByte c).1 = .scanEndArray) ∧
          (stateEndValue (s.stepByte c).2 0x20).1 = .scanEnd) then none
    else quietRun (s.stepByte c).2 p

/-- Every byte of `ws` is JSON white space. -/
def AllSpace (ws : GoString) : Prop := ∀ x ∈ ws, isSpace x = true

/-- The scanner state `s` passes over white space unchanged. -/
def SpaceStable (s : scanner) : Prop :=
  ∀ x, isSpace x = true → s.stepByte x = (.scanSkipSpace, s)

/-- The number a string of decimal digits denotes. -/
def decimalValue (l : GoString) : Nat := l.foldl (fun acc d => acc * 10 + (d - 0x30)) 0

/-- Every byte of `ds` is a decimal digit. -/
def Digits (ds : GoString) : Prop := ∀ x ∈ ds, isDigit x = true

/-- Puts the bytes `l` in front of the value readValue returns. -/
def pre (l : GoString) (r : Except GoError GoString) : Except GoError GoString :=
  match r with
  | .ok v => .ok (l ++ v)
  | .error e => .error e

/-- A literal that is not a string, as the value of an object member followed
by a comma: how the scanner and rescanLiteral treat it. -/
structure PlainLit (v0 : Nat) (vlit : GoString) : Prop where
  step : ∃ Y, (scn .stateBeginValue [.parseObjectValue]).stepByte v0 =
    (.scanBeginLiteral, scn Y [.parseObjectValue])
  split : ∀ rest, rescanSplit v0 (vlit ++ 0x2C :: rest) = .ok (vlit, 0x2C :: rest)
  quiet : ∀ q, quietRun (scn .stateBeginValue [.parseObjectValue]) (v0 :: vlit ++ 0x2C :: q) =
    quietRun (scn .stateBeginString [.parseObjectKey]) q

/-- The text of one object member without white space: the quoted key `K`,
a colon, the value literal `v0 :: vlit`, the delimiter `c`, and the rest. -/
def memberText (K : GoString) (v0 : Nat) (vlit : GoString) (c : Nat) (rest : GoString) :
    GoString :=
  0x22 :: (K ++ 0x22 :: 0x3A :: v0 :: (vlit ++ c :: rest))

/-- Whether the member name `key` selects the field named `name`: exactly, or
by folded name. -/
def selects (foldRune : Nat → Nat) (name key : GoString) : Bool :=
  decide (key = name) || decide (foldName foldRune key = foldName foldRune name)

/-- The state of the decoder after it has read the delimiter of a member. -/
def afterMember (c : Nat) (rest : GoString) (se : Option GoError) : decodeState :=
  { data := rest, prev := c,
    opcode := (stateEndValue (scn .stateEndValue [.parseObjectValue]) c).1,
    scan := (stateEndValue (scn .stateEndValue [.parseObjectValue]) c).2,
    savedError := se }

/-- The text of an object of five members without white space, whose first and
fourth values are literals that are not strings and whose other values are
string literals. -/
def objectText (K1 : GoString) (v0 : Nat) (vlit K2 V2 K3 V3 K4 : GoString) (b0 : Nat)
    (blit K5 V5 rest : GoString) : GoString :=
  0x7B :: memberText K1 v0 vlit 0x2C (memberText K2 0x22 (V2 ++ [0x22]) 0x2C
    (memberText K3 0x22 (V3 ++ [0x22]) 0x2C (memberText K4 b0 blit 0x2C
      (memberText K5 0x22 (V5 ++ [0x22]) 0x7D rest))))

/-- What holds of every state the scanner reaches: an error is recorded only
in the error state, the end-of-top-level state has `endTop` set, and the
state after an opening bracket has a non-empty stack. -/
def ScanInv (s : scanner) : Prop :=
  (s.err = true → s.step = .stateError) ∧ (s.step = .stateEndTop → s.endTop = true) ∧
    (s.step = .stateBeginValueOrEmpty → s.parseState ≠ [])

/-- The operation codes that close an object or an array. -/
def IsClose (op : Op) : Prop := op = .scanEndObject ∨ op = .scanEndArray

/-- The body `{"token": "<T>"}`: the object with the single member `token`
whose value is `T` as the JSON string literal the encoder of encoding/json
writes for it (`escapeHTML` is the encoder's HTML-escaping option), with white
space `w1` ... `w6` around the tokens. -/
def tokenObject (w1 w2 w3 w4 w5 w6 : GoString) (escapeHTML : Bool) (T : GoString) : GoString :=
  w1 ++ bytes "\x7b" ++ w2 ++ bytes "\"token\"" ++ w3 ++ bytes ":" ++ w4 ++
    json.appendString T escapeHTML ++ w5 ++ bytes "\x7d" ++ w6

/-- A run-time over a trivial world whose transport answers every request
with `r`. -/
def Runtime.answering (foldRune : Nat → Nat) (r : Except GoError http.Response) : Runtime Unit :=
  { Do := fun _ _ w => (r, w), foldRune := foldRune }

/-- A process environment with `SETHEALTH_KEY=abc` and `SETHEALTH_SECRET=xyz`
and no other variable. -/
def exampleEnviron : Environ := fun name =>
  if name = bytes "SETHEALTH_KEY" then some (bytes "abc")
  else if name = bytes "SETHEALTH_SECRET" then some (bytes "xyz")
  else none

/-- The zero value of GetTokenOptions. -/
def defaultOptions : GetTokenOptions := { UserID := [], ExpiresIn := 0, TestMode := false }

/-! ## Theorems -/

theorem DecodeRune_isRune (b : Nat) (s : GoString) (c size : Nat) (hb : 0x80 ≤ b)
    (hd : utf8.DecodeRune (b :: s) = (c, size)) (hv : ¬(c = utf8.RuneError ∧ size = 1)) :
    IsRune ((b :: s).take size) c ∧ (b :: s).take size ++ (b :: s).drop size = b :: s
      ∧ ((b :: s).drop size).length < (b :: s).length ∧ 1 ≤ size
      ∧ (b :: s).drop size = s.drop (size - 1) := by
  unfold utf8.DecodeRune at hd
  have h1 : ¬ b < 0x80 := by omega
  simp only [h1, if_false] at hd
  split at hd
  · simp only [Prod.mk.injEq] at hd; exact absurd ⟨hd.1.symm, hd.2.symm⟩ hv
  rename_i h2
  split at hd
  · rename_i h3
    rcases s with _ | ⟨b1, s⟩
    · simp only [Prod.mk.injEq] at hd; exact absurd ⟨hd.1.symm, hd.2.symm⟩ hv
    · simp only at hd
      split at hd
      · rename_i h4
        simp only [Prod.mk.injEq] at hd
        obtain ⟨rfl, rfl⟩ := hd
        simp only [utf8.inRange, utf8.acceptLo, utf8.acceptHi, Bool.and_eq_true, decide_eq_true_eq] at h4
        have e1 : ¬ b = 0xE0 := by omega
        have e2 : ¬ b = 0xF0 := by omega
        have e3 : ¬ b = 0xED := by omega
        have e4 : ¬ b = 0xF4 := by omega
        simp only [e1, e2, e3, e4, if_false] at h4
        refine ⟨⟨by simp, ?_, ?_, ?_⟩, by simp, by simp; omega, by simp, by simp⟩
        · intro x hx
          simp at hx
          rcases hx with rfl | rfl <;> omega
        · intro t
          simp [utf8.DecodeRune, h1, h2, h3, utf8.inRange, utf8.acceptLo, utf8.acceptHi, e1, e2, e3, e4, h4]
        · simp only [utf8.EncodeRune]
          have : ¬ (b % 32 * 64 + b1 % 64 < 128) := by omega
          have : b % 32 * 64 + b1 % 64 < 2048 := by omega
          simp [*]
          omega
      · simp only [Prod.mk.injEq] at hd; exact absurd ⟨hd.1.symm, hd.2.symm⟩ hv
  · rename_i h3
    split at hd
    · rename_i h5
      rcases s with _ | ⟨b1, _ | ⟨b2, s⟩⟩
      · simp only [Prod.mk.injEq] at hd; exact absurd ⟨hd.1.symm, hd.2.symm⟩ hv
      · simp only [Prod.mk.injEq] at hd; exact absurd ⟨hd.1.symm, hd.2.symm⟩ hv
      · simp only at hd
        split at hd
        · simp only [Prod.mk.injEq] at hd; exact absurd ⟨hd.1.symm, hd.2.symm⟩ hv
        rename_i h4
        split at hd
        · simp only [Prod.mk.injEq] at hd; exact absurd ⟨hd.1.symm, hd.2.symm⟩ hv
        rename_i h6
        simp only [Prod.mk.injEq] at hd
        obtain ⟨rfl, rfl⟩ := hd
        simp only [utf8.inRange, utf8.acceptLo, utf8.acceptHi, Bool.and_eq_true, decide_eq_true_eq,
          Bool.not_eq_true, Bool.not_eq_false, Bool.not_eq_true', Bool.and_eq_false_iff, decide_eq_false_iff_not, not_or, not_not] at h4 h6
        have e2 : ¬ b = 0xF0 := by omega
        have e4 : ¬ b = 0xF4 := by omega
        simp only [e2, e4, if_false] at h4
        have hb1 : 0x80 ≤ b1 ∧ b1 ≤ 0xBF ∧ (b = 0xE0 → 0xA0 ≤ b1) ∧ (b = 0xED → b1 ≤ 0x9F) := by
          by_cases c1 : b = 0xE0 <;> by_cases c2 : b = 0xED <;> simp [c1, c2] at h4 <;> omega
        refine ⟨⟨by simp, ?_, ?_, ?_⟩, by simp, by simp; omega, by simp, by simp⟩
        · intro x hx
          simp at hx
          rcases hx with rfl | rfl | rfl <;> omega
        · intro t
          simp only [utf8.DecodeRune, h1, h2, h3, h5, if_false, if_true, List.cons_append, List.take,
            List.nil_append, List.length_cons, List.length_nil]
          have q1 : utf8.inRange (utf8.acceptLo b) (utf8.acceptHi b) b1 = true := by
            simp only [utf8.inRange, utf8.acceptLo, utf8.acceptHi, Bool.and_eq_true, decide_eq_true_eq]
            by_cases c1 : b = 0xE0 <;> by_cases c2 : b = 0xED <;> simp [c1, c2, e2, e4] <;> omega
          have q2 : utf8.inRange 0x80 0xBF b2 = true := by
            simp only [utf8.inRange, Bool.and_eq_true, decide_eq_true_eq]; omega
          simp [q1, q2]
        · simp only [utf8.EncodeRune]
          have k1 : ¬ (b % 16 * 4096 + b1 % 64 * 64 + b2 % 64 < 128) := by omega
          have k2 : ¬ (b % 16 * 4096 + b1 % 64 * 64 + b2 % 64 < 2048) := by omega
          have k3 : ¬ (1114111 < b % 16 * 4096 + b1 % 64 * 64 + b2 % 64 ∨
              (55296 ≤ b % 16 * 4096 + b1 % 64 * 64 + b2 % 64 ∧ b % 16 * 4096 + b1 % 64 * 64 + b2 % 64 ≤ 57343)) := by omega
          have k4 : b % 16 * 4096 + b1 % 64 * 64 + b2 % 64 < 65536 := by omega
          simp only [k1, k2, k3, k4, if_false, if_true, List.take, List.cons.injEq, and_true]
          omega
    · rename_i h5
      rcases s with _ | ⟨b1, _ | ⟨b2, _ | ⟨b3, s⟩⟩⟩
      · simp only [Prod.mk.injEq] at hd; exact absurd ⟨hd.1.symm, hd.2.symm⟩ hv
      · simp only [Prod.mk.injEq] at hd; exact absurd ⟨hd.1.symm, hd.2.symm⟩ hv
      · simp only [Prod.mk.injEq] at hd; exact absurd ⟨hd.1.symm, hd.2.symm⟩ hv
      · simp only at hd
        split at hd
        · simp only [Prod.mk.injEq] at hd; exact absurd ⟨hd.1.symm, hd.2.symm⟩ hv
        rename_i h4
        split at hd
        · simp only [Prod.mk.injEq] at hd; exact absurd ⟨hd.1.symm, hd.2.symm⟩ hv
        rename_i h6
        split at hd
        · simp only [Prod.mk.injEq] at hd; exact absurd ⟨hd.1.symm, hd.2.symm⟩ hv
        rename_i h7
        simp only [Prod.mk.injEq] at hd
        obtain ⟨rfl, rfl⟩ := hd
        simp only [utf8.inRange, utf8.acceptLo, utf8.acceptHi, Bool.and_eq_true, decide_eq_true_eq,
          Bool.not_eq_true, Bool.not_eq_false, Bool.not_eq_true', Bool.and_eq_false_iff, decide_eq_false_iff_not, not_or, not_not] at h4 h6 h7
        have e1 : ¬ b = 0xE0 := by omega
        have e3 : ¬ b = 0xED := by omega
        simp only [e1, e3, if_false] at h4
        have hb1 : 0x80 ≤ b1 ∧ b1 ≤ 0xBF ∧ (b = 0xF0 → 0x90 ≤ b1) ∧ (b = 0xF4 → b1 ≤ 0x8F) := by
          by_cases c1 : b = 0xF0 <;> by_cases c2 : b = 0xF4 <;> simp [c1, c2] at h4 <;> omega
        refine ⟨⟨by simp, ?_, ?_, ?_⟩, by simp, by simp; omega, by simp, by simp⟩
        · intro x hx
          simp at hx
          rcases hx with rfl | rfl | rfl | rfl <;> omega
        · intro t
          simp only [utf8.DecodeRune, h1, h2, h3, h5, if_false, if_true, List.cons_append, List.take,
            List.nil_append, List.length_cons, List.length_nil]
          have q1 : utf8.inRange (utf8.acceptLo b) (utf8.acceptHi b) b1 = true := by
            simp only [utf8.inRange, utf8.acceptLo, utf8.acceptHi, Bool.and_eq_true, decide_eq_true_eq]
            by_cases c1 : b = 0xF0 <;> by_cases c2 : b = 0xF4 <;> simp [c1, c2, e1, e3] <;> omega
          have q2 : utf8.inRange 0x80 0xBF b2 = true := by
            simp only [utf8.inRange, Bool.and_eq_true, decide_eq_true_eq]; omega
          have q3 : utf8.inRange 0x80 0xBF b3 = true := by
            simp only [utf8.inRange, Bool.and_eq_true, decide_eq_true_eq]; omega
          simp [q1, q2, q3]
        · simp only [utf8.EncodeRune]
          have k1 : ¬ (b % 8 * 262144 + b1 % 64 * 4096 + b2 % 64 * 64 + b3 % 64 < 128) := by omega
          have k2 : ¬ (b % 8 * 262144 + b1 % 64 * 4096 + b2 % 64 * 64 + b3 % 64 < 2048) := by omega
          have k3 : ¬ (1114111 < b % 8 * 262144 + b1 % 64 * 4096 + b2 % 64 * 64 + b3 % 64 ∨
              (55296 ≤ b % 8 * 262144 + b1 % 64 * 4096 + b2 % 64 * 64 + b3 % 64 ∧ b % 8 * 262144 + b1 % 64 * 4096 + b2 % 64 * 64 + b3 % 64 ≤ 57343)) := by omega
          have k4 : ¬ (b % 8 * 262144 + b1 % 64 * 4096 + b2 % 64 * 64 + b3 % 64 < 65536) := by omega
          simp only [k1, k2, k3, k4, if_false, if_true, List.take, List.cons.injEq, and_true]
          omega

theorem appendStringLoop_skip (esc : Bool) (k : Nat) (s : GoString) :
    appendStringLoop esc k s = appendStringLoop esc 0 (s.drop k) := by
  induction k generalizing s with
  | zero => simp
  | succ k ih =>
    cases s with
    | nil => simp [appendStringLoop]
    | cons b s => simp only [appendStringLoop, List.drop_succ_cons]; exact ih s

theorem validLoop_skip (k : Nat) (s : GoString) :
    utf8.validLoop k s = utf8.validLoop 0 (s.drop k) := by
  induction k generalizing s with
  | zero => simp
  | succ k ih =>
    cases s with
    | nil => simp [utf8.validLoop]
    | cons b s => simp only [utf8.validLoop, List.drop_succ_cons]; exact ih s

theorem unquoteLoop_skip (k : Nat) (s : GoString) :
    unquoteLoop k s = unquoteLoop 0 (s.drop k) := by
  induction k generalizing s with
  | zero => simp
  | succ k ih =>
    cases s with
    | nil => simp [unquoteLoop]
    | cons b s => simp only [unquoteLoop, List.drop_succ_cons]; exact ih s

theorem unquoteScan_skip (k : Nat) (s : GoString) :
    unquoteScan k s = (s.take k ++ (unquoteScan 0 (s.drop k)).1, (unquoteScan 0 (s.drop k)).2) := by
  induction k generalizing s with
  | zero => simp
  | succ k ih =>
    cases s with
    | nil => simp [unquoteScan]
    | cons b s => simp only [unquoteScan, List.drop_succ_cons, List.take_succ_cons, ih s, List.cons_append]

theorem IsRune.ne_nil {bs : GoString} {c : Nat} (h : IsRune bs c) :
    ∃ b bs1, bs = b :: bs1 ∧ 0x80 ≤ b ∧ b < 0x100 ∧ bs1.length = bs.length - 1 := by
  obtain ⟨h2, hx, _, _⟩ := h
  cases bs with
  | nil => simp at h2
  | cons b bs1 => exact ⟨b, bs1, rfl, (hx b (by simp)).1, (hx b (by simp)).2, by simp⟩

theorem appendStringLoop_nil (esc : Bool) : appendStringLoop esc 0 [] = [] := by
  simp [appendStringLoop]

theorem appendStringLoop_safe (esc : Bool) (b : Nat) (s : GoString) (hb : b < 0x80)
    (hs : (htmlSafeSet b || (!esc && safeSet b)) = true) :
    appendStringLoop esc 0 (b :: s) = b :: appendStringLoop esc 0 s := by
  simp only [appendStringLoop, utf8.RuneSelf, hb, if_true, hs]

theorem appendStringLoop_esc (esc : Bool) (b : Nat) (s : GoString) (hb : b < 0x80)
    (hs : (htmlSafeSet b || (!esc && safeSet b)) = false) :
    appendStringLoop esc 0 (b :: s) = escapeByte b ++ appendStringLoop esc 0 s := by
  simp only [appendStringLoop, utf8.RuneSelf, hb, if_true, hs]
  rfl

theorem appendStringLoop_bad (esc : Bool) (b : Nat) (s : GoString) (hb : 0x80 ≤ b)
    (hd : utf8.DecodeRune (b :: s) = (utf8.RuneError, 1)) :
    appendStringLoop esc 0 (b :: s) =
      [0x5C, 0x75, 0x66, 0x66, 0x66, 0x64] ++ appendStringLoop esc 0 s := by
  have h1 : ¬ b < 0x80 := by omega
  simp only [appendStringLoop, utf8.RuneSelf, h1, if_false, hd]
  rfl

theorem appendStringLoop_multi (esc : Bool) (b : Nat) (s : GoString) (c size : Nat)
    (hb : 0x80 ≤ b) (hd : utf8.DecodeRune (b :: s) = (c, size)) :
    appendStringLoop esc 0 (b :: s) =
      if c = utf8.RuneError ∧ size = 1 then
        [0x5C, 0x75, 0x66, 0x66, 0x66, 0x64] ++ appendStringLoop esc 0 s
      else if c = 0x2028 ∨ c = 0x2029 then
        [0x5C, 0x75, 0x32, 0x30, 0x32, hex (c % 16)] ++ appendStringLoop esc (size - 1) s
      else
        (b :: s).take size ++ appendStringLoop esc (size - 1) s := by
  have h1 : ¬ b < 0x80 := by omega
  simp only [appendStringLoop, utf8.RuneSelf, h1, if_false, hd]

theorem appendStringLoop_rune (esc : Bool) (bs : GoString) (c : Nat) (s : GoString)
    (hr : IsRune bs c) :
    appendStringLoop esc 0 (bs ++ s) =
      (if c = 0x2028 ∨ c = 0x2029 then [0x5C, 0x75, 0x32, 0x30, 0x32, hex (c % 16)] else bs)
        ++ appendStringLoop esc 0 s := by
  obtain ⟨b, bs1, rfl, hb, _, hl⟩ := hr.ne_nil
  obtain ⟨h2, hx, hdec, henc⟩ := hr
  have hd := hdec s
  rw [List.cons_append] at hd ⊢
  rw [appendStringLoop_multi esc b (bs1 ++ s) c _ hb hd]
  have hne : ¬ (c = utf8.RuneError ∧ (b :: bs1).length = 1) := by
    simp only [List.length_cons] at h2 ⊢
    omega
  rw [if_neg hne, appendStringLoop_skip]
  have hdrop : List.drop ((b :: bs1).length - 1) (bs1 ++ s) = s := by
    simp
  have htake : List.take (b :: bs1).length (b :: (bs1 ++ s)) = b :: bs1 := by
    simp
  rw [hdrop, htake]
  split <;> simp

theorem validLoop_ascii (b : Nat) (s : GoString) (hb : b < 0x80) :
    utf8.validLoop 0 (b :: s) = utf8.validLoop 0 s := by
  simp [utf8.validLoop, utf8.DecodeRune, hb, utf8.RuneError]
  omega

theorem validLoop_bad (b : Nat) (s : GoString)
    (hd : utf8.DecodeRune (b :: s) = (utf8.RuneError, 1)) :
    utf8.validLoop 0 (b :: s) = false := by
  simp [utf8.validLoop, hd]

theorem validLoop_multi (b : Nat) (s : GoString) (c size : Nat)
    (hd : utf8.DecodeRune (b :: s) = (c, size)) :
    utf8.validLoop 0 (b :: s) =
      if c = utf8.RuneError ∧ size = 1 then false else utf8.validLoop (size - 1) s := by
  simp only [utf8.validLoop, hd]

theorem validLoop_rune (bs : GoString) (c : Nat) (s : GoString) (hr : IsRune bs c) :
    utf8.validLoop 0 (bs ++ s) = utf8.validLoop 0 s := by
  obtain ⟨b, bs1, rfl, hb, _, hl⟩ := hr.ne_nil
  obtain ⟨h2, hx, hdec, henc⟩ := hr
  have hd := hdec s
  rw [List.cons_append] at hd ⊢
  rw [validLoop_multi b (bs1 ++ s) c _ hd]
  have hne : ¬ (c = utf8.RuneError ∧ (b :: bs1).length = 1) := by
    simp only [List.length_cons] at h2 ⊢
    omega
  rw [if_neg hne, validLoop_skip]
  simp

/-- Induction over the steps of appendString: the source is consumed and the
output produced one chunk at a time. -/
theorem appendStringLoop_ind (esc : Bool) (P : GoString → GoString → Prop)
    (hnil : P [] [])
    (hsafe : ∀ b s out, b < 0x80 → (htmlSafeSet b || (!esc && safeSet b)) = true →
      P s out → P (b :: s) (b :: out))
    (hesc : ∀ b s out, b < 0x80 → (htmlSafeSet b || (!esc && safeSet b)) = false →
      P s out → P (b :: s) (escapeByte b ++ out))
    (hbad : ∀ b s out, 0x80 ≤ b → utf8.DecodeRune (b :: s) = (utf8.RuneError, 1) →
      P s out → P (b :: s) ([0x5C, 0x75, 0x66, 0x66, 0x66, 0x64] ++ out))
    (hsep : ∀ bs c s out, IsRune bs c → (c = 0x2028 ∨ c = 0x2029) →
      P s out → P (bs ++ s) ([0x5C, 0x75, 0x32, 0x30, 0x32, hex (c % 16)] ++ out))
    (hraw : ∀ bs c s out, IsRune bs c → ¬(c = 0x2028 ∨ c = 0x2029) →
      P s out → P (bs ++ s) (bs ++ out)) :
    ∀ s, P s (appendStringLoop esc 0 s) := by
  intro s
  generalize hn : s.length = n
  induction n using Nat.strong_induction_on generalizing s with
  | _ n ih =>
    cases s with
    | nil => rw [appendStringLoop_nil]; exact hnil
    | cons b s =>
      by_cases hb : b < 0x80
      · have hrec := ih s.length (by simp at hn; omega) s rfl
        cases hs : (htmlSafeSet b || (!esc && safeSet b))
        · rw [appendStringLoop_esc esc b s hb hs]; exact hesc b s _ hb hs hrec
        · rw [appendStringLoop_safe esc b s hb hs]; exact hsafe b s _ hb hs hrec
      · have hb2 : 0x80 ≤ b := by omega
        rcases hd : utf8.DecodeRune (b :: s) with ⟨c, size⟩
        by_cases hv : c = utf8.RuneError ∧ size = 1
        · obtain ⟨rfl, rfl⟩ := hv
          rw [appendStringLoop_bad esc b s hb2 hd]
          exact hbad b s _ hb2 hd (ih s.length (by simp at hn; omega) s rfl)
        · obtain ⟨hr, hsplit, hlen, _, _⟩ := DecodeRune_isRune b s c size hb2 hd hv
          have hrec := ih ((b :: s).drop size).length (by omega) _ rfl
          rw [← hsplit, appendStringLoop_rune esc _ c _ hr]
          by_cases hc : c = 0x2028 ∨ c = 0x2029
          · simp only [hc, if_true]; exact hsep _ c _ _ hr hc hrec
          · simp only [hc, if_false]; exact hraw _ c _ _ hr hc hrec

theorem sortByKey_requestData (c : Client) (opts : GetTokenOptions) :
    sortByKey (requestData c opts) =
      [ (bytes "expires-in", .duration opts.ExpiresIn),
        (bytes "id", .string c.key),
        (bytes "secret", .string c.secret),
        (bytes "test-mode", .bool opts.TestMode),
        (bytes "user-id", .string opts.UserID) ] := by
  simp [sortByKey, requestData, insertSorted, stringLess]

theorem appendString_keys :
    appendString (bytes "expires-in") true = bytes "\"expires-in\"" ∧
    appendString (bytes "id") true = bytes "\"id\"" ∧
    appendString (bytes "secret") true = bytes "\"secret\"" ∧
    appendString (bytes "test-mode") true = bytes "\"test-mode\"" ∧
    appendString (bytes "user-id") true = bytes "\"user-id\"" := by
  decide

theorem Marshal_requestData (c : Client) (opts : GetTokenOptions) :
    Marshal (requestData c opts) =
      bytes "\x7b\"expires-in\":" ++ strconv.FormatInt opts.ExpiresIn ++
      bytes ",\"id\":" ++ appendString c.key true ++
      bytes ",\"secret\":" ++ appendString c.secret true ++
      bytes ",\"test-mode\":" ++ (if opts.TestMode then bytes "true" else bytes "false") ++
      bytes ",\"user-id\":" ++ appendString opts.UserID true ++ bytes "\x7d" := by
  obtain ⟨h1, h2, h3, h4, h5⟩ := appendString_keys
  unfold Marshal
  rw [sortByKey_requestData]
  simp only [encodeMembers, encodeMember, h1, h2, h3, h4, h5, encodeValue]
  cases opts.TestMode <;> simp only [List.append_assoc, Bool.false_eq_true, if_true, if_false] <;> rfl

theorem fromHex_hex (n : Nat) (hn : n < 16) : fromHex (hex n) = some n := by
  interval_cases n <;> rfl

theorem getu4_escape (h1 h2 h3 h4 : Nat) (t : GoString) (a b c d : Nat)
    (e1 : fromHex h1 = some a) (e2 : fromHex h2 = some b) (e3 : fromHex h3 = some c)
    (e4 : fromHex h4 = some d) :
    getu4 (0x5C :: 0x75 :: h1 :: h2 :: h3 :: h4 :: t) = some (((a * 16 + b) * 16 + c) * 16 + d) := by
  simp [getu4, e1, e2, e3, e4]

theorem EncodeRune_ascii (b : Nat) (hb : b < 0x80) : utf8.EncodeRune b = [b] := by
  simp [utf8.EncodeRune, hb]

theorem unquoteLoop_nil : unquoteLoop 0 [] = some [] := by
  simp [unquoteLoop]

theorem unquoteLoop_plain (b : Nat) (t : GoString) (h1 : 0x20 ≤ b) (h2 : b < 0x80)
    (h3 : b ≠ 0x22) (h4 : b ≠ 0x5C) :
    unquoteLoop 0 (b :: t) = (unquoteLoop 0 t).map (b :: ·) := by
  have h5 : ¬ b < 0x20 := by omega
  simp [unquoteLoop, h3, h4, h5, utf8.RuneSelf, h2]

theorem unquoteLoop_escapeByte (b : Nat) (t : GoString) (hb : b < 0x80) :
    unquoteLoop 0 (escapeByte b ++ t) = (unquoteLoop 0 t).map (b :: ·) := by
  unfold escapeByte
  split
  · rename_i h
    rcases h with rfl | rfl <;> simp [unquoteLoop]
  split
  · subst_vars; simp [unquoteLoop]
  split
  · subst_vars; simp [unquoteLoop]
  split
  · subst_vars; simp [unquoteLoop]
  split
  · subst_vars; simp [unquoteLoop]
  split
  · subst_vars; simp [unquoteLoop]
  · have g := getu4_escape 0x30 0x30 (hex (b / 16)) (hex (b % 16)) t 0 0 (b / 16) (b % 16)
      (by rfl) (by rfl) (fromHex_hex _ (by omega)) (fromHex_hex _ (by omega))
    have gb : ((0 * 16 + 0) * 16 + b / 16) * 16 + b % 16 = b := by omega
    rw [gb] at g
    have hs : ¬ (0xD800 ≤ b ∧ b < 0xE000) := by omega
    simp [unquoteLoop]
    rw [g]
    simp [hs, EncodeRune_ascii b hb]

theorem unquoteLoop_sep (bs : GoString) (c : Nat) (t : GoString) (hr : IsRune bs c)
    (hc : c = 0x2028 ∨ c = 0x2029) :
    unquoteLoop 0 ([0x5C, 0x75, 0x32, 0x30, 0x32, hex (c % 16)] ++ t)
      = (unquoteLoop 0 t).map (bs ++ ·) := by
  obtain ⟨_, _, _, henc⟩ := hr
  rcases hc with rfl | rfl
  · have g : getu4 (0x5C :: 0x75 :: 0x32 :: 0x30 :: 0x32 :: hex (0x2028 % 16) :: t) = some 0x2028 :=
      getu4_escape 0x32 0x30 0x32 (hex (0x2028 % 16)) t 2 0 2 8 (by rfl) (by rfl) (by rfl) (by rfl)
    simp [unquoteLoop]
    rw [g]
    simp [henc]
  · have g : getu4 (0x5C :: 0x75 :: 0x32 :: 0x30 :: 0x32 :: hex (0x2029 % 16) :: t) = some 0x2029 :=
      getu4_escape 0x32 0x30 0x32 (hex (0x2029 % 16)) t 2 0 2 9 (by rfl) (by rfl) (by rfl) (by rfl)
    simp [unquoteLoop]
    rw [g]
    simp [henc]

theorem unquoteLoop_multi (b : Nat) (s : GoString) (c size : Nat) (hb : 0x80 ≤ b)
    (hd : utf8.DecodeRune (b :: s) = (c, size)) :
    unquoteLoop 0 (b :: s) = (unquoteLoop (size - 1) s).map (utf8.EncodeRune c ++ ·) := by
  have h1 : ¬ b < 0x80 := by omega
  have h2 : ¬ b = 0x5C := by omega
  have h3 : ¬ (b = 0x22 ∨ b < 0x20) := by omega
  simp only [unquoteLoop, h2, h3, if_false, utf8.RuneSelf, h1, hd]

theorem unquoteLoop_rune (bs : GoString) (c : Nat) (t : GoString) (hr : IsRune bs c) :
    unquoteLoop 0 (bs ++ t) = (unquoteLoop 0 t).map (bs ++ ·) := by
  obtain ⟨b, bs1, rfl, hb, _, hl⟩ := hr.ne_nil
  obtain ⟨h2, hx, hdec, henc⟩ := hr
  have hd := hdec t
  rw [List.cons_append] at hd ⊢
  rw [unquoteLoop_multi b (bs1 ++ t) c _ hb hd, unquoteLoop_skip, henc]
  simp

/-- Decoding what appendString wrote gives the source back when the source is
valid UTF-8. -/
theorem unquoteLoop_appendStringLoop (esc : Bool) (s : GoString)
    (hv : utf8.validLoop 0 s = true) :
    unquoteLoop 0 (appendStringLoop esc 0 s) = some s := by
  revert hv
  refine appendStringLoop_ind esc
    (fun s out => utf8.validLoop 0 s = true → unquoteLoop 0 out = some s) ?_ ?_ ?_ ?_ ?_ ?_ s
  · intro _; exact unquoteLoop_nil
  · intro b s out hb hs ih hv
    rw [validLoop_ascii b s hb] at hv
    have hsafe : safeSet b = true := by
      cases esc <;> simp [htmlSafeSet] at hs <;> tauto
    simp [safeSet] at hsafe
    rw [unquoteLoop_plain b out (by omega) hb (by omega) (by omega), ih hv]
    rfl
  · intro b s out hb hs ih hv
    rw [validLoop_ascii b s hb] at hv
    rw [unquoteLoop_escapeByte b out hb, ih hv]
    rfl
  · intro b s out hb hd ih hv
    rw [validLoop_bad b s hd] at hv
    exact absurd hv (by simp)
  · intro bs c s out hr hc ih hv
    rw [validLoop_rune bs c s hr] at hv
    rw [unquoteLoop_sep bs c out hr hc, ih hv]
    rfl
  · intro bs c s out hr hc ih hv
    rw [validLoop_rune bs c s hr] at hv
    rw [unquoteLoop_rune bs c out hr, ih hv]
    rfl

theorem unquoteScan_special (c : Nat) (s : GoString) (h : c = 0x5C ∨ c = 0x22 ∨ c < 0x20) :
    unquoteScan 0 (c :: s) = ([], c :: s) := by
  simp only [unquoteScan, h, if_true]

theorem unquoteScan_plain (c : Nat) (s : GoString) (h : ¬(c = 0x5C ∨ c = 0x22 ∨ c < 0x20))
    (h2 : c < 0x80) :
    unquoteScan 0 (c :: s) = (c :: (unquoteScan 0 s).1, (unquoteScan 0 s).2) := by
  simp only [unquoteScan, h, if_false, utf8.RuneSelf, h2, if_true]

theorem unquoteScan_multi (c : Nat) (s : GoString) (rr size : Nat)
    (h : ¬(c = 0x5C ∨ c = 0x22 ∨ c < 0x20)) (h2 : ¬ c < 0x80)
    (hd : utf8.DecodeRune (c :: s) = (rr, size)) :
    unquoteScan 0 (c :: s) =
      if rr = utf8.RuneError ∧ size = 1 then ([], c :: s)
      else (c :: (unquoteScan (size - 1) s).1, (unquoteScan (size - 1) s).2) := by
  simp only [unquoteScan, h, if_false, utf8.RuneSelf, h2, hd]

/-- The two loops of unquoteBytes agree with running the second loop alone:
the prefix the first loop passes is copied unchanged by the second. -/
theorem unquoteScan_loop (out : GoString) :
    unquoteLoop 0 out = (unquoteLoop 0 (unquoteScan 0 out).2).map ((unquoteScan 0 out).1 ++ ·) ∧
    ((unquoteScan 0 out).2 = [] → (unquoteScan 0 out).1 = out) := by
  generalize hn : out.length = n
  induction n using Nat.strong_induction_on generalizing out with
  | _ n ih =>
    cases out with
    | nil => simp [unquoteScan, unquoteLoop]
    | cons c s =>
      by_cases hsp : c = 0x5C ∨ c = 0x22 ∨ c < 0x20
      · rw [unquoteScan_special c s hsp]
        simp
      · by_cases h80 : c < 0x80
        · rw [unquoteScan_plain c s hsp h80]
          obtain ⟨i1, i2⟩ := ih s.length (by simp at hn; omega) s rfl
          refine ⟨?_, ?_⟩
          · rw [unquoteLoop_plain c s (by omega) h80 (by omega) (by omega)]
            simp only
            rw [i1]
            simp only [Option.map_map]
            rfl
          · intro h
            simp only at h ⊢
            rw [i2 h]
        · rcases hd : utf8.DecodeRune (c :: s) with ⟨rr, size⟩
          rw [unquoteScan_multi c s rr size hsp h80 hd]
          by_cases hv : rr = utf8.RuneError ∧ size = 1
          · simp [hv]
          · simp only [hv, if_false]
            obtain ⟨hr, hsplit, hlen, hsz, hdrop⟩ := DecodeRune_isRune c s rr size (by omega) hd hv
            obtain ⟨i1, i2⟩ := ih ((c :: s).drop size).length (by omega) _ rfl
            rw [unquoteScan_skip, ← hdrop]
            have htake : c :: List.take (size - 1) s = List.take size (c :: s) := by
              cases size with
              | zero => omega
              | succ k => simp
            refine ⟨?_, ?_⟩
            · conv_lhs => rw [← hsplit]
              rw [unquoteLoop_rune _ rr _ hr, i1]
              simp only [Option.map_map]
              rw [← List.cons_append, htake]
              congr 1
              funext x
              simp
            · intro h
              simp only at h ⊢
              rw [i2 h, ← List.cons_append, htake, hsplit]

theorem unquoteBytes_quoted (body : GoString) :
    unquoteBytes (0x22 :: body ++ [0x22]) = unquoteLoop 0 body := by
  obtain ⟨i1, i2⟩ := unquoteScan_loop body
  unfold unquoteBytes
  have h1 : ¬ ((0x22 :: body ++ [0x22]).length < 2 ∨ (0x22 :: body ++ [0x22]).head? ≠ some 0x22 ∨
      (0x22 :: body ++ [0x22]).getLast? ≠ some 0x22) := by
    have e : (0x22 :: body ++ [0x22]) = (0x22 :: body) ++ [0x22] := rfl
    have g : ((0x22 :: body) ++ [0x22]).getLast? = some 0x22 := List.getLast?_concat _
    rw [e, g]
    simp
  rw [if_neg h1]
  have h2 : (List.drop 1 (0x22 :: body ++ [0x22])).dropLast = body := by
    simp
  rw [h2]
  simp only
  split
  · rename_i h
    rw [i1, h, i2 h]
    simp [unquoteLoop]
  · exact i1.symm

/-- Round trip of a string through appendString and unquoteBytes. -/
theorem unquoteBytes_appendString (esc : Bool) (s : GoString)
    (hv : utf8.ValidString s = true) :
    unquoteBytes (appendString s esc) = some s := by
  unfold appendString
  have := unquoteBytes_quoted (appendStringLoop esc 0 s)
  simp only [List.cons_append, List.nil_append, List.singleton_append] at this ⊢
  rw [this]
  exact unquoteLoop_appendStringLoop esc s hv

theorem isHexDigit_hex (n : Nat) (hn : n < 16) : isHexDigit (hex n) = true := by
  interval_cases n <;> rfl

theorem Escaped.plainList (l t : GoString) (hl : ∀ x ∈ l, 0x80 ≤ x) (ht : Escaped t) :
    Escaped (l ++ t) := by
  induction l with
  | nil => exact ht
  | cons x l ih =>
    have hx := hl x (by simp)
    exact Escaped.plain x _ (by omega) (by omega) (by omega)
      (ih (fun y hy => hl y (by simp [hy])))

theorem Escaped.escapeByte (b : Nat) (t : GoString) (hb : b < 0x80) (ht : Escaped t) :
    Escaped (escapeByte b ++ t) := by
  unfold json.escapeByte
  split
  · rename_i h
    rcases h with rfl | rfl
    · exact Escaped.short _ _ (by simp) ht
    · exact Escaped.short _ _ (by simp) ht
  split
  · exact Escaped.short _ _ (by simp) ht
  split
  · exact Escaped.short _ _ (by simp) ht
  split
  · exact Escaped.short _ _ (by simp) ht
  split
  · exact Escaped.short _ _ (by simp) ht
  split
  · exact Escaped.short _ _ (by simp) ht
  · exact Escaped.hex4 _ _ _ _ _ (by rfl) (by rfl) (isHexDigit_hex _ (by omega))
      (isHexDigit_hex _ (by omega)) ht

/-- Everything appendString writes between the quotes has the escaped shape. -/
theorem Escaped.appendStringLoop (esc : Bool) (s : GoString) :
    Escaped (appendStringLoop esc 0 s) := by
  refine appendStringLoop_ind esc (fun _ out => Escaped out) ?_ ?_ ?_ ?_ ?_ ?_ s
  · exact Escaped.nil
  · intro b s out hb hs ih
    have hsafe : safeSet b = true := by
      cases esc <;> simp [htmlSafeSet] at hs <;> tauto
    simp [safeSet] at hsafe
    exact Escaped.plain b out (by omega) (by omega) (by omega) ih
  · intro b s out hb hs ih
    exact Escaped.escapeByte b out hb ih
  · intro b s out hb hd ih
    exact Escaped.hex4 _ _ _ _ _ (by rfl) (by rfl) (by rfl) (by rfl) ih
  · intro bs c s out hr hc ih
    exact Escaped.hex4 _ _ _ _ _ (by rfl) (by rfl) (by rfl)
      (isHexDigit_hex _ (Nat.mod_lt _ (by omega))) ih
  · intro bs c s out hr hc ih
    exact Escaped.plainList bs out (fun x hx => (hr.2.1 x hx).1) ih

theorem quietRun_append (s : scanner) (p q : GoString) :
    quietRun s (p ++ q) = (quietRun s p).bind (fun s1 => quietRun s1 q) := by
  induction p generalizing s with
  | nil => simp [quietRun]
  | cons c p ih =>
    simp only [List.cons_append, quietRun]
    split
    · simp
    · exact ih _

theorem readValueLoop_quiet (buf : GoString) (s s1 : scanner) (p rest : GoString)
    (h : quietRun s p = some s1) :
    readValueLoop buf s (p ++ rest) =
      match readValueLoop buf s1 rest with
      | .ok v => .ok (p ++ v)
      | .error e => .error e := by
  induction p generalizing s with
  | nil =>
    simp only [quietRun, Option.some.injEq] at h
    subst h
    simp only [List.nil_append]
    cases readValueLoop buf s rest <;> rfl
  | cons c p ih =>
    simp only [quietRun] at h
    split at h
    · exact absurd h (by simp)
    · rename_i hq
      simp only [not_or, not_and] at hq
      obtain ⟨q1, q2, q3⟩ := hq
      have := ih _ h
      simp only [List.cons_append, readValueLoop, q1, q2, if_false]
      have q4 : ¬ (((s.stepByte c).1 = .scanEndObject ∨ (s.stepByte c).1 = .scanEndArray) ∧
          (stateEndValue (s.stepByte c).2 0x20).1 = .scanEnd) := fun ⟨a, b⟩ => q3 a b
      rw [if_neg q4]
      have e : p.append rest = p ++ rest := rfl
      rw [e, this]
      cases readValueLoop buf s1 rest <;> rfl

theorem quietRun_escaped (ps : List ParseState) (out : GoString) (h : Escaped out) :
    quietRun (scn .stateInString ps) out = some (scn .stateInString ps) := by
  induction h with
  | nil => rfl
  | plain b t h1 h2 h3 _ ih =>
    have h4 : ¬ b < 0x20 := by omega
    simp only [quietRun, scanner.stepByte, scn, h2, h3, h4, if_false]
    simpa [scn] using ih
  | short e t he _ ih =>
    simp only [quietRun, scanner.stepByte, scn, scanner.error]
    simp [he]
    simpa [scn, quietRun] using ih
  | hex4 h1 h2 h3 h4 t e1 e2 e3 e4 _ ih =>
    simp only [quietRun, scanner.stepByte, scn, scanner.error, expectHex, e1, e2, e3, e4]
    simp
    simpa [scn, quietRun] using ih

theorem rescanString_quote (s : GoString) : rescanString (0x22 :: s) = .ok ([0x22], s) := by
  rw [rescanString.eq_def]
  simp

theorem rescanString_pair (e : Nat) (s a r : GoString) (h : rescanString s = .ok (a, r)) :
    rescanString (0x5C :: e :: s) = .ok (0x5C :: e :: a, r) := by
  rw [rescanString.eq_def]
  simp [h]

theorem rescanString_byte (c : Nat) (s a r : GoString) (h1 : c ≠ 0x22) (h2 : c ≠ 0x5C)
    (h : rescanString s = .ok (a, r)) :
    rescanString (c :: s) = .ok (c :: a, r) := by
  rw [rescanString.eq_def]
  simp [h, h1, h2]

theorem rescanString_escaped (out rest : GoString) (h : Escaped out) :
    rescanString (out ++ 0x22 :: rest) = .ok (out ++ [0x22], rest) := by
  induction h with
  | nil => exact rescanString_quote rest
  | plain b t h1 h2 h3 _ ih => exact rescanString_byte b _ _ _ h2 h3 ih
  | short e t he _ ih => exact rescanString_pair e _ _ _ ih
  | hex4 h1 h2 h3 h4 t e1 e2 e3 e4 _ ih =>
    have n1 : ∀ x, isHexDigit x = true → x ≠ 0x22 ∧ x ≠ 0x5C := by
      intro x hx
      simp [isHexDigit, isDigit] at hx
      omega
    obtain ⟨a1, a2⟩ := n1 h1 e1
    obtain ⟨b1, b2⟩ := n1 h2 e2
    obtain ⟨c1, c2⟩ := n1 h3 e3
    obtain ⟨d1, d2⟩ := n1 h4 e4
    exact rescanString_pair 0x75 _ _ _ (rescanString_byte h1 _ _ _ a1 a2
      (rescanString_byte h2 _ _ _ b1 b2 (rescanString_byte h3 _ _ _ c1 c2
        (rescanString_byte h4 _ _ _ d1 d2 ih))))

theorem quietRun_spaces (s : scanner) (ws : GoString) (hs : SpaceStable s) (hw : AllSpace ws) :
    quietRun s ws = some s := by
  induction ws with
  | nil => rfl
  | cons x ws ih =>
    have hx := hs x (hw x (by simp))
    simp only [quietRun, hx]
    simp
    exact ih (fun y hy => hw y (by simp [hy]))

theorem scanWhileLoop_spaces (s : scanner) (prev : Nat) (ws : GoString) (c : Nat)
    (rest : GoString) (hs : SpaceStable s) (hw : AllSpace ws)
    (hc : (s.stepByte c).1 ≠ .scanSkipSpace) :
    scanWhileLoop .scanSkipSpace s prev (ws ++ c :: rest) =
      ((s.stepByte c).1, (s.stepByte c).2, c, rest) := by
  induction ws generalizing prev with
  | nil => simp [scanWhileLoop, hc]
  | cons x ws ih =>
    have hx := hs x (hw x (by simp))
    simp only [List.cons_append, scanWhileLoop, hx]
    simp
    exact ih x (fun y hy => hw y (by simp [hy]))

theorem spaceStable_beginValue (ps : List ParseState) : SpaceStable (scn .stateBeginValue ps) := by
  intro x hx
  simp [scanner.stepByte, scn, stateBeginValue, hx]

theorem spaceStable_beginStringOrEmpty (ps : List ParseState) :
    SpaceStable (scn .stateBeginStringOrEmpty ps) := by
  intro x hx
  simp [scanner.stepByte, scn, hx]

theorem spaceStable_beginString (ps : List ParseState) :
    SpaceStable (scn .stateBeginString ps) := by
  intro x hx
  simp [scanner.stepByte, scn, stateBeginString, hx]

theorem spaceStable_endValue (p : ParseState) (ps : List ParseState) :
    SpaceStable (scn .stateEndValue (p :: ps)) := by
  intro x hx
  simp [scanner.stepByte, scn, stateEndValue, hx]

/-- After a value inside an object or array, the outcome of stateEndValue on
a byte that is not white space does not depend on the step function the
scanner was left in. -/
theorem stateEndValue_step (X : StepFn) (p : ParseState) (ps : List ParseState) (c : Nat)
    (hc : isSpace c = false) :
    stateEndValue (scn X (p :: ps)) c = stateEndValue (scn .stateEndValue (p :: ps)) c ∧
    (stateEndValue (scn X (p :: ps)) c).1 ≠ .scanSkipSpace := by
  cases p <;> simp only [stateEndValue, scn, hc] <;> (refine ⟨?_, ?_⟩) <;>
    simp [scanner.error, scanner.popParseState] <;> split_ifs <;> simp

theorem scanWhile_spaces (d : decodeState) (ws : GoString) (c : Nat) (rest : GoString)
    (hdata : d.data = ws ++ c :: rest) (hs : SpaceStable d.scan) (hw : AllSpace ws)
    (hc : (d.scan.stepByte c).1 ≠ .scanSkipSpace) :
    d.scanWhile .scanSkipSpace =
      { data := rest, prev := c, opcode := (d.scan.stepByte c).1, scan := (d.scan.stepByte c).2,
        savedError := d.savedError } := by
  unfold scanWhile
  rw [hdata, scanWhileLoop_spaces d.scan d.prev ws c rest hs hw hc]

theorem rescanLiteral_skip (d : decodeState) (X : StepFn) (p : ParseState)
    (ps : List ParseState) (lit ws : GoString) (c : Nat) (rest : GoString)
    (hscan : d.scan = scn X (p :: ps))
    (hsplit : rescanSplit d.prev d.data = .ok (lit, ws ++ c :: rest))
    (hw : AllSpace ws) (hc : isSpace c = false) :
    ∃ d2, d.rescanLiteral = .ok (d.prev :: lit, d2) ∧
      (if d2.opcode = .scanSkipSpace then d2.scanWhile .scanSkipSpace else d2) =
        { data := rest, prev := c,
          opcode := (stateEndValue (scn .stateEndValue (p :: ps)) c).1,
          scan := (stateEndValue (scn .stateEndValue (p :: ps)) c).2,
          savedError := d.savedError } := by
  obtain ⟨e1, e2⟩ := stateEndValue_step X p ps c hc
  cases ws with
  | nil =>
    refine ⟨{ d with opcode := (stateEndValue d.scan c).1, scan := (stateEndValue d.scan c).2,
                     prev := c, data := rest }, ?_, ?_⟩
    · unfold rescanLiteral
      rw [hsplit]
      simp only [List.nil_append]
    · simp only [hscan]
      rw [if_neg e2, e1]
  | cons w ws =>
    have hwsp : isSpace w = true := hw w (by simp)
    refine ⟨{ d with opcode := (stateEndValue d.scan w).1, scan := (stateEndValue d.scan w).2,
                     prev := w, data := ws ++ c :: rest }, ?_, ?_⟩
    · unfold rescanLiteral
      rw [hsplit]
      simp only [List.cons_append]
    · have h1 : stateEndValue (scn X (p :: ps)) w = (.scanSkipSpace, scn .stateEndValue (p :: ps)) := by
        simp [stateEndValue, scn, hwsp]
      simp only [hscan, h1, if_true]
      have hstep : ∀ x, (scn .stateEndValue (p :: ps)).stepByte x =
          stateEndValue (scn .stateEndValue (p :: ps)) x := by
        intro x; simp [scanner.stepByte, scn]
      have e3 := (stateEndValue_step .stateEndValue p ps c hc).2
      rw [scanWhile_spaces _ ws c rest rfl (spaceStable_endValue p ps)
        (fun y hy => hw y (by simp [hy])) (by simp only [hstep]; exact e3)]
      simp only [hstep]

theorem unquoteBytes_key (Kenc key : GoString) (hkey : unquoteLoop 0 Kenc = some key) :
    unquoteBytes (0x22 :: (Kenc ++ [0x22])) = some key := by
  have := unquoteBytes_quoted Kenc
  simp only [List.cons_append] at this
  rw [this, hkey]

/-- One member of an object, as the loop of the method object handles it: the
key is read and matched, the value literal is stored or passed over, and the
loop ends on a closing brace or goes on after a comma. -/
theorem objectLoop_member (foldRune : Nat → Nat) (name : GoString) (fuel : Nat)
    (d : decodeState) (tok tok1 : GoString) (X Y : StepFn)
    (w2 Kenc w3 w4 : GoString) (v0 : Nat) (vlit w5 : GoString) (c : Nat) (rest key : GoString)
    (hX : X = .stateBeginStringOrEmpty ∨ X = .stateBeginString)
    (hscan : d.scan = scn X [.parseObjectKey])
    (hdata : d.data =
      w2 ++ 0x22 :: (Kenc ++ 0x22 :: (w3 ++ 0x3A :: (w4 ++ v0 :: (vlit ++ (w5 ++ c :: rest))))))
    (hK : Escaped Kenc) (hkey : unquoteLoop 0 Kenc = some key)
    (hw2 : AllSpace w2) (hw3 : AllSpace w3) (hw4 : AllSpace w4) (hw5 : AllSpace w5)
    (hv0 : (scn .stateBeginValue [.parseObjectValue]).stepByte v0 =
      (.scanBeginLiteral, scn Y [.parseObjectValue]))
    (hsplit : rescanSplit v0 (vlit ++ (w5 ++ c :: rest)) = .ok (vlit, w5 ++ c :: rest))
    (hc : isSpace c = false)
    (hstore : ∀ dd, (if (decide (key = name) ||
        decide (foldName foldRune key = foldName foldRune name)) = true
        then literalStoreString dd (v0 :: vlit) tok else .ok (dd, tok)) = .ok (dd, tok1)) :
    objectLoop foldRune name (fuel + 1) d tok =
      if (stateEndValue (scn .stateEndValue [.parseObjectValue]) c).1 = .scanEndObject then
        .ok ({ data := rest, prev := c,
               opcode := (stateEndValue (scn .stateEndValue [.parseObjectValue]) c).1,
               scan := (stateEndValue (scn .stateEndValue [.parseObjectValue]) c).2,
               savedError := d.savedError }, tok1)
      else if (stateEndValue (scn .stateEndValue [.parseObjectValue]) c).1 ≠ .scanObjectValue then
        .error .panic
      else objectLoop foldRune name fuel
        { data := rest, prev := c,
          opcode := (stateEndValue (scn .stateEndValue [.parseObjectValue]) c).1,
          scan := (stateEndValue (scn .stateEndValue [.parseObjectValue]) c).2,
          savedError := d.savedError } tok1 := by
  -- the opening quote of the key
  have hq : (scn X [.parseObjectKey]).stepByte 0x22 =
      (.scanBeginLiteral, scn .stateInString [.parseObjectKey]) := by
    rcases hX with rfl | rfl <;> simp [scanner.stepByte, scn, stateBeginString, isSpace]
  have hst : SpaceStable (scn X [.parseObjectKey]) := by
    rcases hX with rfl | rfl
    · exact spaceStable_beginStringOrEmpty _
    · exact spaceStable_beginString _
  have s1 := scanWhile_spaces d w2 0x22 _ hdata (hscan ▸ hst) hw2 (by rw [hscan, hq]; simp)
  rw [hscan, hq] at s1
  -- the key literal and the colon
  obtain ⟨d2, r1, r2⟩ := rescanLiteral_skip
    { data := Kenc ++ 0x22 :: (w3 ++ 0x3A :: (w4 ++ v0 :: (vlit ++ (w5 ++ c :: rest)))),
      prev := 0x22, opcode := .scanBeginLiteral, scan := scn .stateInString [.parseObjectKey],
      savedError := d.savedError }
    .stateInString .parseObjectKey [] (Kenc ++ [0x22]) w3 0x3A
    (w4 ++ v0 :: (vlit ++ (w5 ++ c :: rest))) rfl
    (by simp only [rescanSplit, if_true]; exact rescanString_escaped _ _ hK) hw3 (by rfl)
  have hcolon : stateEndValue (scn .stateEndValue [.parseObjectKey]) 0x3A =
      (.scanObjectKey, scn .stateBeginValue [.parseObjectValue]) := by
    simp [stateEndValue, scn, isSpace]
  rw [hcolon] at r2
  -- the first byte of the value
  have s3 := scanWhile_spaces
    { data := w4 ++ v0 :: (vlit ++ (w5 ++ c :: rest)), prev := 0x3A, opcode := .scanObjectKey,
      scan := scn .stateBeginValue [.parseObjectValue], savedError := d.savedError }
    w4 v0 _ rfl (spaceStable_beginValue _) hw4 (by simp only [hv0]; simp)
  simp only [hv0] at s3
  -- the value literal and what follows it
  obtain ⟨d5, r3, r4⟩ := rescanLiteral_skip
    { data := vlit ++ (w5 ++ c :: rest), prev := v0, opcode := .scanBeginLiteral,
      scan := scn Y [.parseObjectValue], savedError := d.savedError }
    Y .parseObjectValue [] vlit w5 c rest rfl hsplit hw5 hc
  have hval : valueMember (decide (key = name) ||
      decide (foldName foldRune key = foldName foldRune name))
      { data := vlit ++ (w5 ++ c :: rest), prev := v0, opcode := .scanBeginLiteral,
        scan := scn Y [.parseObjectValue], savedError := d.savedError } tok = .ok (d5, tok1) := by
    unfold valueMember
    simp only [r3]
    simpa using hstore d5
  rw [objectLoop]
  simp only [s1]
  simp only [r1, unquoteBytes_key Kenc key hkey, r2, s3, hval, r4]
  simp

theorem decimalValue_append_singleton (l : GoString) (x : Nat) :
    decimalValue (l ++ [x]) = decimalValue l * 10 + (x - 0x30) := by
  simp [decimalValue, List.foldl_append]

theorem formatBits_shape (fuel u : Nat) (acc : GoString) (h : u < fuel) :
    ∃ d0 ds, strconv.formatBits fuel u acc = d0 :: (ds ++ acc) ∧ isDigit d0 = true ∧ Digits ds ∧
      (d0 = 0x30 → u = 0 ∧ ds = []) ∧ decimalValue (d0 :: ds) = u := by
  induction fuel generalizing u acc with
  | zero => omega
  | succ fuel ih =>
    by_cases hu : u < 10
    · refine ⟨0x30 + u, [], ?_, ?_, ?_, ?_, ?_⟩
      · simp [strconv.formatBits, hu]
      · simp [isDigit]; omega
      · intro x hx; simp at hx
      · intro h0; exact ⟨by omega, rfl⟩
      · simp [decimalValue]
    · obtain ⟨d0, ds, e, hd0, hds, hz, hval⟩ := ih (u / 10) ((0x30 + u % 10) :: acc) (by omega)
      refine ⟨d0, ds ++ [0x30 + u % 10], ?_, hd0, ?_, ?_, ?_⟩
      · simp [strconv.formatBits, hu, e]
      · intro x hx
        simp at hx
        rcases hx with hx | rfl
        · exact hds x hx
        · simp [isDigit]; omega
      · intro h0
        have := (hz h0).1
        omega
      · rw [← List.cons_append, decimalValue_append_singleton, hval]
        omega

/-- The text strconv.FormatInt writes: an optional minus sign, then the
decimal digits of the absolute value without leading zeros. -/
theorem FormatInt_shape (n : Int) :
    ∃ d0 ds, strconv.FormatInt n = (if n < 0 then [0x2D] else []) ++ d0 :: ds ∧
      isDigit d0 = true ∧ Digits ds ∧ (d0 = 0x30 → ds = []) ∧
      (decimalValue (d0 :: ds) : Int) = |n| := by
  obtain ⟨d0, ds, e, hd0, hds, hz, hval⟩ := formatBits_shape (n.natAbs + 1) n.natAbs [] (by omega)
  refine ⟨d0, ds, ?_, hd0, hds, fun h => (hz h).2, ?_⟩
  · unfold strconv.FormatInt
    rw [e]
    split <;> simp
  · rw [hval]
    exact Int.natCast_natAbs n

theorem quietRun_cons (s s1 : scanner) (c : Nat) (op : Op) (p : GoString)
    (h : s.stepByte c = (op, s1))
    (hq : op = .scanContinue ∨ op = .scanBeginLiteral ∨ op = .scanBeginObject ∨
      op = .scanObjectKey ∨ op = .scanObjectValue ∨ op = .scanSkipSpace) :
    quietRun s (c :: p) = quietRun s1 p := by
  simp only [quietRun, h]
  rcases hq with rfl | rfl | rfl | rfl | rfl | rfl <;> simp

theorem quietRun_digits (ps : List ParseState) (ds q : GoString) (h : Digits ds) :
    quietRun (scn .state1 ps) (ds ++ q) = quietRun (scn .state1 ps) q := by
  induction ds with
  | nil => rfl
  | cons x ds ih =>
    have hx : isDigit x = true := h x (by simp)
    rw [List.cons_append, quietRun_cons _ (scn .state1 ps) x .scanContinue _
      (by simp [scanner.stepByte, scn, hx]) (by simp)]
    exact ih (fun y hy => h y (by simp [hy]))

/-- The scanner passes over the text of a number and is left in `state0` or
`state1`. -/
theorem quietRun_FormatInt (ps : List ParseState) (n : Int) :
    ∃ Z, (Z = StepFn.state0 ∨ Z = StepFn.state1) ∧
      ∀ q, quietRun (scn .stateBeginValue ps) (strconv.FormatInt n ++ q) = quietRun (scn Z ps) q := by
  obtain ⟨d0, ds, e, hd0, hds, hz, _⟩ := FormatInt_shape n
  have hd : 0x30 ≤ d0 ∧ d0 ≤ 0x39 := by simpa [isDigit] using hd0
  -- the digits, from stateBeginValue or stateNeg
  have key : ∀ W, (W = StepFn.stateBeginValue ∨ W = StepFn.stateNeg) →
      ∃ Z, (Z = StepFn.state0 ∨ Z = StepFn.state1) ∧
        ∀ q, quietRun (scn W ps) (d0 :: ds ++ q) = quietRun (scn Z ps) q := by
    intro W hW
    by_cases h0 : d0 = 0x30
    · refine ⟨.state0, Or.inl rfl, fun q => ?_⟩
      have := hz h0
      subst this
      subst h0
      rcases hW with rfl | rfl
      · exact quietRun_cons _ _ _ .scanBeginLiteral _
          (by simp [scanner.stepByte, scn, stateBeginValue, isSpace]) (by simp)
      · exact quietRun_cons _ _ _ .scanContinue _
          (by simp [scanner.stepByte, scn]) (by simp)
    · refine ⟨.state1, Or.inr rfl, fun q => ?_⟩
      have h1 : 0x31 ≤ d0 ∧ d0 ≤ 0x39 := by omega
      rw [List.cons_append]
      rcases hW with rfl | rfl
      · rw [quietRun_cons _ (scn .state1 ps) d0 .scanBeginLiteral _
          (by
            have a1 : d0 ≠ 0x7B := by omega
            have a2 : d0 ≠ 0x5B := by omega
            have a3 : d0 ≠ 0x22 := by omega
            have a4 : d0 ≠ 0x2D := by omega
            have a5 : d0 ≠ 0x74 := by omega
            have a6 : d0 ≠ 0x66 := by omega
            have a7 : d0 ≠ 0x6E := by omega
            have a8 : isSpace d0 = false := by simp [isSpace]; omega
            simp [scanner.stepByte, scn, stateBeginValue, a1, a2, a3, a4, a5, a6, a7, a8, h0, h1])
          (by simp)]
        exact quietRun_digits ps ds q hds
      · rw [quietRun_cons _ (scn .state1 ps) d0 .scanContinue _
          (by simp [scanner.stepByte, scn, h0, h1]) (by simp)]
        exact quietRun_digits ps ds q hds
  by_cases hn : n < 0
  · obtain ⟨Z, hZ, hrun⟩ := key .stateNeg (Or.inr rfl)
    refine ⟨Z, hZ, fun q => ?_⟩
    rw [e]
    simp only [hn, if_true, List.singleton_append, List.cons_append]
    rw [quietRun_cons _ (scn .stateNeg ps) 0x2D .scanBeginLiteral _
      (by simp [scanner.stepByte, scn, stateBeginValue, isSpace]) (by simp)]
    exact hrun q
  · obtain ⟨Z, hZ, hrun⟩ := key .stateBeginValue (Or.inl rfl)
    refine ⟨Z, hZ, fun q => ?_⟩
    rw [e]
    simp only [hn, if_false, List.nil_append]
    exact hrun q

theorem readValueLoop_run (buf : GoString) (s s1 : scanner) (p rest : GoString)
    (h : ∀ q, quietRun s (p ++ q) = quietRun s1 q) :
    readValueLoop buf s (p ++ rest) = pre p (readValueLoop buf s1 rest) := by
  have := h []
  simp only [List.append_nil, quietRun] at this
  exact readValueLoop_quiet buf s s1 p rest this

theorem quietRun_spaces_append (s : scanner) (ws q : GoString) (hs : SpaceStable s)
    (hw : AllSpace ws) : quietRun s (ws ++ q) = quietRun s q := by
  rw [quietRun_append, quietRun_spaces s ws hs hw]
  rfl

theorem quietRun_string (ps : List ParseState) (out q : GoString) (h : Escaped out) :
    quietRun (scn .stateInString ps) (out ++ 0x22 :: q) = quietRun (scn .stateEndValue ps) q := by
  rw [quietRun_append, quietRun_escaped ps out h]
  exact quietRun_cons _ _ _ .scanContinue _ (by simp [scanner.stepByte, scn]) (by simp)

theorem readValueLoop_spaces (buf : GoString) (s : scanner) (ws rest : GoString)
    (hs : SpaceStable s) (hw : AllSpace ws) :
    readValueLoop buf s (ws ++ rest) = pre ws (readValueLoop buf s rest) :=
  readValueLoop_run buf s s ws rest (fun q => quietRun_spaces_append s ws q hs hw)

theorem readValueLoop_byte (buf : GoString) (s s1 : scanner) (c : Nat) (op : Op)
    (rest : GoString) (h : s.stepByte c = (op, s1))
    (hq : op = .scanContinue ∨ op = .scanBeginLiteral ∨ op = .scanBeginObject ∨
      op = .scanObjectKey ∨ op = .scanObjectValue ∨ op = .scanSkipSpace) :
    readValueLoop buf s (c :: rest) = pre [c] (readValueLoop buf s1 rest) :=
  readValueLoop_run buf s s1 [c] rest (fun q => quietRun_cons s s1 c op q h hq)

theorem readValueLoop_string (buf : GoString) (ps : List ParseState) (out rest : GoString)
    (h : Escaped out) :
    readValueLoop buf (scn .stateInString ps) (out ++ 0x22 :: rest) =
      pre (out ++ [0x22]) (readValueLoop buf (scn .stateEndValue ps) rest) := by
  have := readValueLoop_run buf (scn .stateInString ps) (scn .stateEndValue ps) (out ++ [0x22]) rest
    (fun q => by simpa using quietRun_string ps out q h)
  simpa using this

theorem readValueLoop_closeTop (buf : GoString) (X : StepFn) (rest : GoString)
    (hX : X = .stateEndValue ∨ X = .state0 ∨ X = .state1) :
    readValueLoop buf (scn X [.parseObjectValue]) (0x7D :: rest) = .ok [0x7D] := by
  rcases hX with rfl | rfl | rfl <;>
    simp [readValueLoop, scanner.stepByte, scn, stateEndValue, isSpace, scanner.popParseState,
      stateEndTop, isDigit]

theorem escaped_token : Escaped (bytes "token") :=
  Escaped.appendStringLoop true (bytes "token")

theorem readValueLoop_tokenObject (buf w1 w2 w3 w4 w5 Venc rest : GoString)
    (h1 : AllSpace w1) (h2 : AllSpace w2) (h3 : AllSpace w3) (h4 : AllSpace w4)
    (h5 : AllSpace w5) (hV : Escaped Venc) :
    readValueLoop buf scanner.reset
      (w1 ++ 0x7B :: (w2 ++ 0x22 :: (bytes "token" ++ 0x22 :: (w3 ++ 0x3A :: (w4 ++ 0x22 ::
        ((Venc ++ [0x22]) ++ (w5 ++ 0x7D :: rest))))))) =
    .ok (w1 ++ 0x7B :: (w2 ++ 0x22 :: (bytes "token" ++ 0x22 :: (w3 ++ 0x3A :: (w4 ++ 0x22 ::
      ((Venc ++ [0x22]) ++ (w5 ++ 0x7D :: []))))))) := by
  have e0 : scanner.reset = scn .stateBeginValue [] := rfl
  rw [e0, readValueLoop_spaces _ _ _ _ (spaceStable_beginValue _) h1,
    readValueLoop_byte _ _ (scn .stateBeginStringOrEmpty [.parseObjectKey]) 0x7B .scanBeginObject _
      (by simp [scanner.stepByte, scn, stateBeginValue, isSpace, scanner.pushParseState,
        maxNestingDepth]) (by simp),
    readValueLoop_spaces _ _ _ _ (spaceStable_beginStringOrEmpty _) h2,
    readValueLoop_byte _ _ (scn .stateInString [.parseObjectKey]) 0x22 .scanBeginLiteral _
      (by simp [scanner.stepByte, scn, stateBeginString, isSpace]) (by simp),
    readValueLoop_string _ _ _ _ escaped_token,
    readValueLoop_spaces _ _ _ _ (spaceStable_endValue _ _) h3,
    readValueLoop_byte _ _ (scn .stateBeginValue [.parseObjectValue]) 0x3A .scanObjectKey _
      (by simp [scanner.stepByte, scn, stateEndValue, isSpace]) (by simp),
    readValueLoop_spaces _ _ _ _ (spaceStable_beginValue _) h4,
    readValueLoop_byte _ _ (scn .stateInString [.parseObjectValue]) 0x22 .scanBeginLiteral _
      (by simp [scanner.stepByte, scn, stateBeginValue, isSpace]) (by simp),
    List.append_assoc, List.singleton_append,
    readValueLoop_string _ _ _ _ hV,
    readValueLoop_spaces _ _ _ _ (spaceStable_endValue _ _) h5,
    readValueLoop_closeTop _ _ _ (Or.inl rfl)]
  simp [pre]

theorem unmarshal_tokenObject (foldRune : Nat → Nat) (w1 w2 w3 w4 w5 Venc T tok0 : GoString)
    (h1 : AllSpace w1) (h2 : AllSpace w2) (h3 : AllSpace w3) (h4 : AllSpace w4)
    (h5 : AllSpace w5) (hV : Escaped Venc) (hT : unquoteLoop 0 Venc = some T) :
    unmarshal foldRune (bytes "token")
      (w1 ++ 0x7B :: (w2 ++ 0x22 :: (bytes "token" ++ 0x22 :: (w3 ++ 0x3A :: (w4 ++ 0x22 ::
        ((Venc ++ [0x22]) ++ (w5 ++ 0x7D :: []))))))) tok0 = .ok (T, none) := by
  unfold unmarshal
  have e0 : scanner.reset = scn .stateBeginValue [] := rfl
  have hb : (scn .stateBeginValue []).stepByte 0x7B =
      (.scanBeginObject, scn .stateBeginStringOrEmpty [.parseObjectKey]) := by
    simp [scanner.stepByte, scn, stateBeginValue, isSpace, scanner.pushParseState, maxNestingDepth]
  have s0 := scanWhile_spaces
    { data := w1 ++ 0x7B :: (w2 ++ 0x22 :: (bytes "token" ++ 0x22 :: (w3 ++ 0x3A :: (w4 ++ 0x22 ::
        ((Venc ++ [0x22]) ++ (w5 ++ 0x7D :: [])))))),
      prev := 0, opcode := .scanContinue, scan := scn .stateBeginValue [], savedError := none }
    w1 0x7B _ rfl (spaceStable_beginValue _) h1 (by simp only [hb]; simp)
  simp only [hb] at s0
  rw [e0]
  simp only [s0]
  have hm := objectLoop_member foldRune (bytes "token")
    ((w2 ++ 0x22 :: (bytes "token" ++ 0x22 :: (w3 ++ 0x3A :: (w4 ++ 0x22 ::
        ((Venc ++ [0x22]) ++ (w5 ++ 0x7D :: [])))))).length)
    { data := w2 ++ 0x22 :: (bytes "token" ++ 0x22 :: (w3 ++ 0x3A :: (w4 ++ 0x22 ::
        ((Venc ++ [0x22]) ++ (w5 ++ 0x7D :: []))))),
      prev := 0x7B, opcode := .scanBeginObject,
      scan := scn .stateBeginStringOrEmpty [.parseObjectKey], savedError := none }
    tok0 T .stateBeginStringOrEmpty .stateInString w2 (bytes "token") w3 w4 0x22 (Venc ++ [0x22]) w5
    0x7D [] (bytes "token") (Or.inl rfl) rfl rfl escaped_token (by rfl) h2 h3 h4 h5
    (by simp [scanner.stepByte, scn, stateBeginValue, isSpace])
    (by
      simp only [rescanSplit, if_true, List.append_assoc, List.singleton_append]
      exact rescanString_escaped _ _ hV)
    (by rfl)
    (by
      intro dd
      have hu := unquoteBytes_key Venc T hT
      simp [literalStoreString, hu])
  have hclose : stateEndValue (scn .stateEndValue [.parseObjectValue]) 0x7D =
      (.scanEndObject, { step := .stateEndTop, endTop := true, parseState := [], err := false }) := by
    simp [stateEndValue, scn, isSpace, scanner.popParseState]
  rw [hclose] at hm
  simp only [if_true] at hm
  simp only [valueTop, reduceCtorEq, if_false, if_true, hm]
  rfl

/-- Decoding a body that starts with the object `{"token": <string literal>}`
(white space allowed between the tokens, anything after the closing brace):
the field receives the string the literal denotes and no error is returned. -/
theorem Decode_tokenObject (foldRune : Nat → Nat) (w1 w2 w3 w4 w5 Venc T rest tok0 : GoString)
    (h1 : AllSpace w1) (h2 : AllSpace w2) (h3 : AllSpace w3) (h4 : AllSpace w4)
    (h5 : AllSpace w5) (hV : Escaped Venc) (hT : unquoteLoop 0 Venc = some T) :
    Decode foldRune (bytes "token")
      (w1 ++ 0x7B :: (w2 ++ 0x22 :: (bytes "token" ++ 0x22 :: (w3 ++ 0x3A :: (w4 ++ 0x22 ::
        ((Venc ++ [0x22]) ++ (w5 ++ 0x7D :: rest))))))) tok0 = .ok (T, none) := by
  unfold Decode readValue
  rw [readValueLoop_tokenObject _ w1 w2 w3 w4 w5 Venc rest h1 h2 h3 h4 h5 hV]
  exact unmarshal_tokenObject foldRune w1 w2 w3 w4 w5 Venc T tok0 h1 h2 h3 h4 h5 hV hT

theorem rescanNumber_digits (ds : GoString) (c : Nat) (rest : GoString) (h : Digits ds)
    (hc : c = 0x2C ∨ c = 0x7D) :
    rescanNumber (ds ++ c :: rest) = (ds, c :: rest) := by
  induction ds with
  | nil =>
    rcases hc with rfl | rfl <;> simp [rescanNumber, isDigit]
  | cons x ds ih =>
    have hx : isDigit x = true := h x (by simp)
    simp only [List.cons_append, rescanNumber, hx, true_or, if_true]
    have e : ds.append (c :: rest) = ds ++ c :: rest := rfl
    rw [e, ih (fun y hy => h y (by simp [hy]))]

theorem quietRun_comma (Z : StepFn) (q : GoString)
    (hZ : Z = .state0 ∨ Z = .state1 ∨ Z = .stateEndValue) :
    quietRun (scn Z [.parseObjectValue]) (0x2C :: q) =
      quietRun (scn .stateBeginString [.parseObjectKey]) q := by
  rcases hZ with rfl | rfl | rfl <;>
    exact quietRun_cons _ _ _ .scanObjectValue _
      (by simp [scanner.stepByte, scn, stateEndValue, isSpace, isDigit]) (by simp)

theorem PlainLit.FormatInt (n : Int) :
    ∃ v0 vlit, strconv.FormatInt n = v0 :: vlit ∧ PlainLit v0 vlit := by
  obtain ⟨d0, ds, e, hd0, hds, hz, _⟩ := FormatInt_shape n
  obtain ⟨Z, hZ, hrun⟩ := quietRun_FormatInt [.parseObjectValue] n
  have hd : 0x30 ≤ d0 ∧ d0 ≤ 0x39 := by simpa [isDigit] using hd0
  have hq : ∀ v0 vlit, strconv.FormatInt n = v0 :: vlit → ∀ q,
      quietRun (scn .stateBeginValue [.parseObjectValue]) (v0 :: vlit ++ 0x2C :: q) =
        quietRun (scn .stateBeginString [.parseObjectKey]) q := by
    intro v0 vlit hv q
    have := hrun (0x2C :: q)
    rw [hv] at this
    rw [this]
    exact quietRun_comma Z q (by tauto)
  by_cases hn : n < 0
  · simp only [hn, if_true, List.singleton_append] at e
    refine ⟨0x2D, d0 :: ds, e, ⟨⟨.stateNeg, ?_⟩, ?_, hq _ _ e⟩⟩
    · simp [scanner.stepByte, scn, stateBeginValue, isSpace]
    · intro rest
      simp only [rescanSplit]
      simp only [isDigit]
      simp
      exact rescanNumber_digits (d0 :: ds) 0x2C rest
        (fun x hx => by
          simp at hx
          rcases hx with rfl | hx
          · exact hd0
          · exact hds x hx) (Or.inl rfl)
  · simp only [hn, if_false, List.nil_append] at e
    refine ⟨d0, ds, e, ⟨?_, ?_, hq _ _ e⟩⟩
    · by_cases h0 : d0 = 0x30
      · exact ⟨.state0, by subst h0; simp [scanner.stepByte, scn, stateBeginValue, isSpace]⟩
      · refine ⟨.state1, ?_⟩
        have a1 : d0 ≠ 0x7B := by omega
        have a2 : d0 ≠ 0x5B := by omega
        have a3 : d0 ≠ 0x22 := by omega
        have a4 : d0 ≠ 0x2D := by omega
        have a5 : d0 ≠ 0x74 := by omega
        have a6 : d0 ≠ 0x66 := by omega
        have a7 : d0 ≠ 0x6E := by omega
        have a8 : isSpace d0 = false := by simp [isSpace]; omega
        have h1 : 0x31 ≤ d0 ∧ d0 ≤ 0x39 := by omega
        simp [scanner.stepByte, scn, stateBeginValue, a1, a2, a3, a4, a5, a6, a7, a8, h0, h1]
    · intro rest
      simp only [rescanSplit]
      have a3 : d0 ≠ 0x22 := by omega
      simp only [a3, if_false, hd0, true_or, if_true]
      rw [rescanNumber_digits ds 0x2C rest hds (Or.inl rfl)]

theorem PlainLit.bool (b : Bool) :
    ∃ v0 vlit, encodeValue true (.bool b) = v0 :: vlit ∧ PlainLit v0 vlit := by
  cases b
  · refine ⟨0x66, bytes "alse", rfl, ⟨⟨.stateF, ?_⟩, ?_, ?_⟩⟩
    · simp [scanner.stepByte, scn, stateBeginValue, isSpace]
    · intro rest; simp [rescanSplit, isDigit]
    · intro q
      simp [quietRun, scanner.stepByte, scn, stateBeginValue, isSpace, expectByte, stateEndValue]
  · refine ⟨0x74, bytes "rue", rfl, ⟨⟨.stateT, ?_⟩, ?_, ?_⟩⟩
    · simp [scanner.stepByte, scn, stateBeginValue, isSpace]
    · intro rest; simp [rescanSplit, isDigit]
    · intro q
      simp [quietRun, scanner.stepByte, scn, stateBeginValue, isSpace, expectByte, stateEndValue]

theorem objectLoop_memberText (foldRune : Nat → Nat) (name : GoString) (fuel : Nat)
    (d : decodeState) (tok tok1 : GoString) (X Y : StepFn) (K key : GoString) (v0 : Nat)
    (vlit : GoString) (c : Nat) (rest : GoString)
    (hX : X = .stateBeginStringOrEmpty ∨ X = .stateBeginString)
    (hscan : d.scan = scn X [.parseObjectKey])
    (hdata : d.data = memberText K v0 vlit c rest)
    (hK : Escaped K) (hkey : unquoteLoop 0 K = some key)
    (hv0 : (scn .stateBeginValue [.parseObjectValue]).stepByte v0 =
      (.scanBeginLiteral, scn Y [.parseObjectValue]))
    (hsplit : rescanSplit v0 (vlit ++ c :: rest) = .ok (vlit, c :: rest))
    (hc : c = 0x2C ∨ c = 0x7D)
    (hstore : ∀ dd, (if selects foldRune name key = true
        then literalStoreString dd (v0 :: vlit) tok else .ok (dd, tok)) = .ok (dd, tok1)) :
    objectLoop foldRune name (fuel + 1) d tok =
      if c = 0x7D then .ok (afterMember c rest d.savedError, tok1)
      else objectLoop foldRune name fuel (afterMember c rest d.savedError) tok1 := by
  have hm := objectLoop_member foldRune name fuel d tok tok1 X Y [] K [] [] v0 vlit [] c rest key
    hX hscan hdata hK hkey (by intro x hx; simp at hx) (by intro x hx; simp at hx)
    (by intro x hx; simp at hx) (by intro x hx; simp at hx) hv0 hsplit
    (by rcases hc with rfl | rfl <;> rfl) hstore
  rw [hm]
  rcases hc with rfl | rfl
  · have h1 : stateEndValue (scn .stateEndValue [.parseObjectValue]) 0x2C =
        (.scanObjectValue, scn .stateBeginString [.parseObjectKey]) := by
      simp [stateEndValue, scn, isSpace]
    simp [afterMember, h1]
  · have h1 : stateEndValue (scn .stateEndValue [.parseObjectValue]) 0x7D =
        (.scanEndObject, { step := .stateEndTop, endTop := true, parseState := [], err := false }) := by
      simp [stateEndValue, scn, isSpace, scanner.popParseState]
    simp [afterMember, h1]

theorem afterMember_comma (rest : GoString) (se : Option GoError) :
    afterMember 0x2C rest se =
      { data := rest, prev := 0x2C, opcode := .scanObjectValue,
        scan := scn .stateBeginString [.parseObjectKey], savedError := se } := by
  simp [afterMember, stateEndValue, scn, isSpace]

/-- A member whose value is a literal that is not a string and that is
followed by a comma: it is passed over when its name does not select the
field. -/
theorem objectLoop_plain (foldRune : Nat → Nat) (name : GoString) (fuel : Nat)
    (d : decodeState) (tok : GoString) (X : StepFn) (K key : GoString) (v0 : Nat)
    (vlit rest : GoString)
    (hX : X = .stateBeginStringOrEmpty ∨ X = .stateBeginString)
    (hscan : d.scan = scn X [.parseObjectKey])
    (hdata : d.data = memberText K v0 vlit 0x2C rest)
    (hK : Escaped K) (hkey : unquoteLoop 0 K = some key) (hlit : PlainLit v0 vlit)
    (hsel : selects foldRune name key = false) :
    objectLoop foldRune name (fuel + 1) d tok =
      objectLoop foldRune name fuel
        { data := rest, prev := 0x2C, opcode := .scanObjectValue,
          scan := scn .stateBeginString [.parseObjectKey], savedError := d.savedError } tok := by
  obtain ⟨Y, hY⟩ := hlit.step
  rw [objectLoop_memberText foldRune name fuel d tok tok X Y K key v0 vlit 0x2C rest hX hscan hdata
    hK hkey hY (hlit.split rest) (Or.inl rfl) (by intro dd; simp [hsel]), afterMember_comma]
  simp

/-- A member whose value is a string literal: the string is stored when the
member's name selects the field. -/
theorem objectLoop_string (foldRune : Nat → Nat) (name : GoString) (fuel : Nat)
    (d : decodeState) (tok : GoString) (X : StepFn) (K key V v : GoString) (c : Nat)
    (rest : GoString)
    (hX : X = .stateBeginStringOrEmpty ∨ X = .stateBeginString)
    (hscan : d.scan = scn X [.parseObjectKey])
    (hdata : d.data = memberText K 0x22 (V ++ [0x22]) c rest)
    (hK : Escaped K) (hkey : unquoteLoop 0 K = some key)
    (hV : Escaped V) (hv : unquoteLoop 0 V = some v) (hc : c = 0x2C ∨ c = 0x7D) :
    objectLoop foldRune name (fuel + 1) d tok =
      if c = 0x7D then
        .ok (afterMember c rest d.savedError, if selects foldRune name key then v else tok)
      else objectLoop foldRune name fuel (afterMember c rest d.savedError)
        (if selects foldRune name key then v else tok) := by
  refine objectLoop_memberText foldRune name fuel d tok _ X .stateInString K key 0x22 (V ++ [0x22])
    c rest hX hscan hdata hK hkey
    (by simp [scanner.stepByte, scn, stateBeginValue, isSpace])
    (by
      simp only [rescanSplit, if_true, List.append_assoc, List.singleton_append]
      exact rescanString_escaped _ _ hV)
    hc ?_
  intro dd
  have hu := unquoteBytes_key V v hv
  cases hs : selects foldRune name key <;> simp [literalStoreString, hu]

theorem quietRun_key (X : StepFn) (K q : GoString)
    (hX : X = .stateBeginStringOrEmpty ∨ X = .stateBeginString) (hK : Escaped K) :
    quietRun (scn X [.parseObjectKey]) (0x22 :: (K ++ 0x22 :: 0x3A :: q)) =
      quietRun (scn .stateBeginValue [.parseObjectValue]) q := by
  rw [quietRun_cons _ (scn .stateInString [.parseObjectKey]) 0x22 .scanBeginLiteral _
      (by rcases hX with rfl | rfl <;> simp [scanner.stepByte, scn, stateBeginString, isSpace])
      (by simp),
    quietRun_string _ _ _ hK]
  exact quietRun_cons _ _ _ .scanObjectKey _
    (by simp [scanner.stepByte, scn, stateEndValue, isSpace]) (by simp)

theorem quietRun_member_plain (X : StepFn) (K : GoString) (v0 : Nat) (vlit q : GoString)
    (hX : X = .stateBeginStringOrEmpty ∨ X = .stateBeginString) (hK : Escaped K)
    (hlit : PlainLit v0 vlit) :
    quietRun (scn X [.parseObjectKey]) (memberText K v0 vlit 0x2C q) =
      quietRun (scn .stateBeginString [.parseObjectKey]) q := by
  unfold memberText
  rw [quietRun_key X K _ hX hK]
  exact hlit.quiet q

theorem quietRun_stringValue (V q : GoString) (hV : Escaped V) :
    quietRun (scn .stateBeginValue [.parseObjectValue]) (0x22 :: ((V ++ [0x22]) ++ q)) =
      quietRun (scn .stateEndValue [.parseObjectValue]) q := by
  rw [quietRun_cons _ (scn .stateInString [.parseObjectValue]) 0x22 .scanBeginLiteral _
      (by simp [scanner.stepByte, scn, stateBeginValue, isSpace]) (by simp),
    List.append_assoc, List.singleton_append]
  exact quietRun_string _ _ _ hV

theorem quietRun_member_string (X : StepFn) (K V q : GoString)
    (hX : X = .stateBeginStringOrEmpty ∨ X = .stateBeginString) (hK : Escaped K)
    (hV : Escaped V) :
    quietRun (scn X [.parseObjectKey]) (memberText K 0x22 (V ++ [0x22]) 0x2C q) =
      quietRun (scn .stateBeginString [.parseObjectKey]) q := by
  unfold memberText
  rw [quietRun_key X K _ hX hK, quietRun_stringValue V _ hV]
  exact quietRun_comma .stateEndValue q (by simp)

theorem memberText_append (K : GoString) (v0 : Nat) (vlit : GoString) (c : Nat)
    (rest q : GoString) :
    memberText K v0 vlit c rest ++ q = memberText K v0 vlit c (rest ++ q) := by
  simp [memberText]

theorem readValueLoop_objectText (buf K1 : GoString) (v0 : Nat) (vlit K2 V2 K3 V3 K4 : GoString)
    (b0 : Nat) (blit K5 V5 rest : GoString)
    (hK1 : Escaped K1) (hK2 : Escaped K2) (hK3 : Escaped K3) (hK4 : Escaped K4)
    (hK5 : Escaped K5) (hV2 : Escaped V2) (hV3 : Escaped V3) (hV5 : Escaped V5)
    (hl1 : PlainLit v0 vlit) (hl4 : PlainLit b0 blit) :
    readValueLoop buf scanner.reset (objectText K1 v0 vlit K2 V2 K3 V3 K4 b0 blit K5 V5 rest) =
      .ok (objectText K1 v0 vlit K2 V2 K3 V3 K4 b0 blit K5 V5 []) := by
  have hrun : ∀ q, quietRun scanner.reset
      ((0x7B :: memberText K1 v0 vlit 0x2C (memberText K2 0x22 (V2 ++ [0x22]) 0x2C
        (memberText K3 0x22 (V3 ++ [0x22]) 0x2C (memberText K4 b0 blit 0x2C
          (0x22 :: (K5 ++ 0x22 :: 0x3A :: 0x22 :: (V5 ++ [0x22]))))))) ++ q)
      = quietRun (scn .stateEndValue [.parseObjectValue]) q := by
    intro q
    have e0 : scanner.reset = scn .stateBeginValue [] := rfl
    rw [e0, List.cons_append, memberText_append, memberText_append, memberText_append,
      memberText_append,
      quietRun_cons _ (scn .stateBeginStringOrEmpty [.parseObjectKey]) 0x7B .scanBeginObject _
        (by simp [scanner.stepByte, scn, stateBeginValue, isSpace, scanner.pushParseState,
          maxNestingDepth]) (by simp),
      quietRun_member_plain _ _ _ _ _ (Or.inl rfl) hK1 hl1,
      quietRun_member_string _ _ _ _ (Or.inr rfl) hK2 hV2,
      quietRun_member_string _ _ _ _ (Or.inr rfl) hK3 hV3,
      quietRun_member_plain _ _ _ _ _ (Or.inr rfl) hK4 hl4]
    have e1 : (0x22 :: (K5 ++ 0x22 :: 0x3A :: 0x22 :: (V5 ++ [0x22]))) ++ q =
        0x22 :: (K5 ++ 0x22 :: 0x3A :: (0x22 :: ((V5 ++ [0x22]) ++ q))) := by simp
    rw [e1, quietRun_key _ K5 _ (Or.inr rfl) hK5, quietRun_stringValue V5 q hV5]
  have e2 : objectText K1 v0 vlit K2 V2 K3 V3 K4 b0 blit K5 V5 rest =
      (0x7B :: memberText K1 v0 vlit 0x2C (memberText K2 0x22 (V2 ++ [0x22]) 0x2C
        (memberText K3 0x22 (V3 ++ [0x22]) 0x2C (memberText K4 b0 blit 0x2C
          (0x22 :: (K5 ++ 0x22 :: 0x3A :: 0x22 :: (V5 ++ [0x22]))))))) ++ (0x7D :: rest) := by
    simp [objectText, memberText]
  have e3 : objectText K1 v0 vlit K2 V2 K3 V3 K4 b0 blit K5 V5 [] =
      (0x7B :: memberText K1 v0 vlit 0x2C (memberText K2 0x22 (V2 ++ [0x22]) 0x2C
        (memberText K3 0x22 (V3 ++ [0x22]) 0x2C (memberText K4 b0 blit 0x2C
          (0x22 :: (K5 ++ 0x22 :: 0x3A :: 0x22 :: (V5 ++ [0x22]))))))) ++ [0x7D] := by
    simp [objectText, memberText]
  rw [e2, readValueLoop_run buf _ _ _ _ hrun, readValueLoop_closeTop _ _ _ (Or.inl rfl), e3]
  rfl

theorem memberText_length (K : GoString) (v0 : Nat) (vlit : GoString) (c : Nat)
    (rest : GoString) : rest.length + 1 ≤ (memberText K v0 vlit c rest).length := by
  simp [memberText]
  omega

theorem unmarshal_objectText (foldRune : Nat → Nat) (name tok0 K1 key1 : GoString) (v0 : Nat)
    (vlit K2 key2 V2 s2 K3 key3 V3 s3 K4 key4 : GoString) (b0 : Nat)
    (blit K5 key5 V5 s5 : GoString)
    (hK1 : Escaped K1) (hK2 : Escaped K2) (hK3 : Escaped K3) (hK4 : Escaped K4)
    (hK5 : Escaped K5) (hV2 : Escaped V2) (hV3 : Escaped V3) (hV5 : Escaped V5)
    (hk1 : unquoteLoop 0 K1 = some key1) (hk2 : unquoteLoop 0 K2 = some key2)
    (hk3 : unquoteLoop 0 K3 = some key3) (hk4 : unquoteLoop 0 K4 = some key4)
    (hk5 : unquoteLoop 0 K5 = some key5)
    (hv2 : unquoteLoop 0 V2 = some s2) (hv3 : unquoteLoop 0 V3 = some s3)
    (hv5 : unquoteLoop 0 V5 = some s5)
    (hl1 : PlainLit v0 vlit) (hl4 : PlainLit b0 blit)
    (hn1 : selects foldRune name key1 = false) (hn4 : selects foldRune name key4 = false) :
    unmarshal foldRune name (objectText K1 v0 vlit K2 V2 K3 V3 K4 b0 blit K5 V5 []) tok0 =
      .ok (if selects foldRune name key5 then s5
           else if selects foldRune name key3 then s3
           else if selects foldRune name key2 then s2 else tok0, none) := by
  unfold unmarshal objectText
  have e0 : scanner.reset = scn .stateBeginValue [] := rfl
  have hb : (scn .stateBeginValue []).stepByte 0x7B =
      (.scanBeginObject, scn .stateBeginStringOrEmpty [.parseObjectKey]) := by
    simp [scanner.stepByte, scn, stateBeginValue, isSpace, scanner.pushParseState, maxNestingDepth]
  generalize hM5 : memberText K5 0x22 (V5 ++ [0x22]) 0x7D [] = M5
  generalize hM4 : memberText K4 b0 blit 0x2C M5 = M4
  generalize hM3 : memberText K3 0x22 (V3 ++ [0x22]) 0x2C M4 = M3
  generalize hM2 : memberText K2 0x22 (V2 ++ [0x22]) 0x2C M3 = M2
  generalize hM1 : memberText K1 v0 vlit 0x2C M2 = M1
  have s0 := scanWhile_spaces
    { data := 0x7B :: M1, prev := 0, opcode := .scanContinue, scan := scn .stateBeginValue [],
      savedError := none }
    [] 0x7B M1 rfl (spaceStable_beginValue _) (by intro x hx; simp at hx)
    (by simp only [hb]; simp)
  simp only [hb] at s0
  rw [e0]
  simp only [s0, valueTop, reduceCtorEq, if_false, if_true]
  -- enough fuel for five members
  have l5 := memberText_length K5 0x22 (V5 ++ [0x22]) 0x7D []
  have l4 := memberText_length K4 b0 blit 0x2C M5
  have l3 := memberText_length K3 0x22 (V3 ++ [0x22]) 0x2C M4
  have l2 := memberText_length K2 0x22 (V2 ++ [0x22]) 0x2C M3
  have l1 := memberText_length K1 v0 vlit 0x2C M2
  rw [hM5] at l5; rw [hM4] at l4; rw [hM3] at l3; rw [hM2] at l2; rw [hM1] at l1
  obtain ⟨f, hf⟩ : ∃ f, M1.length + 1 = f + 1 + 1 + 1 + 1 + 1 := ⟨M1.length - 4, by omega⟩
  rw [hf]
  rw [objectLoop_plain foldRune name _ _ tok0 .stateBeginStringOrEmpty K1 key1 v0 vlit M2
      (Or.inl rfl) rfl hM1.symm hK1 hk1 hl1 hn1,
    objectLoop_string foldRune name _ _ tok0 .stateBeginString K2 key2 V2 s2 0x2C M3
      (Or.inr rfl) rfl hM2.symm hK2 hk2 hV2 hv2 (Or.inl rfl)]
  simp only [Nat.reduceEqDiff, if_false, afterMember_comma]
  rw [objectLoop_string foldRune name _ _ _ .stateBeginString K3 key3 V3 s3 0x2C M4
      (Or.inr rfl) rfl hM3.symm hK3 hk3 hV3 hv3 (Or.inl rfl)]
  simp only [Nat.reduceEqDiff, if_false, afterMember_comma]
  rw [objectLoop_plain foldRune name _ _ _ .stateBeginString K4 key4 b0 blit M5
      (Or.inr rfl) rfl hM4.symm hK4 hk4 hl4 hn4,
    objectLoop_string foldRune name _ _ _ .stateBeginString K5 key5 V5 s5 0x7D []
      (Or.inr rfl) rfl hM5.symm hK5 hk5 hV5 hv5 (Or.inr rfl)]
  simp only [if_true]
  cases selects foldRune name key5 <;> cases selects foldRune name key3 <;>
    cases selects foldRune name key2 <;> rfl

/-- Decoding the text of a five-member object into a struct with one string
field: the field receives the value of the last string member whose name
selects it. -/
theorem Decode_objectText (foldRune : Nat → Nat) (name tok0 K1 key1 : GoString) (v0 : Nat)
    (vlit K2 key2 V2 s2 K3 key3 V3 s3 K4 key4 : GoString) (b0 : Nat)
    (blit K5 key5 V5 s5 : GoString)
    (hK1 : Escaped K1) (hK2 : Escaped K2) (hK3 : Escaped K3) (hK4 : Escaped K4)
    (hK5 : Escaped K5) (hV2 : Escaped V2) (hV3 : Escaped V3) (hV5 : Escaped V5)
    (hk1 : unquoteLoop 0 K1 = some key1) (hk2 : unquoteLoop 0 K2 = some key2)
    (hk3 : unquoteLoop 0 K3 = some key3) (hk4 : unquoteLoop 0 K4 = some key4)
    (hk5 : unquoteLoop 0 K5 = some key5)
    (hv2 : unquoteLoop 0 V2 = some s2) (hv3 : unquoteLoop 0 V3 = some s3)
    (hv5 : unquoteLoop 0 V5 = some s5)
    (hl1 : PlainLit v0 vlit) (hl4 : PlainLit b0 blit)
    (hn1 : selects foldRune name key1 = false) (hn4 : selects foldRune name key4 = false) :
    Decode foldRune name (objectText K1 v0 vlit K2 V2 K3 V3 K4 b0 blit K5 V5 []) tok0 =
      .ok (if selects foldRune name key5 then s5
           else if selects foldRune name key3 then s3
           else if selects foldRune name key2 then s2 else tok0, none) := by
  unfold Decode readValue
  rw [readValueLoop_objectText _ K1 v0 vlit K2 V2 K3 V3 K4 b0 blit K5 V5 [] hK1 hK2 hK3 hK4 hK5
    hV2 hV3 hV5 hl1 hl4]
  exact unmarshal_objectText foldRune name tok0 K1 key1 v0 vlit K2 key2 V2 s2 K3 key3 V3 s3 K4 key4
    b0 blit K5 key5 V5 s5 hK1 hK2 hK3 hK4 hK5 hV2 hV3 hV5 hk1 hk2 hk3 hk4 hk5 hv2 hv3 hv5 hl1 hl4
    hn1 hn4

theorem selects_table (foldRune : Nat → Nat) :
    selects foldRune (bytes "id") (bytes "expires-in") = false ∧
    selects foldRune (bytes "id") (bytes "id") = true ∧
    selects foldRune (bytes "id") (bytes "secret") = false ∧
    selects foldRune (bytes "id") (bytes "test-mode") = false ∧
    selects foldRune (bytes "id") (bytes "user-id") = false ∧
    selects foldRune (bytes "secret") (bytes "expires-in") = false ∧
    selects foldRune (bytes "secret") (bytes "id") = false ∧
    selects foldRune (bytes "secret") (bytes "secret") = true ∧
    selects foldRune (bytes "secret") (bytes "test-mode") = false ∧
    selects foldRune (bytes "secret") (bytes "user-id") = false ∧
    selects foldRune (bytes "user-id") (bytes "expires-in") = false ∧
    selects foldRune (bytes "user-id") (bytes "id") = false ∧
    selects foldRune (bytes "user-id") (bytes "secret") = false ∧
    selects foldRune (bytes "user-id") (bytes "test-mode") = false ∧
    selects foldRune (bytes "user-id") (bytes "user-id") = true := by
  refine ⟨?_, ?_, ?_, ?_, ?_, ?_, ?_, ?_, ?_, ?_, ?_, ?_, ?_, ?_, ?_⟩ <;> rfl

theorem keys_escaped :
    Escaped (bytes "expires-in") ∧ Escaped (bytes "id") ∧ Escaped (bytes "secret") ∧
    Escaped (bytes "test-mode") ∧ Escaped (bytes "user-id") :=
  ⟨Escaped.appendStringLoop true (bytes "expires-in"), Escaped.appendStringLoop true (bytes "id"),
   Escaped.appendStringLoop true (bytes "secret"), Escaped.appendStringLoop true (bytes "test-mode"),
   Escaped.appendStringLoop true (bytes "user-id")⟩

/-- The request body is the text of a five-member object. -/
theorem Marshal_objectText (c : Client) (opts : GetTokenOptions) :
    ∃ v0 vlit b0 blit, PlainLit v0 vlit ∧ PlainLit b0 blit ∧
      Marshal (requestData c opts) =
        objectText (bytes "expires-in") v0 vlit (bytes "id") (appendStringLoop true 0 c.key)
          (bytes "secret") (appendStringLoop true 0 c.secret) (bytes "test-mode") b0 blit
          (bytes "user-id") (appendStringLoop true 0 opts.UserID) [] := by
  obtain ⟨v0, vlit, e1, h1⟩ := PlainLit.FormatInt opts.ExpiresIn
  obtain ⟨b0, blit, e4, h4⟩ := PlainLit.bool opts.TestMode
  refine ⟨v0, vlit, b0, blit, h1, h4, ?_⟩
  obtain ⟨k1, k2, k3, k4, k5⟩ := appendString_keys
  unfold Marshal
  rw [sortByKey_requestData]
  simp only [encodeMembers, encodeMember, k1, k2, k3, k4, k5]
  rw [e4]
  simp only [encodeValue, e1, appendString, objectText, memberText, List.append_assoc,
    List.cons_append, List.nil_append, List.singleton_append]
  rfl

/-- Reading one of the three string members back from the request body with
the decoder of encoding/json gives the string that was put in, when the
strings are valid UTF-8. -/
theorem Decode_requestBody (foldRune : Nat → Nat) (c : Client) (opts : GetTokenOptions)
    (tok0 : GoString)
    (hk : utf8.ValidString c.key = true) (hs : utf8.ValidString c.secret = true)
    (hu : utf8.ValidString opts.UserID = true) :
    Decode foldRune (bytes "id") (Marshal (requestData c opts)) tok0 = .ok (c.key, none) ∧
    Decode foldRune (bytes "secret") (Marshal (requestData c opts)) tok0 = .ok (c.secret, none) ∧
    Decode foldRune (bytes "user-id") (Marshal (requestData c opts)) tok0 =
      .ok (opts.UserID, none) := by
  obtain ⟨v0, vlit, b0, blit, h1, h4, e⟩ := Marshal_objectText c opts
  obtain ⟨t1, t2, t3, t4, t5, t6, t7, t8, t9, t10, t11, t12, t13, t14, t15⟩ := selects_table foldRune
  obtain ⟨e1, e2, e3, e4, e5⟩ := keys_escaped
  have hd := fun name => Decode_objectText foldRune name tok0 (bytes "expires-in")
    (bytes "expires-in") v0 vlit (bytes "id") (bytes "id") (appendStringLoop true 0 c.key) c.key
    (bytes "secret") (bytes "secret") (appendStringLoop true 0 c.secret) c.secret
    (bytes "test-mode") (bytes "test-mode") b0 blit (bytes "user-id") (bytes "user-id")
    (appendStringLoop true 0 opts.UserID) opts.UserID e1 e2 e3 e4 e5
    (Escaped.appendStringLoop true _) (Escaped.appendStringLoop true _)
    (Escaped.appendStringLoop true _) (by rfl) (by rfl) (by rfl) (by rfl) (by rfl)
    (unquoteLoop_appendStringLoop true _ hk) (unquoteLoop_appendStringLoop true _ hs)
    (unquoteLoop_appendStringLoop true _ hu) h1 h4
  rw [e]
  refine ⟨?_, ?_, ?_⟩
  · rw [hd (bytes "id") t1 t4]
    simp only [t5, t3, t2]
    rfl
  · rw [hd (bytes "secret") t6 t9]
    simp only [t10, t8]
    rfl
  · rw [hd (bytes "user-id") t11 t14]
    simp only [t15]
    rfl

theorem scanInv_reset : ScanInv scanner.reset := by
  simp [ScanInv, scanner.reset]

theorem scanInv_error (s : scanner) : ScanInv (scanner.error s).2 := by
  simp [ScanInv, scanner.error]

theorem scanInv_setStep (s : scanner) (x : StepFn) (h : s.err = false) (hx : x ≠ .stateEndTop)
    (hy : x ≠ .stateBeginValueOrEmpty) :
    ScanInv { s with step := x } := by
  simp [ScanInv, h, hx, hy]

theorem scanInv_push (s : scanner) (x : StepFn) (p : ParseState) (o : Op) (h : s.err = false)
    (hx : x ≠ .stateEndTop) :
    ScanInv (scanner.pushParseState { s with step := x } p o).2 := by
  unfold scanner.pushParseState
  simp only
  split
  · simp [ScanInv, h, hx]
  · simp [ScanInv, scanner.error]

theorem scanInv_pop (s : scanner) (h : s.err = false) : ScanInv (scanner.popParseState s) := by
  unfold scanner.popParseState
  simp only
  split <;> simp [ScanInv, h]

set_option maxHeartbeats 2000000 in
theorem scanInv_stateBeginValue (s : scanner) (c : Nat) (h : s.err = false) (hi : ScanInv s) :
    ScanInv (stateBeginValue s c).2 := by
  unfold stateBeginValue
  split_ifs
  · exact hi
  · exact scanInv_push _ _ _ _ h (by decide)
  · exact scanInv_push _ _ _ _ h (by decide)
  all_goals first
    | exact scanInv_setStep _ _ h (by decide) (by decide)
    | exact scanInv_error _

theorem scanInv_stateBeginString (s : scanner) (c : Nat) (h : s.err = false) (hi : ScanInv s) :
    ScanInv (stateBeginString s c).2 := by
  unfold stateBeginString
  split_ifs
  · exact hi
  · exact scanInv_setStep _ _ h (by decide) (by decide)
  · exact scanInv_error _

theorem scanInv_expectByte (s : scanner) (c want : Nat) (x : StepFn) (h : s.err = false)
    (hx : x ≠ .stateEndTop) (hy : x ≠ .stateBeginValueOrEmpty) :
    ScanInv (expectByte s c want x).2 := by
  unfold expectByte
  split_ifs
  · exact scanInv_setStep _ _ h hx hy
  · exact scanInv_error _

theorem scanInv_expectHex (s : scanner) (c : Nat) (x : StepFn) (h : s.err = false)
    (hx : x ≠ .stateEndTop) (hy : x ≠ .stateBeginValueOrEmpty) :
    ScanInv (expectHex s c x).2 := by
  unfold expectHex
  split_ifs
  · exact scanInv_setStep _ _ h hx hy
  · exact scanInv_error _

theorem scanInv_stateEndTop (s : scanner) (c : Nat) (hi : ScanInv s) :
    ScanInv (stateEndTop s c).2 := by
  unfold stateEndTop
  split_ifs
  · exact scanInv_error _
  · exact hi

set_option maxHeartbeats 2000000 in
theorem scanInv_stateEndValue (s : scanner) (c : Nat) (h : s.err = false) :
    ScanInv (stateEndValue s c).2 := by
  rcases s with ⟨st, et, ps, er⟩
  simp only at h
  subst h
  rcases ps with _ | ⟨p, ps⟩
  · simp only [stateEndValue]
    apply scanInv_stateEndTop
    simp [ScanInv]
  · cases p <;> simp only [stateEndValue] <;> split_ifs <;>
      first
      | exact scanInv_error _
      | exact scanInv_pop _ rfl
      | simp [ScanInv]

set_option maxHeartbeats 4000000 in
theorem scanInv_step (s : scanner) (c : Nat) (h : ScanInv s) : ScanInv (s.stepByte c).2 := by
  by_cases he : s.err = true
  · have hs := h.1 he
    unfold scanner.stepByte
    rw [hs]
    exact h
  · simp only [Bool.not_eq_true] at he
    unfold scanner.stepByte
    split <;> (try split_ifs) <;>
      first
      | exact h
      | exact scanInv_stateBeginValue _ _ he h
      | exact scanInv_stateBeginString _ _ he h
      | exact scanInv_stateEndValue _ _ he
      | exact scanInv_stateEndTop _ _ h
      | exact scanInv_error _
      | exact scanInv_expectByte _ _ _ _ he (by decide) (by decide)
      | exact scanInv_expectHex _ _ _ he (by decide) (by decide)
      | exact scanInv_setStep _ _ he (by decide) (by decide)

theorem error_op (s : scanner) : (scanner.error s).1 = .scanError := rfl

theorem pushParseState_op (s : scanner) (p : ParseState) (o : Op)
    (ho : o ≠ .scanEnd ∧ ¬ IsClose o) :
    (scanner.pushParseState s p o).1 ≠ .scanEnd ∧ ¬ IsClose (scanner.pushParseState s p o).1 := by
  unfold scanner.pushParseState scanner.error
  simp only
  split
  · exact ho
  · simp [IsClose]

set_option maxHeartbeats 2000000 in
theorem stateBeginValue_op (s : scanner) (c : Nat) :
    (stateBeginValue s c).1 ≠ .scanEnd ∧ ¬ IsClose (stateBeginValue s c).1 := by
  unfold stateBeginValue
  split_ifs <;>
    first
    | exact pushParseState_op _ _ _ (by simp [IsClose])
    | simp [IsClose, scanner.error]

theorem stateBeginString_op (s : scanner) (c : Nat) :
    (stateBeginString s c).1 ≠ .scanEnd ∧ ¬ IsClose (stateBeginString s c).1 := by
  unfold stateBeginString scanner.error IsClose
  split_ifs <;> simp

theorem expectByte_op (s : scanner) (c want : Nat) (x : StepFn) :
    (expectByte s c want x).1 ≠ .scanEnd ∧ ¬ IsClose (expectByte s c want x).1 := by
  unfold expectByte scanner.error IsClose
  split_ifs <;> simp

theorem expectHex_op (s : scanner) (c : Nat) (x : StepFn) :
    (expectHex s c x).1 ≠ .scanEnd ∧ ¬ IsClose (expectHex s c x).1 := by
  unfold expectHex scanner.error IsClose
  split_ifs <;> simp

theorem stateEndTop_op (s : scanner) (c : Nat) : ¬ IsClose (stateEndTop s c).1 := by
  unfold stateEndTop IsClose
  split_ifs <;> simp

set_option maxHeartbeats 2000000 in
theorem stateEndValue_end (s : scanner) (c : Nat) (h : (stateEndValue s c).1 = .scanEnd) :
    s.parseState = [] := by
  rcases s with ⟨st, et, ps, er⟩
  rcases ps with _ | ⟨p, ps⟩
  · rfl
  · exfalso
    revert h
    cases p <;> simp only [stateEndValue, scanner.error] <;> split_ifs <;> simp

set_option maxHeartbeats 2000000 in
theorem stateEndValue_close (s : scanner) (c : Nat) (h : IsClose (stateEndValue s c).1) :
    (stateEndValue s c).2 = scanner.popParseState s := by
  rcases s with ⟨st, et, ps, er⟩
  rcases ps with _ | ⟨p, ps⟩
  · exact absurd h (stateEndTop_op _ _)
  · revert h
    cases p <;> simp only [stateEndValue, scanner.error, IsClose] <;> split_ifs <;> simp

theorem stateEndValue_top (s : scanner) (c : Nat) (h : s.parseState = []) :
    (stateEndValue s c).2.endTop = true := by
  rcases s with ⟨st, et, ps, er⟩
  simp only at h
  subst h
  simp only [stateEndValue, stateEndTop, scanner.error]
  split_ifs <;> rfl

set_option maxHeartbeats 4000000 in
theorem eof_of_scanEnd (s : scanner) (c : Nat) (hi : ScanInv s)
    (he : (s.stepByte c).1 = .scanEnd) : (s.eof).1 = .scanEnd := by
  rcases s with ⟨st, et, ps, er⟩
  cases er
  swap
  · have h1 := hi.1 rfl
    simp only at h1
    subst h1
    simp [scanner.stepByte] at he
  cases et
  swap
  · simp [scanner.eof]
  cases st <;> simp only [scanner.stepByte] at he <;> (try split_ifs at he) <;>
    first
    | exact absurd he (stateBeginValue_op _ _).1
    | exact absurd he (stateBeginString_op _ _).1
    | exact absurd he (expectByte_op _ _ _ _).1
    | exact absurd he (expectHex_op _ _ _).1
    | exact absurd he (by simp [scanner.error])
    | (have h2 := hi.2.1 rfl; simp at h2)
    | (have hp := stateEndValue_end _ _ he
       simp only at hp
       first
       | exact absurd hp (hi.2.2 rfl)
       | exact absurd hp (by simp)
       | (subst hp; rfl))

set_option maxHeartbeats 4000000 in
theorem stepByte_close (s : scanner) (c : Nat) (hc : IsClose (s.stepByte c).1) :
    ∃ s0 : scanner, s0.err = s.err ∧ (s.stepByte c).2 = scanner.popParseState s0 := by
  rcases s with ⟨st, et, ps, er⟩
  cases st <;> simp only [scanner.stepByte] at hc ⊢ <;> (try split_ifs at hc ⊢) <;>
    first
    | exact absurd hc (stateBeginValue_op _ _).2
    | exact absurd hc (stateBeginString_op _ _).2
    | exact absurd hc (expectByte_op _ _ _ _).2
    | exact absurd hc (expectHex_op _ _ _).2
    | exact absurd hc (stateEndTop_op _ _)
    | exact ⟨_, rfl, stateEndValue_close _ _ hc⟩
    | exact absurd hc (by simp [scanner.error, IsClose])

theorem eof_of_close (s : scanner) (c : Nat) (hi : ScanInv s)
    (hc : IsClose (s.stepByte c).1)
    (he : (stateEndValue (s.stepByte c).2 0x20).1 = .scanEnd) :
    ((s.stepByte c).2.eof).1 = .scanEnd := by
  have herr : s.err = false := by
    cases h : s.err
    · rfl
    · exfalso
      have h1 := hi.1 h
      rcases s with ⟨st, et, ps, er⟩
      simp only at h1
      subst h1
      simp [scanner.stepByte, IsClose] at hc
  obtain ⟨s0, h0, h1⟩ := stepByte_close s c hc
  have hp := stateEndValue_end _ _ he
  rw [h1] at hp ⊢
  rw [herr] at h0
  rcases s0 with ⟨st, et, ps, er⟩
  simp only at h0
  subst h0
  simp only [scanner.popParseState] at hp ⊢
  split_ifs at hp ⊢ with hl
  · simp [scanner.eof]
  · simp only at hp
    simp [hp] at hl

theorem readValueLoop_valid (buf : GoString) :
    ∀ (body : GoString) (s : scanner) (v : GoString), ScanInv s →
      readValueLoop buf s body = .ok v →
      (∃ t, body = v ++ t) ∧ ∃ s1, checkValidLoop s v = some s1 ∧ (s1.eof).1 = .scanEnd := by
  intro body
  induction body with
  | nil =>
    intro s v hi h
    simp only [readValueLoop] at h
    split_ifs at h with h1
    · cases h
      exact ⟨⟨[], rfl⟩, s, rfl, eof_of_scanEnd s _ hi h1⟩
  | cons c rest ih =>
    intro s v hi h
    simp only [readValueLoop] at h
    split_ifs at h with h1 h2 h3
    · cases h
      exact ⟨⟨_, rfl⟩, s, rfl, eof_of_scanEnd s _ hi h1⟩
    · cases h
      refine ⟨⟨rest, rfl⟩, (s.stepByte c).2, ?_, eof_of_close s c hi h2.1 h2.2⟩
      have hne : (s.stepByte c).1 ≠ .scanError := by
        rcases h2.1 with h4 | h4 <;> rw [h4] <;> decide
      simp [checkValidLoop, hne]
    · cases hr : readValueLoop buf (s.stepByte c).2 rest with
      | error e => rw [hr] at h; cases h
      | ok v1 =>
        rw [hr] at h
        cases h
        obtain ⟨⟨t, ht⟩, s1, hs1, he1⟩ := ih _ _ (scanInv_step s c hi) hr
        refine ⟨⟨t, by rw [ht]; rfl⟩, s1, ?_, he1⟩
        simp [checkValidLoop, h3, hs1]

theorem readValue_valid (body v : GoString) (h : readValue body = .ok v) :
    v ∈ body.inits ∧ Valid v = true := by
  obtain ⟨⟨t, ht⟩, s1, hs1, he1⟩ := readValueLoop_valid body body _ v scanInv_reset h
  refine ⟨?_, ?_⟩
  · rw [List.mem_inits]
    exact ⟨t, ht.symm⟩
  · simp [Valid, hs1, he1]

theorem readValueLoop_error (buf : GoString) :
    ∀ (body : GoString) (s : scanner) (e : GoError),
      readValueLoop buf s body = .error e →
      e = .SyntaxError ∨ e = .EOF ∨ e = .ErrUnexpectedEOF := by
  intro body
  induction body with
  | nil =>
    intro s e h
    simp only [readValueLoop] at h
    split_ifs at h <;> cases h <;> simp
  | cons c rest ih =>
    intro s e h
    simp only [readValueLoop] at h
    split_ifs at h
    · cases h; simp
    · cases hr : readValueLoop buf (s.stepByte c).2 rest with
      | error e1 =>
        rw [hr] at h
        cases h
        exact ih _ _ hr
      | ok v1 => rw [hr] at h; cases h

theorem tokenObject_eq (w1 w2 w3 w4 w5 w6 : GoString) (esc : Bool) (T : GoString) :
    tokenObject w1 w2 w3 w4 w5 w6 esc T =
      w1 ++ 0x7B :: (w2 ++ 0x22 :: (bytes "token" ++ 0x22 :: (w3 ++ 0x3A :: (w4 ++ 0x22 ::
        ((appendStringLoop esc 0 T ++ [0x22]) ++ (w5 ++ 0x7D :: w6)))))) := by
  simp [tokenObject, appendString, bytes]

theorem Decode_tokenObject_enc (foldRune : Nat → Nat) (w1 w2 w3 w4 w5 w6 : GoString) (esc : Bool)
    (T R tok0 : GoString)
    (h1 : AllSpace w1) (h2 : AllSpace w2) (h3 : AllSpace w3) (h4 : AllSpace w4)
    (h5 : AllSpace w5) (hR : unquoteLoop 0 (appendStringLoop esc 0 T) = some R) :
    Decode foldRune (bytes "token") (tokenObject w1 w2 w3 w4 w5 w6 esc T) tok0 = .ok (R, none) := by
  rw [tokenObject_eq]
  exact Decode_tokenObject foldRune w1 w2 w3 w4 w5 _ R w6 tok0 h1 h2 h3 h4 h5
    (Escaped.appendStringLoop esc T) hR

theorem GetTokenWithOptions_ok {σ : Type} (rt : Runtime σ) (opts : GetTokenOptions) (st : State σ)
    (body : GoString) (w : σ) (r : GoString × Option GoError)
    (hdo : rt.Do st.receiver.client (buildRequest st.receiver opts) st.world = (.ok ⟨200, body⟩, w))
    (hdec : Decode rt.foldRune (bytes "token") body [] = .ok r) :
    GetTokenWithOptions rt opts st = (.ok ({ Token := r.1 }, r.2), { st with world := w }) := by
  unfold GetTokenWithOptions
  rcases r with ⟨tok, _ | e⟩ <;> simp [hdo, hdec]

theorem AllSpace_nil : AllSpace [] := by
  intro x hx
  cases hx

theorem AllSpace_space : AllSpace [0x20] := by
  intro x hx
  simp only [List.mem_singleton] at hx
  subst hx
  rfl

theorem GetTokenWithOptions_state {σ : Type} (rt : Runtime σ) (opts : GetTokenOptions) (st : State σ) :
    (GetTokenWithOptions rt opts st).2 =
      { st with world := (rt.Do st.receiver.client (buildRequest st.receiver opts) st.world).2 } := by
  unfold GetTokenWithOptions
  simp only
  split
  · rfl
  · split
    · rfl
    · split <;> rfl

theorem runCalls_frame {σ : Type} (rt : Runtime σ) (calls : List Call) (st : State σ) :
    (runCalls rt calls st).2.receiver = st.receiver := by
  induction calls generalizing st with
  | nil => rfl
  | cons call rest ih =>
    simp only [runCalls]
    rw [ih]
    cases call <;> simp [Call.run, GetToken, GetTokenWithOptions_state]

theorem runCalls_log {σ : Type} (rt : Runtime σ) (calls : List Call) (c : Client) (w : σ)
    (log : List http.Request) :
    (runCalls rt.recording calls { receiver := c, world := (w, log) }).2.world.2
      = log ++ calls.map (fun call => buildRequest c call.opts) := by
  induction calls generalizing w log with
  | nil => simp [runCalls]
  | cons call rest ih =>
    simp only [runCalls]
    have h : (call.run rt.recording { receiver := c, world := (w, log) }).2 =
        { receiver := c, world := ((rt.Do c.client (buildRequest c call.opts) w).2, log ++ [buildRequest c call.opts]) } := by
      cases call <;> simp [Call.run, GetToken, GetTokenWithOptions_state, Runtime.recording, Call.opts]
    rw [h, ih]
    simp

theorem buildRequest_Body (c : Client) (opts : GetTokenOptions) :
    (buildRequest c opts).Body = Marshal (requestData c opts) := rfl

theorem readValue_requestBody (c : Client) (opts : GetTokenOptions) :
    readValue (Marshal (requestData c opts)) = .ok (Marshal (requestData c opts)) := by
  obtain ⟨v0, vlit, b0, blit, h1, h4, e⟩ := Marshal_objectText c opts
  obtain ⟨e1, e2, e3, e4, e5⟩ := keys_escaped
  rw [e]
  unfold readValue
  exact readValueLoop_objectText _ _ _ _ _ _ _ _ _ _ _ _ _ [] e1 e2 e3 e4 e5
    (Escaped.appendStringLoop true _) (Escaped.appendStringLoop true _)
    (Escaped.appendStringLoop true _) h1 h4

theorem Valid_requestBody (c : Client) (opts : GetTokenOptions) :
    Valid (Marshal (requestData c opts)) = true :=
  (readValue_valid _ _ (readValue_requestBody c opts)).2

theorem unquoteLoop_bad (t : GoString) :
    unquoteLoop 0 ([0x5C, 0x75, 0x66, 0x66, 0x66, 0x64] ++ t)
      = (unquoteLoop 0 t).map ([0xEF, 0xBF, 0xBD] ++ ·) := by
  have g : getu4 (0x5C :: 0x75 :: 0x66 :: 0x66 :: 0x66 :: 0x64 :: t) = some 0xFFFD :=
    getu4_escape 0x66 0x66 0x66 0x64 t 15 15 15 13 (by rfl) (by rfl) (by rfl) (by rfl)
  have henc : utf8.EncodeRune 0xFFFD = [0xEF, 0xBF, 0xBD] := by decide
  simp [unquoteLoop]
  rw [g]
  simp [henc]

/-- The decoder reads every string literal of the encoder: the literal
denotes some string. -/
theorem unquoteLoop_total (esc : Bool) (s : GoString) :
    ∃ R, unquoteLoop 0 (appendStringLoop esc 0 s) = some R := by
  refine appendStringLoop_ind esc (fun _ out => ∃ R, unquoteLoop 0 out = some R)
    ?_ ?_ ?_ ?_ ?_ ?_ s
  · exact ⟨[], unquoteLoop_nil⟩
  · intro b s out hb hs ⟨R, ih⟩
    have hsafe : safeSet b = true := by
      cases esc <;> simp [htmlSafeSet] at hs <;> tauto
    simp [safeSet] at hsafe
    exact ⟨_, by rw [unquoteLoop_plain b out (by omega) hb (by omega) (by omega), ih]; rfl⟩
  · intro b s out hb hs ⟨R, ih⟩
    exact ⟨_, by rw [unquoteLoop_escapeByte b out hb, ih]; rfl⟩
  · intro b s out hb hd ⟨R, ih⟩
    exact ⟨_, by rw [unquoteLoop_bad, ih]; rfl⟩
  · intro bs c s out hr hc ⟨R, ih⟩
    exact ⟨_, by rw [unquoteLoop_sep bs c out hr hc, ih]; rfl⟩
  · intro bs c s out hr hc ⟨R, ih⟩
    exact ⟨_, by rw [unquoteLoop_rune bs c out hr, ih]; rfl⟩

/-- Reading a string member back from the request body with the decoder of
encoding/json gives the string that was put in, for each member whose string
is valid UTF-8 (whatever the other strings are). -/
theorem Decode_requestBody_fields (foldRune : Nat → Nat) (c : Client) (opts : GetTokenOptions)
    (tok0 : GoString) :
    (utf8.ValidString c.key = true →
      Decode foldRune (bytes "id") (Marshal (requestData c opts)) tok0 = .ok (c.key, none)) ∧
    (utf8.ValidString c.secret = true →
      Decode foldRune (bytes "secret") (Marshal (requestData c opts)) tok0 =
        .ok (c.secret, none)) ∧
    (utf8.ValidString opts.UserID = true →
      Decode foldRune (bytes "user-id") (Marshal (requestData c opts)) tok0 =
        .ok (opts.UserID, none)) := by
  obtain ⟨v0, vlit, b0, blit, h1, h4, e⟩ := Marshal_objectText c opts
  obtain ⟨t1, t2, t3, t4, t5, t6, t7, t8, t9, t10, t11, t12, t13, t14, t15⟩ := selects_table foldRune
  obtain ⟨e1, e2, e3, e4, e5⟩ := keys_escaped
  obtain ⟨Rk, hRk⟩ := unquoteLoop_total true c.key
  obtain ⟨Rs, hRs⟩ := unquoteLoop_total true c.secret
  obtain ⟨Ru, hRu⟩ := unquoteLoop_total true opts.UserID
  have hd := fun name => Decode_objectText foldRune name tok0 (bytes "expires-in")
    (bytes "expires-in") v0 vlit (bytes "id") (bytes "id") (appendStringLoop true 0 c.key) Rk
    (bytes "secret") (bytes "secret") (appendStringLoop true 0 c.secret) Rs
    (bytes "test-mode") (bytes "test-mode") b0 blit (bytes "user-id") (bytes "user-id")
    (appendStringLoop true 0 opts.UserID) Ru e1 e2 e3 e4 e5
    (Escaped.appendStringLoop true _) (Escaped.appendStringLoop true _)
    (Escaped.appendStringLoop true _) (by rfl) (by rfl) (by rfl) (by rfl) (by rfl)
    hRk hRs hRu h1 h4
  rw [e]
  refine ⟨?_, ?_, ?_⟩
  · intro hk
    have hx : Rk = c.key := by
      have := unquoteLoop_appendStringLoop true _ hk
      rw [hRk] at this
      exact Option.some.inj this
    rw [hd (bytes "id") t1 t4]
    simp only [t5, t3, t2, hx]
    rfl
  · intro hs
    have hx : Rs = c.secret := by
      have := unquoteLoop_appendStringLoop true _ hs
      rw [hRs] at this
      exact Option.some.inj this
    rw [hd (bytes "secret") t6 t9]
    simp only [t10, t8, hx]
    rfl
  · intro hu
    have hx : Ru = opts.UserID := by
      have := unquoteLoop_appendStringLoop true _ hu
      rw [hRu] at this
      exact Option.some.inj this
    rw [hd (bytes "user-id") t11 t14]
    simp only [t15, hx]
    rfl

set_option maxHeartbeats 4000000 in
theorem scanEnd_space (s : scanner) (c : Nat) (hi : ScanInv s)
    (he : (s.stepByte c).1 = .scanEnd) : (s.stepByte 0x20).1 = .scanEnd := by
  rcases s with ⟨st, et, ps, er⟩
  cases st <;> simp only [scanner.stepByte] at he <;> (try split_ifs at he) <;>
    first
    | exact absurd he (stateBeginValue_op _ _).1
    | exact absurd he (stateBeginString_op _ _).1
    | exact absurd he (expectByte_op _ _ _ _).1
    | exact absurd he (expectHex_op _ _ _).1
    | (simp only [scanner.stepByte, stateEndTop]; split_ifs <;> rfl)
    | (have hp := stateEndValue_end _ _ he
       simp only at hp
       first
       | exact absurd hp (hi.2.2 rfl)
       | (subst hp; rfl)
       | exact absurd hp (by simp))
    | exact absurd he (by simp [scanner.error])

/-- The value Decoder.readValue returns is read as itself when it is the
whole stream. -/
theorem readValueLoop_idem (buf buf2 : GoString) :
    ∀ (body : GoString) (s : scanner) (v : GoString), ScanInv s →
      readValueLoop buf s body = .ok v → readValueLoop buf2 s v = .ok v := by
  intro body
  induction body with
  | nil =>
    intro s v hi h
    simp only [readValueLoop] at h
    split_ifs at h with h1
    · cases h
      simp [readValueLoop, h1]
  | cons c rest ih =>
    intro s v hi h
    simp only [readValueLoop] at h
    split_ifs at h with h1 h2 h3
    · cases h
      simp [readValueLoop, scanEnd_space s c hi h1]
    · cases h
      simp only [readValueLoop, h1, if_false, h2]
      simp
    · cases hr : readValueLoop buf (s.stepByte c).2 rest with
      | error e => rw [hr] at h; cases h
      | ok v1 =>
        rw [hr] at h
        cases h
        have hv := ih _ _ (scanInv_step s c hi) hr
        simp only [readValueLoop, h1, if_false, h2, h3, hv]

theorem readValue_idem (body v : GoString) (h : readValue body = .ok v) :
    readValue v = .ok v :=
  readValueLoop_idem body v body _ v scanInv_reset h

/-- What GetTokenWithOptions returns on a response with status 200: the
outcome of the decoder on the body. -/
theorem GetTokenWithOptions_200 {σ : Type} (rt : Runtime σ) (opts : GetTokenOptions) (st : State σ)
    (body : GoString) (w : σ)
    (hdo : rt.Do st.receiver.client (buildRequest st.receiver opts) st.world = (.ok ⟨200, body⟩, w)) :
    (GetTokenWithOptions rt opts st).1 =
      (Decode rt.foldRune (bytes "token") body []).map (fun r => ({ Token := r.1 }, r.2)) := by
  unfold GetTokenWithOptions
  simp only [hdo]
  rcases hd : Decode rt.foldRune (bytes "token") body [] with x | ⟨tok, _ | e⟩ <;> simp [Except.map]

/-- C1: when the transport returns a response whose status code is not 200,
GetTokenWithOptions returns the zero-value GetTokenResponse together with
ErrCredentials, whatever the body of the response is; the result does not
depend on the body, which is never decoded. -/
theorem status_not_200_returns_ErrCredentials {σ : Type} (rt : Runtime σ)
    (opts : GetTokenOptions) (st : State σ) (s : Int) (b : GoString) (w : σ)
    (hdo : rt.Do st.receiver.client (buildRequest st.receiver opts) st.world = (.ok ⟨s, b⟩, w))
    (hs : s ≠ 200) :
    GetTokenWithOptions rt opts st =
      (.ok ({ Token := [] }, some ErrCredentials), { st with world := w }) := by
  unfold GetTokenWithOptions
  simp [hdo, hs]

/-- C1, at a concrete input: status 401 with a well-formed token object as
body. -/
theorem status_not_200_returns_ErrCredentials_witness :
    (401 : Int) ≠ 200 ∧
    GetTokenWithOptions
        (Runtime.answering (fun r => r) (.ok ⟨401, bytes "\x7b\"token\":\"x\"\x7d"⟩))
        defaultOptions { receiver := NewWithCredentials (bytes "k") (bytes "s"), world := () } =
      (.ok ({ Token := [] }, some ErrCredentials),
        { receiver := NewWithCredentials (bytes "k") (bytes "s"), world := () }) :=
  ⟨by decide,
    status_not_200_returns_ErrCredentials
      (Runtime.answering (fun r => r) (.ok ⟨401, bytes "\x7b\"token\":\"x\"\x7d"⟩))
      defaultOptions { receiver := NewWithCredentials (bytes "k") (bytes "s"), world := () }
      401 (bytes "\x7b\"token\":\"x\"\x7d") () rfl (by decide)⟩

/-- C2, counterexample: for the non-empty token T consisting of the single
byte 0xFF (not valid UTF-8), the body `{"token": "<T>"}` with T JSON-encoded is
answered with status 200, and GetTokenWithOptions returns a nil error with the
token EF BF BD (the replacement character U+FFFD), which is not T. -/
theorem token_invalid_utf8_not_returned :
    ([0xFF] : GoString) ≠ [] ∧
    (∀ foldRune : Nat → Nat,
      GetTokenWithOptions
          (Runtime.answering foldRune (.ok ⟨200, tokenObject [] [] [] [0x20] [] [] false [0xFF]⟩))
          defaultOptions { receiver := NewWithCredentials (bytes "k") (bytes "s"), world := () } =
        (.ok ({ Token := [0xEF, 0xBF, 0xBD] }, none),
          { receiver := NewWithCredentials (bytes "k") (bytes "s"), world := () })) ∧
    ([0xEF, 0xBF, 0xBD] : GoString) ≠ [0xFF] := by
  refine ⟨by decide, ?_, by decide⟩
  intro foldRune
  exact GetTokenWithOptions_ok _ _ _ _ () ([0xEF, 0xBF, 0xBD], none) rfl
    (Decode_tokenObject_enc foldRune [] [] [] [0x20] [] [] false [0xFF] _ []
      AllSpace_nil AllSpace_nil AllSpace_nil AllSpace_space AllSpace_nil (by decide))

/-- C2, amended: when the transport returns a response with status 200 whose
body is the JSON object `{"token": "<T>"}`, with T JSON-encoded and T valid
UTF-8 (white space allowed around the tokens), GetTokenWithOptions returns a
GetTokenResponse whose Token equals T and a nil error. -/
theorem token_object_returns_token {σ : Type} (rt : Runtime σ) (opts : GetTokenOptions)
    (st : State σ) (w1 w2 w3 w4 w5 w6 : GoString) (escapeHTML : Bool) (T : GoString) (w : σ)
    (hdo : rt.Do st.receiver.client (buildRequest st.receiver opts) st.world =
      (.ok ⟨200, tokenObject w1 w2 w3 w4 w5 w6 escapeHTML T⟩, w))
    (h1 : AllSpace w1) (h2 : AllSpace w2) (h3 : AllSpace w3) (h4 : AllSpace w4)
    (h5 : AllSpace w5) (hT : utf8.ValidString T = true) :
    GetTokenWithOptions rt opts st = (.ok ({ Token := T }, none), { st with world := w }) :=
  GetTokenWithOptions_ok rt opts st _ w (T, none) hdo
    (Decode_tokenObject_enc rt.foldRune w1 w2 w3 w4 w5 w6 escapeHTML T T [] h1 h2 h3 h4 h5
      (unquoteLoop_appendStringLoop escapeHTML T hT))

/-- C2 amended, at a concrete input: the body `{"token": "a<b"}` with the
angle bracket escaped by the encoder. -/
theorem token_object_returns_token_witness :
    utf8.ValidString (bytes "a<b") = true ∧
    tokenObject [] [] [] [0x20] [] [0x0A] true (bytes "a<b") =
      bytes "\x7b\"token\": \"a\\u003cb\"\x7d\n" ∧
    GetTokenWithOptions
        (Runtime.answering (fun r => r)
          (.ok ⟨200, tokenObject [] [] [] [0x20] [] [0x0A] true (bytes "a<b")⟩))
        defaultOptions { receiver := NewWithCredentials (bytes "k") (bytes "s"), world := () } =
      (.ok ({ Token := bytes "a<b" }, none),
        { receiver := NewWithCredentials (bytes "k") (bytes "s"), world := () }) :=
  ⟨by decide, by decide,
    token_object_returns_token
      (Runtime.answering (fun r => r)
        (.ok ⟨200, tokenObject [] [] [] [0x20] [] [0x0A] true (bytes "a<b")⟩))
      defaultOptions { receiver := NewWithCredentials (bytes "k") (bytes "s"), world := () }
      [] [] [] [0x20] [] [0x0A] true (bytes "a<b") () rfl
      AllSpace_nil AllSpace_nil AllSpace_nil AllSpace_space AllSpace_nil (by decide)⟩

/-- C3, counterexample: for the client whose key is the single byte 0xFF (not
valid UTF-8) the "id" field of the request body, read back with the JSON
decoder, is EF BF BD (the replacement character U+FFFD), which is not the
client's key. -/
theorem request_id_not_key :
    (∀ foldRune : Nat → Nat,
      Decode foldRune (bytes "id")
          (buildRequest (NewWithCredentials [0xFF] (bytes "s")) defaultOptions).Body [] =
        .ok ([0xEF, 0xBF, 0xBD], none)) ∧
    ([0xEF, 0xBF, 0xBD] : GoString) ≠ (NewWithCredentials [0xFF] (bytes "s")).key := by
  refine ⟨?_, by decide⟩
  intro foldRune
  rfl

/-- C3, amended: for every client and every options value the request body
built by GetTokenWithOptions is valid JSON and is exactly the object with the
five members "expires-in", "id", "secret", "test-mode" and "user-id", each
once and no other, where "expires-in" is ExpiresIn in decimal, "test-mode" is
`true` or `false` as TestMode is, and "id", "secret" and "user-id" are the
JSON string literals of the key, the secret and UserID; each of these three
members reads back as exactly the key, the secret or UserID when that string
is valid UTF-8. -/
theorem request_body_five_fields (foldRune : Nat → Nat) (c : Client) (opts : GetTokenOptions) :
    (buildRequest c opts).Body =
      bytes "\x7b\"expires-in\":" ++ strconv.FormatInt opts.ExpiresIn ++
      bytes ",\"id\":" ++ appendString c.key true ++
      bytes ",\"secret\":" ++ appendString c.secret true ++
      bytes ",\"test-mode\":" ++ (if opts.TestMode then bytes "true" else bytes "false") ++
      bytes ",\"user-id\":" ++ appendString opts.UserID true ++ bytes "\x7d" ∧
    json.Valid (buildRequest c opts).Body = true ∧
    (utf8.ValidString c.key = true →
      Decode foldRune (bytes "id") (buildRequest c opts).Body [] = .ok (c.key, none)) ∧
    (utf8.ValidString c.secret = true →
      Decode foldRune (bytes "secret") (buildRequest c opts).Body [] = .ok (c.secret, none)) ∧
    (utf8.ValidString opts.UserID = true →
      Decode foldRune (bytes "user-id") (buildRequest c opts).Body [] =
        .ok (opts.UserID, none)) := by
  rw [buildRequest_Body]
  exact ⟨Marshal_requestData c opts, Valid_requestBody c opts,
    Decode_requestBody_fields foldRune c opts []⟩

/-- C3 amended, at a concrete input: key `abc`, secret `xyz`, one second, test
mode on, and a user id that is not valid UTF-8: the body is valid JSON and the
"id" member reads back as the key. -/
theorem request_body_five_fields_witness :
    utf8.ValidString (bytes "abc") = true ∧
    json.Valid (buildRequest (NewWithCredentials (bytes "abc") (bytes "xyz"))
        { UserID := [0xFF], ExpiresIn := Second, TestMode := true }).Body = true ∧
    Decode (fun r => r) (bytes "id")
        (buildRequest (NewWithCredentials (bytes "abc") (bytes "xyz"))
          { UserID := [0xFF], ExpiresIn := Second, TestMode := true }).Body [] =
      .ok (bytes "abc", none) :=
  ⟨by decide,
    (request_body_five_fields (fun r => r) (NewWithCredentials (bytes "abc") (bytes "xyz"))
      { UserID := [0xFF], ExpiresIn := Second, TestMode := true }).2.1,
    (request_body_five_fields (fun r => r) (NewWithCredentials (bytes "abc") (bytes "xyz"))
      { UserID := [0xFF], ExpiresIn := Second, TestMode := true }).2.2.1 (by decide)⟩

/-- C4: when sending the request fails with the error `e`, GetTokenWithOptions
returns exactly `e` as its error together with the zero-value
GetTokenResponse, and the transport is invoked once: the recorded requests are
the one request of the call. -/
theorem transport_error_returned_as_is {σ : Type} (rt : Runtime σ) (opts : GetTokenOptions)
    (st : State σ) (e : GoError) (w : σ)
    (hdo : rt.Do st.receiver.client (buildRequest st.receiver opts) st.world = (.error e, w)) :
    GetTokenWithOptions rt opts st = (.ok ({ Token := [] }, some e), { st with world := w }) ∧
    (GetTokenWithOptions rt.recording opts { receiver := st.receiver, world := (st.world, []) }).1
      = .ok ({ Token := [] }, some e) ∧
    (GetTokenWithOptions rt.recording opts
        { receiver := st.receiver, world := (st.world, []) }).2.world.2
      = [buildRequest st.receiver opts] := by
  refine ⟨?_, ?_, ?_⟩
  · unfold GetTokenWithOptions
    simp [hdo]
  · unfold GetTokenWithOptions
    simp [Runtime.recording, hdo]
  · rw [GetTokenWithOptions_state]
    simp [Runtime.recording]

/-- C4, at a concrete input: a refused connection. -/
theorem transport_error_returned_as_is_witness :
    (GetTokenWithOptions
        (Runtime.answering (fun r => r) (.error (.other (bytes "connection refused"))))
        defaultOptions { receiver := NewWithCredentials (bytes "k") (bytes "s"), world := () }).1 =
      .ok ({ Token := [] }, some (.other (bytes "connection refused"))) :=
  congrArg Prod.fst
    (transport_error_returned_as_is
      (Runtime.answering (fun r => r) (.error (.other (bytes "connection refused"))))
      defaultOptions { receiver := NewWithCredentials (bytes "k") (bytes "s"), world := () }
      (.other (bytes "connection refused")) () rfl).1

/-- C5, counterexample: the body `{"token":"x"}]` is not valid JSON, yet with
status 200 GetTokenWithOptions returns the token `x` and a nil error: the
decoder stops at the end of the first value. -/
theorem malformed_body_accepted :
    json.Valid (bytes "\x7b\"token\":\"x\"\x7d]") = false ∧
    (∀ foldRune : Nat → Nat,
      GetTokenWithOptions
          (Runtime.answering foldRune (.ok ⟨200, bytes "\x7b\"token\":\"x\"\x7d]"⟩))
          defaultOptions { receiver := NewWithCredentials (bytes "k") (bytes "s"), world := () } =
        (.ok ({ Token := bytes "x" }, none),
          { receiver := NewWithCredentials (bytes "k") (bytes "s"), world := () })) := by
  refine ⟨by decide, ?_⟩
  intro foldRune
  rfl

/-- C5, amended: on a response with status 200, (a) when the JSON decoder
cannot read a complete JSON value from the start of the body,
GetTokenWithOptions fails: it returns the zero-value GetTokenResponse and a
non-nil error, which is the decoder's error (a syntax error, io.EOF or
io.ErrUnexpectedEOF) and is not ErrCredentials; this is the case whenever no
initial segment of the body is valid JSON; (b) when the decoder does read a
complete first value, that value is an initial segment of the body that is
valid JSON, a proper one if the body is malformed, and the call returns the
same response and error as for a status-200 response whose body is that value
alone. -/
theorem body_without_first_value_fails {σ : Type} (rt : Runtime σ) (opts : GetTokenOptions)
    (st : State σ) (body : GoString) (w : σ)
    (hdo : rt.Do st.receiver.client (buildRequest st.receiver opts) st.world =
      (.ok ⟨200, body⟩, w)) :
    (∀ err : GoError, json.readValue body = .error err →
      GetTokenWithOptions rt opts st = (.ok ({ Token := [] }, some err), { st with world := w }) ∧
      (err = .SyntaxError ∨ err = .EOF ∨ err = .ErrUnexpectedEOF) ∧ err ≠ ErrCredentials) ∧
    ((∀ p ∈ body.inits, json.Valid p = false) →
      ∃ err : GoError, json.readValue body = .error err ∧
        GetTokenWithOptions rt opts st =
          (.ok ({ Token := [] }, some err), { st with world := w }) ∧
        (err = .SyntaxError ∨ err = .EOF ∨ err = .ErrUnexpectedEOF) ∧ err ≠ ErrCredentials) ∧
    (∀ v : GoString, json.readValue body = .ok v →
      v ∈ body.inits ∧ json.Valid v = true ∧ (json.Valid body = false → v ≠ body) ∧
      json.readValue v = .ok v ∧
      ∀ (τ : Type) (rt2 : Runtime τ) (opts2 : GetTokenOptions) (st2 : State τ) (w2 : τ),
        rt2.foldRune = rt.foldRune →
        rt2.Do st2.receiver.client (buildRequest st2.receiver opts2) st2.world =
          (.ok ⟨200, v⟩, w2) →
        (GetTokenWithOptions rt2 opts2 st2).1 = (GetTokenWithOptions rt opts st).1) := by
  have hfail : ∀ err : GoError, json.readValue body = .error err →
      GetTokenWithOptions rt opts st = (.ok ({ Token := [] }, some err), { st with world := w }) ∧
      (err = .SyntaxError ∨ err = .EOF ∨ err = .ErrUnexpectedEOF) ∧ err ≠ ErrCredentials := by
    intro err hr
    have hk := readValueLoop_error body body _ err hr
    refine ⟨?_, hk, ?_⟩
    · have hdec : Decode rt.foldRune (bytes "token") body [] = .ok ([], some err) := by
        unfold Decode
        rw [hr]
      exact GetTokenWithOptions_ok rt opts st body w ([], some err) hdo hdec
    · rcases hk with h | h | h <;> rw [h] <;> decide
  refine ⟨hfail, ?_, ?_⟩
  · intro hbad
    cases hr : readValue body with
    | ok v =>
      obtain ⟨hv1, hv2⟩ := readValue_valid body v hr
      rw [hbad v hv1] at hv2
      cases hv2
    | error err => exact ⟨err, rfl, hfail err hr⟩
  · intro v hr
    obtain ⟨hv1, hv2⟩ := readValue_valid body v hr
    have hidem := readValue_idem body v hr
    refine ⟨hv1, hv2, ?_, hidem, ?_⟩
    · intro hmal hvb
      rw [hvb, hmal] at hv2
      cases hv2
    · intro τ rt2 opts2 st2 w2 hf hdo2
      rw [GetTokenWithOptions_200 rt2 opts2 st2 v w2 hdo2,
        GetTokenWithOptions_200 rt opts st body w hdo, hf]
      unfold Decode
      rw [hr, hidem]

/-- C5 amended, at concrete inputs: the body `not json`, no initial segment of
which is valid JSON, and the body `1e`, from which no complete value can be
read. -/
theorem body_without_first_value_fails_witness :
    (∀ p ∈ (bytes "not json").inits, json.Valid p = false) ∧
    (∃ err : GoError, json.readValue (bytes "not json") = .error err ∧
      GetTokenWithOptions (Runtime.answering (fun r => r) (.ok ⟨200, bytes "not json"⟩))
          defaultOptions { receiver := NewWithCredentials (bytes "k") (bytes "s"), world := () } =
        (.ok ({ Token := [] }, some err),
          { receiver := NewWithCredentials (bytes "k") (bytes "s"), world := () }) ∧
      (err = .SyntaxError ∨ err = .EOF ∨ err = .ErrUnexpectedEOF) ∧ err ≠ ErrCredentials) ∧
    json.readValue (bytes "1e") = .error .ErrUnexpectedEOF ∧
    GetTokenWithOptions (Runtime.answering (fun r => r) (.ok ⟨200, bytes "1e"⟩))
        defaultOptions { receiver := NewWithCredentials (bytes "k") (bytes "s"), world := () } =
      (.ok ({ Token := [] }, some .ErrUnexpectedEOF),
        { receiver := NewWithCredentials (bytes "k") (bytes "s"), world := () }) :=
  ⟨by decide,
    (body_without_first_value_fails
      (Runtime.answering (fun r => r) (.ok ⟨200, bytes "not json"⟩))
      defaultOptions { receiver := NewWithCredentials (bytes "k") (bytes "s"), world := () }
      (bytes "not json") () rfl).2.1 (by decide),
    rfl,
    ((body_without_first_value_fails
      (Runtime.answering (fun r => r) (.ok ⟨200, bytes "1e"⟩))
      defaultOptions { receiver := NewWithCredentials (bytes "k") (bytes "s"), world := () }
      (bytes "1e") () rfl).1 .ErrUnexpectedEOF rfl).1⟩

/-- C6: the client built by New has as key the value of SETHEALTH_KEY and as
secret the value of SETHEALTH_SECRET, the empty string for a variable that is
absent: New equals NewWithCredentials of those two values; and with
SETHEALTH_KEY=abc and SETHEALTH_SECRET=xyz the body of its next request
contains the contiguous text `"id":"abc","secret":"xyz"`. -/
theorem New_uses_environment (env : Environ) (opts : GetTokenOptions) :
    New env = NewWithCredentials (Getenv env (bytes "SETHEALTH_KEY"))
      (Getenv env (bytes "SETHEALTH_SECRET")) ∧
    (New env).key = (env (bytes "SETHEALTH_KEY")).getD [] ∧
    (New env).secret = (env (bytes "SETHEALTH_SECRET")).getD [] ∧
    (env (bytes "SETHEALTH_KEY") = none → (New env).key = []) ∧
    (env (bytes "SETHEALTH_SECRET") = none → (New env).secret = []) ∧
    (env (bytes "SETHEALTH_KEY") = some (bytes "abc") →
      env (bytes "SETHEALTH_SECRET") = some (bytes "xyz") →
      ∃ a b : GoString, (buildRequest (New env) opts).Body =
        a ++ bytes "\"id\":\"abc\",\"secret\":\"xyz\"" ++ b) := by
  refine ⟨rfl, rfl, rfl, ?_, ?_, ?_⟩
  · intro h
    simp [New, NewWithCredentials, Getenv, h]
  · intro h
    simp [New, NewWithCredentials, Getenv, h]
  · intro hk hs
    refine ⟨bytes "\x7b\"expires-in\":" ++ strconv.FormatInt opts.ExpiresIn ++ bytes ",",
      bytes ",\"test-mode\":" ++ (if opts.TestMode then bytes "true" else bytes "false") ++
        bytes ",\"user-id\":" ++ appendString opts.UserID true ++ bytes "\x7d", ?_⟩
    rw [buildRequest_Body, Marshal_requestData]
    have e1 : (New env).key = bytes "abc" := by simp [New, NewWithCredentials, Getenv, hk]
    have e2 : (New env).secret = bytes "xyz" := by simp [New, NewWithCredentials, Getenv, hs]
    have a1 : appendString (bytes "abc") true = bytes "\"abc\"" := by decide
    have a2 : appendString (bytes "xyz") true = bytes "\"xyz\"" := by decide
    rw [e1, e2, a1, a2]
    simp [bytes]

/-- C6, at a concrete environment holding the two variables. -/
theorem New_uses_environment_witness :
    New exampleEnviron = NewWithCredentials (bytes "abc") (bytes "xyz") ∧
    ∃ a b : GoString, (buildRequest (New exampleEnviron) defaultOptions).Body =
      a ++ bytes "\"id\":\"abc\",\"secret\":\"xyz\"" ++ b :=
  ⟨by decide, (New_uses_environment exampleEnviron defaultOptions).2.2.2.2.2 (by decide) (by decide)⟩

/-- C7: GetToken returns the same result and leaves the same state as
GetTokenWithOptions called with the default options (empty user id, zero
expiration, test mode false), and hands the same request to the transport. -/
theorem GetToken_is_default_options {σ : Type} (rt : Runtime σ) (st : State σ)
    (log : List http.Request) :
    GetToken rt st =
      GetTokenWithOptions rt { UserID := [], ExpiresIn := 0, TestMode := false } st ∧
    (GetToken rt.recording { receiver := st.receiver, world := (st.world, log) }).1 =
      (GetTokenWithOptions rt.recording { UserID := [], ExpiresIn := 0, TestMode := false }
        { receiver := st.receiver, world := (st.world, log) }).1 ∧
    (GetToken rt.recording { receiver := st.receiver, world := (st.world, log) }).2.world.2 =
      log ++ [buildRequest st.receiver { UserID := [], ExpiresIn := 0, TestMode := false }] ∧
    (GetTokenWithOptions rt.recording { UserID := [], ExpiresIn := 0, TestMode := false }
        { receiver := st.receiver, world := (st.world, log) }).2.world.2 =
      log ++ [buildRequest st.receiver { UserID := [], ExpiresIn := 0, TestMode := false }] := by
  refine ⟨rfl, rfl, ?_, ?_⟩
  · unfold GetToken
    rw [GetTokenWithOptions_state]
    simp [Runtime.recording]
  · rw [GetTokenWithOptions_state]
    simp [Runtime.recording]

/-- C8: the request GetTokenWithOptions hands to the transport has method
POST, URL https://api.set.health/token, the single header Content-Type with
the single value `application/json; charset=utf-8`, and as body the serialized
JSON object built from the credentials and the options. -/
theorem request_handed_to_transport {σ : Type} (rt : Runtime σ) (opts : GetTokenOptions)
    (c : Client) (w : σ) :
    (GetTokenWithOptions rt.recording opts { receiver := c, world := (w, []) }).2.world.2 =
      [{ Method := bytes "POST",
         URL := bytes "https://api.set.health/token",
         Header := [(bytes "Content-Type", [bytes "application/json; charset=utf-8"])],
         Body := json.Marshal (requestData c opts) }] ∧
    json.Marshal (requestData c opts) =
      bytes "\x7b\"expires-in\":" ++ strconv.FormatInt opts.ExpiresIn ++
      bytes ",\"id\":" ++ appendString c.key true ++
      bytes ",\"secret\":" ++ appendString c.secret true ++
      bytes ",\"test-mode\":" ++ (if opts.TestMode then bytes "true" else bytes "false") ++
      bytes ",\"user-id\":" ++ appendString opts.UserID true ++ bytes "\x7d" := by
  refine ⟨?_, Marshal_requestData c opts⟩
  rw [GetTokenWithOptions_state]
  simp only [Runtime.recording, List.nil_append]
  have e : buildRequest c opts =
      { Method := bytes "POST",
        URL := bytes "https://api.set.health/token",
        Header := [(bytes "Content-Type", [bytes "application/json; charset=utf-8"])],
        Body := json.Marshal (requestData c opts) } := by
    unfold buildRequest http.NewRequest
    simp only
    congr 1
  rw [e]

/-- C9, counterexample: for the client built by NewWithCredentials with the
key 0xFF (one byte, not valid UTF-8) and the sequence of the single call
GetToken, the one request sent has an "id" field that reads back as EF BF BD
(U+FFFD), which is not the client's key. -/
theorem sequence_request_id_not_key :
    (∀ foldRune : Nat → Nat,
      (runCalls (Runtime.answering foldRune (.ok ⟨200, bytes "\x7b\"token\":\"x\"\x7d"⟩)).recording
          [Call.GetToken]
          { receiver := NewWithCredentials [0xFF] (bytes "s"), world := ((), []) }).2.world.2 =
        [buildRequest (NewWithCredentials [0xFF] (bytes "s")) defaultOptions] ∧
      Decode foldRune (bytes "id")
          (buildRequest (NewWithCredentials [0xFF] (bytes "s")) defaultOptions).Body [] =
        .ok ([0xEF, 0xBF, 0xBD], none)) ∧
    ([0xEF, 0xBF, 0xBD] : GoString) ≠ (NewWithCredentials [0xFF] (bytes "s")).key := by
  refine ⟨?_, by decide⟩
  intro foldRune
  exact ⟨rfl, rfl⟩

/-- C9, amended: for the client built by NewWithCredentials(key, secret) and
every sequence of GetToken / GetTokenWithOptions calls, whatever each call
returns, the receiver after the sequence, and after each call of it, is the
client as built (key and secret unchanged), the requests sent are those built
from that client, one for each call in order, the body of each carries the
JSON string literal of the key as "id" and of the secret as "secret", and
when the key (the secret) is valid UTF-8 the "id" (the "secret") field of
every request reads back as exactly the key (the secret). -/
theorem credentials_never_change {σ : Type} (rt : Runtime σ) (key secret : GoString)
    (calls : List Call) (w : σ) :
    (runCalls rt calls { receiver := NewWithCredentials key secret, world := w }).2.receiver =
      NewWithCredentials key secret ∧
    (runCalls rt calls { receiver := NewWithCredentials key secret, world := w }).2.receiver.key =
      key ∧
    (runCalls rt calls { receiver := NewWithCredentials key secret, world := w }).2.receiver.secret =
      secret ∧
    (∀ n : Nat, (runCalls rt (calls.take n)
        { receiver := NewWithCredentials key secret, world := w }).2.receiver =
      NewWithCredentials key secret) ∧
    (runCalls rt calls { receiver := NewWithCredentials key secret, world := w }).1.length =
      calls.length ∧
    (runCalls rt.recording calls
        { receiver := NewWithCredentials key secret, world := (w, []) }).2.world.2 =
      calls.map (fun call => buildRequest (NewWithCredentials key secret) call.opts) ∧
    (∀ req ∈ (runCalls rt.recording calls
        { receiver := NewWithCredentials key secret, world := (w, []) }).2.world.2,
      ∃ a b : GoString, req.Body =
        a ++ bytes ",\"id\":" ++ appendString key true ++
          bytes ",\"secret\":" ++ appendString secret true ++ b) ∧
    (utf8.ValidString key = true →
      ∀ (foldRune : Nat → Nat), ∀ req ∈ (runCalls rt.recording calls
          { receiver := NewWithCredentials key secret, world := (w, []) }).2.world.2,
        Decode foldRune (bytes "id") req.Body [] = .ok (key, none)) ∧
    (utf8.ValidString secret = true →
      ∀ (foldRune : Nat → Nat), ∀ req ∈ (runCalls rt.recording calls
          { receiver := NewWithCredentials key secret, world := (w, []) }).2.world.2,
        Decode foldRune (bytes "secret") req.Body [] = .ok (secret, none)) := by
  have hlen : ∀ (cs : List Call) (st : State σ), (runCalls rt cs st).1.length = cs.length := by
    intro cs
    induction cs with
    | nil => intro st; rfl
    | cons call rest ih =>
      intro st
      simp only [runCalls, List.length_cons, ih]
  refine ⟨runCalls_frame rt calls _, ?_, ?_, fun n => runCalls_frame rt _ _, hlen calls _, ?_, ?_,
    ?_, ?_⟩
  · rw [runCalls_frame]
    rfl
  · rw [runCalls_frame]
    rfl
  · rw [runCalls_log]
    simp
  · intro req hreq
    rw [runCalls_log] at hreq
    simp only [List.nil_append, List.mem_map] at hreq
    obtain ⟨call, -, rfl⟩ := hreq
    refine ⟨bytes "\x7b\"expires-in\":" ++ strconv.FormatInt call.opts.ExpiresIn,
      bytes ",\"test-mode\":" ++ (if call.opts.TestMode then bytes "true" else bytes "false") ++
        bytes ",\"user-id\":" ++ appendString call.opts.UserID true ++ bytes "\x7d", ?_⟩
    rw [buildRequest_Body, Marshal_requestData]
    simp [NewWithCredentials]
  · intro hk foldRune req hreq
    rw [runCalls_log] at hreq
    simp only [List.nil_append, List.mem_map] at hreq
    obtain ⟨call, -, rfl⟩ := hreq
    rw [buildRequest_Body]
    exact (Decode_requestBody_fields foldRune (NewWithCredentials key secret) call.opts []).1 hk
  · intro hs foldRune req hreq
    rw [runCalls_log] at hreq
    simp only [List.nil_append, List.mem_map] at hreq
    obtain ⟨call, -, rfl⟩ := hreq
    rw [buildRequest_Body]
    exact (Decode_requestBody_fields foldRune (NewWithCredentials key secret) call.opts []).2.1 hs

/-- C9 amended, at a concrete input: key `abc`, secret `xyz`, and the two
calls GetToken and GetTokenWithOptions with a user id that is not valid
UTF-8, the server answering 401 each time. -/
theorem credentials_never_change_witness :
    utf8.ValidString (bytes "abc") = true ∧
    (runCalls (Runtime.answering (fun r => r) (.ok ⟨401, []⟩))
        [Call.GetToken, Call.GetTokenWithOptions { UserID := [0xFF], ExpiresIn := 0, TestMode := true }]
        { receiver := NewWithCredentials (bytes "abc") (bytes "xyz"), world := () }).2.receiver =
      NewWithCredentials (bytes "abc") (bytes "xyz") ∧
    ∀ req ∈ (runCalls (Runtime.answering (fun r => r) (.ok ⟨401, []⟩)).recording
        [Call.GetToken, Call.GetTokenWithOptions { UserID := [0xFF], ExpiresIn := 0, TestMode := true }]
        { receiver := NewWithCredentials (bytes "abc") (bytes "xyz"), world := ((), []) }).2.world.2,
      Decode (fun r => r) (bytes "id") req.Body [] = .ok (bytes "abc", none) :=
  ⟨by decide,
    (credentials_never_change (Runtime.answering (fun r => r) (.ok ⟨401, []⟩))
      (bytes "abc") (bytes "xyz")
      [Call.GetToken, Call.GetTokenWithOptions { UserID := [0xFF], ExpiresIn := 0, TestMode := true }]
      ()).1,
    (credentials_never_change (Runtime.answering (fun r => r) (.ok ⟨401, []⟩))
      (bytes "abc") (bytes "xyz")
      [Call.GetToken, Call.GetTokenWithOptions { UserID := [0xFF], ExpiresIn := 0, TestMode := true }]
      ()).2.2.2.2.2.2.2.1 (by decide) (fun r => r)⟩

/-- C10: the "expires-in" member of the request body is ExpiresIn written as a
JSON integer in decimal, counted in nanoseconds: an optional minus sign
followed by digits without a leading zero whose value is the absolute value of
ExpiresIn, not quoted; an expiration of one second is sent as 1000000000 and
the zero duration as 0. -/
theorem expires_in_is_nanoseconds (c : Client) (opts : GetTokenOptions) :
    (∃ rest : GoString, (buildRequest c opts).Body =
      bytes "\x7b\"expires-in\":" ++ strconv.FormatInt opts.ExpiresIn ++ bytes "," ++ rest) ∧
    (∃ (d0 : Nat) (ds : GoString),
      strconv.FormatInt opts.ExpiresIn = (if opts.ExpiresIn < 0 then [0x2D] else []) ++ d0 :: ds ∧
      isDigit d0 = true ∧ Digits ds ∧ (d0 = 0x30 → ds = []) ∧
      (decimalValue (d0 :: ds) : Int) = |opts.ExpiresIn|) ∧
    (∃ rest : GoString, (buildRequest c { opts with ExpiresIn := Second }).Body =
      bytes "\x7b\"expires-in\":1000000000," ++ rest) ∧
    (∃ rest : GoString, (buildRequest c { opts with ExpiresIn := 0 }).Body =
      bytes "\x7b\"expires-in\":0," ++ rest) ∧
    strconv.FormatInt Second = bytes "1000000000" ∧
    strconv.FormatInt 0 = bytes "0" ∧
    Second = 1000000000 * Nanosecond := by
  have h1 : strconv.FormatInt Second = bytes "1000000000" := by decide
  have h0 : strconv.FormatInt 0 = bytes "0" := by decide
  have hb : ∀ o : GetTokenOptions, ∃ rest : GoString, (buildRequest c o).Body =
      bytes "\x7b\"expires-in\":" ++ strconv.FormatInt o.ExpiresIn ++ bytes "," ++ rest := by
    intro o
    refine ⟨bytes "\"id\":" ++ appendString c.key true ++
      bytes ",\"secret\":" ++ appendString c.secret true ++
      bytes ",\"test-mode\":" ++ (if o.TestMode then bytes "true" else bytes "false") ++
      bytes ",\"user-id\":" ++ appendString o.UserID true ++ bytes "\x7d", ?_⟩
    rw [buildRequest_Body, Marshal_requestData]
    simp only [List.append_assoc]
    rfl
  obtain ⟨r1, e1⟩ := hb { opts with ExpiresIn := Second }
  obtain ⟨r0, e0⟩ := hb { opts with ExpiresIn := 0 }
  refine ⟨hb opts, FormatInt_shape opts.ExpiresIn, ⟨r1, ?_⟩, ⟨r0, ?_⟩, h1, h0, by decide⟩
  · rw [e1]
    simp only [h1, List.append_assoc]
    rfl
  · rw [e0]
    simp only [h0, List.append_assoc]
    rfl

end Sethealth
